import Mathlib

/-!
# Comment-score consensus of pocketnet.core: a verification development

Shallow embedding of

* `src/pocketdb/models/base/PocketTypes.h` (transaction categories, rating types,
  `TransactionIndexingInfo`),
* `src/pocketdb/repositories/ConsensusRepository.cpp` (the queries validation reads),
* `src/pocketdb/repositories/BaseRepository.h` and `src/pocketdb/SQLiteDatabase.cpp`
  (`TryTransactionStep` and the store transaction),
* `src/pocketdb/consensus/social/Base.hpp` (`SocialBaseConsensus`),
* `src/pocketdb/consensus/social/ScoreComment.hpp` (`ScoreCommentConsensus`, its
  checkpoints and its factory),
* `src/pocketdb/models/dto/Post.cpp` (`Post::BuildHash`),
* `src/pocketdb/repositories/ChainRepository.h` (the chain indexer, whose bodies are modelled
  from the specification),
* `src/pocketdb/web/PocketFrontend.cpp` (`PocketFrontend::GetFile`),

followed by the theorems about them.

Conventions of the embedding.

* A `shared_ptr` field that may be null is an `Option`; dereferencing it (`*p`) is a bind in
  the `Option` monad, so a validation that dereferences a null pointer has no result (`none`).
* The process-wide singletons (`ConsensusRepoInst`, the reputation consensus) are passed
  explicitly as an `Env`.
* C++ `int` values read from the store go through `sqlite3_column_int`, which keeps the low
  32 bits; `int` additions are taken modulo `2^32` as well (`toInt32`).
* Overloads are told apart by a suffix naming their parameters
  (`Validate_tx_block`, `Validate_tx`, `ValidateLimit_tx_count`, ...).
-/

set_option autoImplicit false

/-! ## Machine integers -/

/-- Two's complement reading of the low 32 bits of an integer (a C++ `int`). -/
def toInt32 (x : Int) : Int := (x + 2147483648) % 4294967296 - 2147483648

namespace PocketTx

/-! ## `PocketTypes.h` -/

/-- The unscoped enum `PocketTxType`: an `int` with named values. -/
abbrev PocketTxType := Int

def NOT_SUPPORTED : PocketTxType := 0
def TX_DEFAULT : PocketTxType := 1
def TX_COINBASE : PocketTxType := 2
def TX_COINSTAKE : PocketTxType := 3
def ACCOUNT_USER : PocketTxType := 100
def ACCOUNT_VIDEO_SERVER : PocketTxType := 101
def ACCOUNT_MESSAGE_SERVER : PocketTxType := 102
def ACCOUNT_SETTING : PocketTxType := 103
def CONTENT_POST : PocketTxType := 200
def CONTENT_VIDEO : PocketTxType := 201
def CONTENT_TRANSLATE : PocketTxType := 202
def CONTENT_SERVERPING : PocketTxType := 203
def CONTENT_COMMENT : PocketTxType := 204
def CONTENT_COMMENT_EDIT : PocketTxType := 205
def CONTENT_COMMENT_DELETE : PocketTxType := 206
def CONTENT_DELETE : PocketTxType := 207
def ACTION_SCORE_CONTENT : PocketTxType := 300
def ACTION_SCORE_COMMENT : PocketTxType := 301
def ACTION_SUBSCRIBE : PocketTxType := 302
def ACTION_SUBSCRIBE_PRIVATE : PocketTxType := 303
def ACTION_SUBSCRIBE_CANCEL : PocketTxType := 304
def ACTION_BLOCKING : PocketTxType := 305
def ACTION_BLOCKING_CANCEL : PocketTxType := 306
def ACTION_COMPLAIN : PocketTxType := 307

/-- The unscoped enum `RatingType`. -/
abbrev RatingType := Int

def RATING_ACCOUNT : RatingType := 0
def RATING_ACCOUNT_LIKERS : RatingType := 1
def RATING_POST : RatingType := 2
def RATING_COMMENT : RatingType := 3

/-- The payload object behind `m_payload`, with the string slots `Post.cpp` reads
(`GetString1` .. `GetString7`); each is a `shared_ptr` that may be null. -/
structure Payload where
  m_string1 : Option String := none
  m_string2 : Option String := none
  m_string3 : Option String := none
  m_string4 : Option String := none
  m_string5 : Option String := none
  m_string6 : Option String := none
  m_string7 : Option String := none
  deriving DecidableEq, Repr

namespace Payload

def GetString1 (p : Payload) : Option String := p.m_string1
def GetString2 (p : Payload) : Option String := p.m_string2
def GetString3 (p : Payload) : Option String := p.m_string3
def GetString4 (p : Payload) : Option String := p.m_string4
def GetString5 (p : Payload) : Option String := p.m_string5
def GetString6 (p : Payload) : Option String := p.m_string6
def GetString7 (p : Payload) : Option String := p.m_string7

end Payload

/-- The in-memory transaction object (`PTransactionRef`). The hash and the time are given to
the constructor (`Transaction(hash, time)`, see `Post::Post`) and the category is set by it;
the string and integer slots, the payload and the two op-return hashes are `shared_ptr`s
that may be null. `m_opreturn_tx` is the hash committed in the op-return data of the
transaction (`GetOpReturnTx`) and `m_opreturn_payload` the hash computed from the payload
(`GetOpReturnPayload`). -/
structure Transaction where
  m_type : PocketTxType
  m_hash : String
  m_time : Int
  m_string1 : Option String := none
  m_string2 : Option String := none
  m_int1 : Option Int := none
  m_string3 : Option String := none
  m_payload : Option Payload := none
  m_opreturn_tx : Option String := none
  m_opreturn_payload : Option String := none
  deriving DecidableEq, Repr

namespace Transaction

def GetType (tx : Transaction) : PocketTxType := tx.m_type
def GetHash (tx : Transaction) : String := tx.m_hash
def GetTime (tx : Transaction) : Int := tx.m_time
def GetString1 (tx : Transaction) : Option String := tx.m_string1
def GetString2 (tx : Transaction) : Option String := tx.m_string2
def GetInt1 (tx : Transaction) : Option Int := tx.m_int1
def GetString3 (tx : Transaction) : Option String := tx.m_string3

/-- Modelled from the spec: `GetOpReturnTx` (`pocketdb/models/base/Transaction.h`, not
under src) returns the commitment "carried in the transaction's op-return data". -/
def GetOpReturnTx (tx : Transaction) : Option String := tx.m_opreturn_tx

/-- Modelled from the spec: `GetOpReturnPayload` (same header) returns the hash of the
"attached opaque payload blob", which "must match" that commitment. -/
def GetOpReturnPayload (tx : Transaction) : Option String := tx.m_opreturn_payload

/-- Modelled from the spec: the accessors of the `ScoreComment` DTO
(`pocketdb/models/dto/ScoreComment.hpp`, not under src). The actor address is slot
`String1`, the scored comment is slot `String2` and the value is slot `Int1` ("score uses
slot1=value"), the layout the store queries read back as `AddressHash`, `ContentTxHash`
and `Value`. -/
def GetAddress (tx : Transaction) : Option String := tx.m_string1

/-- Modelled from the spec: see `GetAddress`. -/
def GetCommentTxHash (tx : Transaction) : Option String := tx.m_string2

/-- Modelled from the spec: see `GetAddress`. -/
def GetValue (tx : Transaction) : Option Int := tx.m_int1

end Transaction

/-- A candidate block: `PocketBlock`, the vector of its transactions in block order. -/
abbrev PocketBlock := List Transaction

end PocketTx

namespace PocketDb

open PocketTx

/-! ## The store, as `ConsensusRepository.cpp` reads it -/

/-- A row of the `Transactions` table, with the columns `GetLastContent` filters on and
`CreateTransactionFromListRow` reads. Nullable columns are `Option`s. -/
structure TransactionsRow where
  Type_ : Int
  Hash : String
  Time : Int
  Height : Option Int := none
  Last : Int := 0
  String1 : Option String := none
  String2 : Option String := none
  Int1 : Option Int := none
  deriving DecidableEq, Repr

/-- A row of one of the views (`vUsers`, `vScores`, `vScoreComments`, `vBlockings`,
`vComments`, `vPosts`), with the columns the queries name. The view definitions are not under
src, so every view is kept as a relation of its own and every column is nullable. -/
structure ViewRow where
  Type_ : Option Int := none
  Hash : Option String := none
  Time : Option Int := none
  Height : Option Int := none
  Last : Option Int := none
  AddressHash : Option String := none
  AddressToHash : Option String := none
  ContentTxHash : Option String := none
  Id : Option Int := none
  RootTxHash : Option String := none
  deriving DecidableEq, Repr

/-- A row of the `Ratings` table ("subject-id, type, height, value"); the series is keyed by
subject, type and height, the value is read through `TryGetColumnInt` and may be null. -/
structure RatingsRow where
  Type_ : Int
  Id : Int
  Height : Int
  Value : Option Int := none
  deriving DecidableEq, Repr

/-- The database behind `ConsensusRepoInst`. -/
structure ConsensusRepository where
  Transactions : List TransactionsRow := []
  vUsers : List ViewRow := []
  vScores : List ViewRow := []
  vScoreComments : List ViewRow := []
  vBlockings : List ViewRow := []
  Ratings : List RatingsRow := []
  vComments : List ViewRow := []
  vPosts : List ViewRow := []

/-- The narrowing `sqlite3_column_int` applies to the 64-bit value of a column. -/
def sqlite3_column_int (v : Int) : Int := toInt32 v

/-- Source `TryGetColumnInt` of `BaseRepository.h`: a null column gives `(false, 0)`, any other
column its value narrowed to `int`. -/
def TryGetColumnInt (column : Option Int) : Bool × Int :=
  match column with
  | none => (false, 0)
  | some v => (true, sqlite3_column_int v)

/-- Modelled from the spec: `CreateTransactionFromListRow` (a helper of the transaction
repository, not under src) builds the transaction object of the selected `Transactions`
row: its hash, category, time and slots ("hash, category, time, ..., 5 string/5 int
slots"). -/
def CreateTransactionFromListRow (row : TransactionsRow) : Bool × Transaction :=
  (true, { m_type := row.Type_, m_hash := row.Hash, m_time := row.Time,
           m_string1 := row.String1, m_string2 := row.String2, m_int1 := row.Int1 })

namespace ConsensusRepository

/-- The `WHERE` clause `GetLastContent` appends to `FullTransactionSql`. -/
def GetLastContent_where (rootHash : String) (t : TransactionsRow) : Bool :=
  t.String2 == some rootHash
    && t.Last == 1
    && t.Height.isSome
    && decide (t.Type_ ∈ [200, 201, 202, 203, 204, 205, 206])

/-- Source `ConsensusRepository::GetLastContent`: the first selected row, turned into a
transaction; `none` is the null pointer the source returns with `false`. The statement
`FullTransactionSql` it extends is not under src; it selects the rows `t` of `Transactions`
(the appended clause filters on `t.String2`, `t.Last`, `t.Height` and `t.Type`). -/
def GetLastContent (db : ConsensusRepository) (rootHash : String) : Option Transaction :=
  match db.Transactions.find? (GetLastContent_where rootHash) with
  | some row =>
    match CreateTransactionFromListRow row with
    | (true, transaction) => some transaction
    | (false, _) => none
  | none => none

/-- The `WHERE` clause of `ExistsUserRegistrations`: `AddressHash in (?, ..., ?)`, and
`Height is not null` unless the mempool is included. -/
def ExistsUserRegistrations_where (addresses : List String) (mempool : Bool) (u : ViewRow) :
    Bool :=
  (match u.AddressHash with
   | some a => decide (a ∈ addresses)
   | none => false)
    && (mempool || u.Height.isSome)

/-- Source `ConsensusRepository::ExistsUserRegistrations`: `count(distinct(AddressHash))` over the
selected rows of `vUsers` is compared with `(int) addresses.size()`. -/
def ExistsUserRegistrations (db : ConsensusRepository) (addresses : List String)
    (mempool : Bool) : Bool :=
  if addresses.isEmpty then false
  else
    let selected := db.vUsers.filter (ExistsUserRegistrations_where addresses mempool)
    let countDistinct : Int := ((selected.filterMap (fun u => u.AddressHash)).dedup.length : Nat)
    match TryGetColumnInt (some countDistinct) with
    | (true, value) => value == toInt32 (addresses.length : Nat)
    | (false, _) => false

/-- The `WHERE` clause of `GetLastBlockingType`. -/
def GetLastBlockingType_where (address addressTo : String) (b : ViewRow) : Bool :=
  b.AddressHash == some address
    && b.AddressToHash == some addressTo
    && b.Height.isSome
    && b.Last == some 1

/-- Source `ConsensusRepository::GetLastBlockingType`: the type of the first selected row of
`vBlockings`. -/
def GetLastBlockingType (db : ConsensusRepository) (address addressTo : String) :
    Bool × PocketTxType :=
  match db.vBlockings.find? (GetLastBlockingType_where address addressTo) with
  | some row =>
    match TryGetColumnInt row.Type_ with
    | (true, value) => (true, value)
    | (false, _) => (false, NOT_SUPPORTED)
  | none => (false, NOT_SUPPORTED)

/-- The `WHERE` clause of `ExistsScore`. -/
def ExistsScore_where (address contentHash : String) (type : PocketTxType) (mempool : Bool)
    (s : ViewRow) : Bool :=
  s.AddressHash == some address
    && s.ContentTxHash == some contentHash
    && s.Type_ == some type
    && (mempool || s.Height.isSome)

/-- Source `ConsensusRepository::ExistsScore`: whether the query over `vScores` has a row. -/
def ExistsScore (db : ConsensusRepository) (address contentHash : String)
    (type : PocketTxType) (mempool : Bool) : Bool :=
  (db.vScores.find? (ExistsScore_where address contentHash type mempool)).isSome

/-- Modelled from the spec: `GetCount` (declared in `ConsensusRepository.h`, not under
src) runs a `select count(*)` statement and returns its single column as an `int`, read
like every other integer column of the repository through `TryGetColumnInt`, 0 when the
read fails ("windowed counters"). -/
def GetCount (rows : List ViewRow) : Int :=
  match TryGetColumnInt (some ((rows.length : Nat) : Int)) with
  | (true, value) => value
  | (false, _) => 0

/-- The `WHERE` clause of `CountMempoolScoreComment`. -/
def CountMempoolScoreComment_where (address : String) (s : ViewRow) : Bool :=
  s.Height.isNone && s.AddressHash == some address

/-- Source `ConsensusRepository::CountMempoolScoreComment`. -/
def CountMempoolScoreComment (db : ConsensusRepository) (address : String) : Int :=
  GetCount (db.vScoreComments.filter (CountMempoolScoreComment_where address))

/-- The `WHERE` clause of `CountChainScoreCommentTime`. -/
def CountChainScoreCommentTime_where (address : String) (time : Int) (s : ViewRow) : Bool :=
  s.Height.isSome
    && s.AddressHash == some address
    && (match s.Time with
        | some t => decide (t ≥ time)
        | none => false)
    && s.Last == some 1

/-- Source `ConsensusRepository::CountChainScoreCommentTime`. -/
def CountChainScoreCommentTime (db : ConsensusRepository) (address : String) (time : Int) :
    Int :=
  GetCount (db.vScoreComments.filter (CountChainScoreCommentTime_where address time))

/-- The `WHERE` clause of `CountChainScoreCommentHeight`. -/
def CountChainScoreCommentHeight_where (address : String) (height : Int) (s : ViewRow) :
    Bool :=
  s.Height.isSome
    && s.AddressHash == some address
    && (match s.Height with
        | some h => decide (h ≥ height)
        | none => false)
    && s.Last == some 1

/-- Source `ConsensusRepository::CountChainScoreCommentHeight`. -/
def CountChainScoreCommentHeight (db : ConsensusRepository) (address : String)
    (height : Int) : Int :=
  GetCount (db.vScoreComments.filter (CountChainScoreCommentHeight_where address height))

end ConsensusRepository

end PocketDb

namespace PocketConsensus

open PocketTx PocketDb

/-! ## `consensus/social/Base.hpp` -/

/-- The rejection reasons of `SocialConsensusResult` that `Base.hpp` and `ScoreComment.hpp`
name (the enum itself is declared in `pocketdb/consensus/Base.hpp`, not under src). -/
inductive SocialConsensusResult
  | SocialConsensusResult_Success
  | SocialConsensusResult_NotRegistered
  | SocialConsensusResult_NotFound
  | SocialConsensusResult_SelfCommentScore
  | SocialConsensusResult_DoubleCommentScore
  | SocialConsensusResult_CommentScoreLimit
  | SocialConsensusResult_Blocking
  | SocialConsensusResult_Failed
  | SocialConsensusResult_PayloadORNotFound
  | SocialConsensusResult_TxORNotFound
  | SocialConsensusResult_FailedOpReturn
  deriving DecidableEq, Repr

open SocialConsensusResult

/-- Modelled from the spec: the privilege tier `GetAccountMode` answers, "{Full, Trial}"
(the enum is declared with the reputation consensus, not under src). -/
inductive AccountMode
  | AccountMode_Trial
  | AccountMode_Full
  deriving DecidableEq, Repr

open AccountMode

/-- What a validation returns: `tuple<bool, SocialConsensusResult>`. -/
abbrev ConsensusResult := Bool × SocialConsensusResult

/-- The member `Success{true, SocialConsensusResult_Success}`. -/
def Success : ConsensusResult := (true, SocialConsensusResult_Success)

/-- The state a validation reads: the repository singleton `ConsensusRepoInst` and the
reputation consensus, `ReputationConsensusFactory::Instance(height)->GetAccountMode(address)`
(`pocketdb/consensus/Reputation.hpp`, not under src), taken as a parameter. -/
structure Env where
  ConsensusRepoInst : ConsensusRepository
  GetAccountMode : Int → String → AccountMode

/-- Source `SocialBaseConsensus::IsIn`. -/
def IsIn (txType : PocketTxType) (inTypes : List PocketTxType) : Bool :=
  match inTypes with
  | [] => false
  | inType :: rest => if inType = txType then true else IsIn txType rest

/-- Source `SocialBaseConsensus::IsEmpty(const shared_ptr<string>&)`. -/
def IsEmpty_string (ptr : Option String) : Bool :=
  match ptr with
  | none => true
  | some s => s.isEmpty

/-- Source `SocialBaseConsensus::IsEmpty(const shared_ptr<int64_t>&)`. -/
def IsEmpty_int64 (ptr : Option Int) : Bool :=
  match ptr with
  | none => true
  | some _ => false

/-- The class `SocialBaseConsensus`: its `Height` and its pure virtual members, which a rule
set supplies. A member that dereferences transaction fields answers in `Option`. -/
structure SocialBaseConsensus where
  Height : Int
  ValidateModel : Env → Transaction → Option ConsensusResult
  ValidateLimit_tx_block : Env → Transaction → PocketBlock → Option ConsensusResult
  ValidateLimit_tx : Env → Transaction → Option ConsensusResult
  CheckModel : Transaction → ConsensusResult
  GetAddressesForCheckRegistration : Transaction → Option (List String)

namespace SocialBaseConsensus

/-- The loop `for (auto blockTx : block)` of `Validate(tx, block)`: every `ACCOUNT_USER`
transaction of the block has its address (`*blockTx->GetString1()`) erased from
`addresses`. -/
def Validate_tx_block_loop : PocketBlock → List String → Option (List String)
  | [], addresses => some addresses
  | blockTx :: rest, addresses =>
    if !IsIn blockTx.GetType [ACCOUNT_USER] then
      Validate_tx_block_loop rest addresses
    else do
      let blockAddress ← blockTx.GetString1
      if blockAddress ∈ addresses then
        Validate_tx_block_loop rest (addresses.filter (fun a => a != blockAddress))
      else
        Validate_tx_block_loop rest addresses

/-- The two steps `Validate(tx, block)` runs after its registration block: `ValidateModel`,
then `ValidateLimit(tx, block)`. -/
def Validate_tx_block_rest (c : SocialBaseConsensus) (env : Env) (tx : Transaction)
    (block : PocketBlock) : Option ConsensusResult := do
  let (ok, result) ← c.ValidateModel env tx
  if !ok then
    pure (false, result)
  else
    let (ok, result) ← c.ValidateLimit_tx_block env tx block
    if !ok then
      pure (false, result)
    else
      pure Success

/-- Source `SocialBaseConsensus::Validate(tx, block)`. -/
def Validate_tx_block (c : SocialBaseConsensus) (env : Env) (tx : Transaction)
    (block : PocketBlock) : Option ConsensusResult := do
  let addresses ← c.GetAddressesForCheckRegistration tx
  if !addresses.isEmpty then
    let addresses ← Validate_tx_block_loop block addresses
    if !addresses.isEmpty
        && !ConsensusRepository.ExistsUserRegistrations env.ConsensusRepoInst addresses false then
      pure (false, SocialConsensusResult_NotRegistered)
    else
      Validate_tx_block_rest c env tx block
  else
    Validate_tx_block_rest c env tx block

/-- The two steps `Validate(tx)` runs after its registration check: `ValidateModel`, then
`ValidateLimit(tx)`. -/
def Validate_tx_rest (c : SocialBaseConsensus) (env : Env) (tx : Transaction) :
    Option ConsensusResult := do
  let (ok, result) ← c.ValidateModel env tx
  if !ok then
    pure (false, result)
  else
    let (ok, result) ← c.ValidateLimit_tx env tx
    if !ok then
      pure (false, result)
    else
      pure Success

/-- Source `SocialBaseConsensus::Validate(tx)`. -/
def Validate_tx (c : SocialBaseConsensus) (env : Env) (tx : Transaction) :
    Option ConsensusResult := do
  let addresses ← c.GetAddressesForCheckRegistration tx
  if !addresses.isEmpty
      && !ConsensusRepository.ExistsUserRegistrations env.ConsensusRepoInst addresses true then
    pure (false, SocialConsensusResult_NotRegistered)
  else
    Validate_tx_rest c env tx

end SocialBaseConsensus

/-! ## `consensus/social/ScoreComment.hpp` -/

/-- The five classes of `ScoreComment.hpp`; each checkpoint class derives from the one
before it. -/
inductive ScoreCommentClass
  | ScoreCommentConsensus_base
  | ScoreCommentConsensus_checkpoint_430000
  | ScoreCommentConsensus_checkpoint_514184
  | ScoreCommentConsensus_checkpoint_1124000
  | ScoreCommentConsensus_checkpoint_1180000
  deriving DecidableEq, Repr

open ScoreCommentClass

/-- An object of one of the classes of `ScoreComment.hpp`: its dynamic class and the
`Height` given to the constructor. -/
structure ScoreCommentConsensus where
  cls : ScoreCommentClass
  Height : Int
  deriving DecidableEq, Repr

namespace ScoreCommentConsensus

/-- Source `GetLimitWindow`: 86400, overridden by checkpoint 1180000 with 1440. -/
def GetLimitWindow (c : ScoreCommentConsensus) : Int :=
  match c.cls with
  | ScoreCommentConsensus_checkpoint_1180000 => 1440
  | _ => 86400

/-- Source `GetFullAccountScoresLimit`. -/
def GetFullAccountScoresLimit (_c : ScoreCommentConsensus) : Int := 600

/-- Source `GetTrialAccountScoresLimit`. -/
def GetTrialAccountScoresLimit (_c : ScoreCommentConsensus) : Int := 300

/-- Source `GetScoresLimit`. -/
def GetScoresLimit (c : ScoreCommentConsensus) (mode : AccountMode) : Int :=
  if mode = AccountMode_Full then c.GetFullAccountScoresLimit else c.GetTrialAccountScoresLimit

/-- Source `CheckpointHeight`. -/
def CheckpointHeight (c : ScoreCommentConsensus) : Int :=
  match c.cls with
  | ScoreCommentConsensus_base => 0
  | ScoreCommentConsensus_checkpoint_430000 => 430000
  | ScoreCommentConsensus_checkpoint_514184 => 514184
  | ScoreCommentConsensus_checkpoint_1124000 => 1124000
  | ScoreCommentConsensus_checkpoint_1180000 => 1180000

/-- Source `ValidateBlocking`: `Success` in the base class, the blocking query in checkpoint
430000, `Success` again from checkpoint 514184 on. -/
def ValidateBlocking (c : ScoreCommentConsensus) (env : Env) (commentAddress : String)
    (tx : Transaction) : Option ConsensusResult :=
  match c.cls with
  | ScoreCommentConsensus_checkpoint_430000 => do
    let address ← tx.GetAddress
    let (existsBlocking, blockingType) :=
      ConsensusRepository.GetLastBlockingType env.ConsensusRepoInst commentAddress address
    if existsBlocking && blockingType == ACTION_BLOCKING then
      pure (false, SocialConsensusResult_Blocking)
    else
      pure Success
  | _ => pure Success

/-- Source `ValidateModel`. -/
def ValidateModel (c : ScoreCommentConsensus) (env : Env) (ptx : Transaction) :
    Option ConsensusResult := do
  let commentTxHash ← ptx.GetCommentTxHash
  match ConsensusRepository.GetLastContent env.ConsensusRepoInst commentTxHash with
  | none => pure (false, SocialConsensusResult_NotFound)
  | some lastContent =>
    if lastContent.GetType = CONTENT_COMMENT_DELETE then
      pure (false, SocialConsensusResult_NotFound)
    else do
      let address ← ptx.GetAddress
      let commentAddress ← lastContent.GetString1
      if address = commentAddress then
        pure (false, SocialConsensusResult_SelfCommentScore)
      else do
        let (ok, result) ← c.ValidateBlocking env commentAddress ptx
        if !ok then
          pure (false, result)
        else if ConsensusRepository.ExistsScore env.ConsensusRepoInst address commentTxHash
            ACTION_SCORE_COMMENT false then
          pure (false, SocialConsensusResult_DoubleCommentScore)
        else
          pure Success

/-- Source `CheckBlockLimitTime`: the sibling counts when its time is not later; checkpoint 1124000
overrides it with `true`. -/
def CheckBlockLimitTime (c : ScoreCommentConsensus) (ptx blockPtx : Transaction) : Bool :=
  match c.cls with
  | ScoreCommentConsensus_checkpoint_1124000 => true
  | ScoreCommentConsensus_checkpoint_1180000 => true
  | _ => decide (blockPtx.GetTime ≤ ptx.GetTime)

/-- Source `GetChainCount`: the time window up to checkpoint 1124000, the height window from
checkpoint 1180000. -/
def GetChainCount (c : ScoreCommentConsensus) (env : Env) (ptx : Transaction) : Option Int :=
  match c.cls with
  | ScoreCommentConsensus_checkpoint_1180000 => do
    let address ← ptx.GetAddress
    pure (ConsensusRepository.CountChainScoreCommentHeight env.ConsensusRepoInst address
      (c.Height - c.GetLimitWindow))
  | _ => do
    let address ← ptx.GetAddress
    pure (ConsensusRepository.CountChainScoreCommentTime env.ConsensusRepoInst address
      (ptx.GetTime - c.GetLimitWindow))

/-- Source `ValidateLimit(shared_ptr<ScoreComment> tx, int count)`. -/
def ValidateLimit_tx_count (c : ScoreCommentConsensus) (env : Env) (tx : Transaction)
    (count : Int) : Option ConsensusResult := do
  let address ← tx.GetAddress
  let accountMode := env.GetAccountMode c.Height address
  let limit := c.GetScoresLimit accountMode
  if count ≥ limit then
    pure (false, SocialConsensusResult_CommentScoreLimit)
  else
    pure Success

/-- The loop `for (auto blockTx : block)` of `ValidateLimit(tx, block)`, carrying `count`,
followed by the closing `return ValidateLimit(ptx, count)`. -/
def ValidateLimit_tx_block_loop (c : ScoreCommentConsensus) (env : Env) (ptx : Transaction) :
    PocketBlock → Int → Option ConsensusResult
  | [], count => c.ValidateLimit_tx_count env ptx count
  | blockTx :: rest, count =>
    if !IsIn blockTx.GetType [ACTION_SCORE_COMMENT] then
      ValidateLimit_tx_block_loop c env ptx rest count
    else if blockTx.GetHash = ptx.GetHash then
      ValidateLimit_tx_block_loop c env ptx rest count
    else do
      let address ← ptx.GetAddress
      let blockAddress ← blockTx.GetAddress
      if address = blockAddress then
        let count := if c.CheckBlockLimitTime ptx blockTx then toInt32 (count + 1) else count
        let commentTxHash ← ptx.GetCommentTxHash
        if blockTx.GetHash = commentTxHash then
          pure (false, SocialConsensusResult_DoubleCommentScore)
        else
          ValidateLimit_tx_block_loop c env ptx rest count
      else
        ValidateLimit_tx_block_loop c env ptx rest count

/-- Source `ValidateLimit(tx, block)`. -/
def ValidateLimit_tx_block (c : ScoreCommentConsensus) (env : Env) (ptx : Transaction)
    (block : PocketBlock) : Option ConsensusResult := do
  let count ← c.GetChainCount env ptx
  c.ValidateLimit_tx_block_loop env ptx block count

/-- Source `ValidateLimit(tx)`. -/
def ValidateLimit_tx (c : ScoreCommentConsensus) (env : Env) (ptx : Transaction) :
    Option ConsensusResult := do
  let address ← ptx.GetAddress
  let commentTxHash ← ptx.GetCommentTxHash
  if ConsensusRepository.ExistsScore env.ConsensusRepoInst address commentTxHash
      ACTION_SCORE_COMMENT true then
    pure (false, SocialConsensusResult_DoubleCommentScore)
  else do
    let count ← c.GetChainCount env ptx
    let count := toInt32
      (count + ConsensusRepository.CountMempoolScoreComment env.ConsensusRepoInst address)
    c.ValidateLimit_tx_count env ptx count

/-- Source `CheckModel`. -/
def CheckModel (_c : ScoreCommentConsensus) (ptx : Transaction) : ConsensusResult :=
  if IsEmpty_string ptx.GetAddress then (false, SocialConsensusResult_Failed)
  else if IsEmpty_string ptx.GetCommentTxHash then (false, SocialConsensusResult_Failed)
  else if IsEmpty_int64 ptx.GetValue then (false, SocialConsensusResult_Failed)
  else
    match ptx.GetValue with
    | some value =>
      if value ≠ 1 ∧ value ≠ -1 then (false, SocialConsensusResult_Failed) else Success
    | none => (false, SocialConsensusResult_Failed)

/-- Source `GetAddressesForCheckRegistration`. -/
def GetAddressesForCheckRegistration (_c : ScoreCommentConsensus) (ptx : Transaction) :
    Option (List String) := do
  let address ← ptx.GetAddress
  pure [address]

/-- The object seen through its base class `SocialBaseConsensus`: the overrides fill the
pure virtual members. -/
def toSocialBaseConsensus (c : ScoreCommentConsensus) : SocialBaseConsensus where
  Height := c.Height
  ValidateModel := c.ValidateModel
  ValidateLimit_tx_block := c.ValidateLimit_tx_block
  ValidateLimit_tx := c.ValidateLimit_tx
  CheckModel := c.CheckModel
  GetAddressesForCheckRegistration := c.GetAddressesForCheckRegistration

/-- Source `Validate(tx, block)`, inherited from `SocialBaseConsensus`. -/
def Validate_tx_block (c : ScoreCommentConsensus) (env : Env) (tx : Transaction)
    (block : PocketBlock) : Option ConsensusResult :=
  c.toSocialBaseConsensus.Validate_tx_block env tx block

/-- Source `Validate(tx)`, inherited from `SocialBaseConsensus`. -/
def Validate_tx (c : ScoreCommentConsensus) (env : Env) (tx : Transaction) :
    Option ConsensusResult :=
  c.toSocialBaseConsensus.Validate_tx env tx

end ScoreCommentConsensus

/-! ### `ScoreCommentConsensusFactory` -/

namespace ScoreCommentConsensusFactory

/-- The initializer list of `m_rules`, in the order the source writes it. -/
def m_rules_init : List (Int × (Int → ScoreCommentConsensus)) :=
  [ (1180000, fun height => ⟨ScoreCommentConsensus_checkpoint_1180000, height⟩),
    (1124000, fun height => ⟨ScoreCommentConsensus_checkpoint_1124000, height⟩),
    (514184, fun height => ⟨ScoreCommentConsensus_checkpoint_514184, height⟩),
    (430000, fun height => ⟨ScoreCommentConsensus_checkpoint_430000, height⟩),
    (0, fun height => ⟨ScoreCommentConsensus_base, height⟩) ]

/-- The `std::map` `m_rules`: its entries in ascending key order. -/
def m_rules : List (Int × (Int → ScoreCommentConsensus)) :=
  m_rules_init.insertionSort (fun a b => a.1 ≤ b.1)

/-- Source `std::map::upper_bound`: the position of the first entry whose key is greater than
`key`, the end position (the length) when there is none. -/
def upper_bound {β : Type} (m : List (Int × β)) (key : Int) : Nat :=
  m.findIdx (fun e => decide (key < e.1))

/-- Source `Instance`: `(--m_rules.upper_bound(height))->second(height)`. Stepping back from the
first position has no result. -/
def Instance (height : Int) : Option ScoreCommentConsensus :=
  match upper_bound m_rules height with
  | 0 => none
  | it + 1 =>
    match m_rules.get? it with
    | some entry => some (entry.2 height)
    | none => none

end ScoreCommentConsensusFactory

/-! ### `SocialBaseConsensus::Check` -/

namespace SocialBaseConsensus

/-- Source `SocialBaseConsensus::CheckOpReturnHash`. The table behind
`OpReturnCheckpoints::IsCheckpoint(txHash, payloadHash)` (`pocketdb/helpers/CheckpointHelper.h`,
not under src) is the parameter `IsCheckpoint`. Both pointers are dereferenced only after
`IsEmpty` has found them non-null. -/
def CheckOpReturnHash (IsCheckpoint : String → String → Bool) (tx : Transaction) :
    ConsensusResult :=
  if IsEmpty_string tx.GetOpReturnPayload then (false, SocialConsensusResult_PayloadORNotFound)
  else if IsEmpty_string tx.GetOpReturnTx then (false, SocialConsensusResult_TxORNotFound)
  else
    match tx.GetOpReturnTx, tx.GetOpReturnPayload with
    | some opReturnTx, some opReturnPayload =>
      if opReturnTx ≠ opReturnPayload then
        if !IsCheckpoint tx.GetHash opReturnPayload then
          (false, SocialConsensusResult_FailedOpReturn)
        else Success
      else Success
    | _, _ => (false, SocialConsensusResult_PayloadORNotFound)

/-- Source `SocialBaseConsensus::Check`: `CheckModel`, then `CheckOpReturnHash`. -/
def Check (c : SocialBaseConsensus) (IsCheckpoint : String → String → Bool)
    (tx : Transaction) : ConsensusResult :=
  match c.CheckModel tx with
  | (false, result) => (false, result)
  | (true, _) =>
    match CheckOpReturnHash IsCheckpoint tx with
    | (false, result) => (false, result)
    | (true, _) => Success

end SocialBaseConsensus

/-- Source `Check`, inherited by the comment-score rule sets from `SocialBaseConsensus`. -/
def ScoreCommentConsensus.Check (c : ScoreCommentConsensus)
    (IsCheckpoint : String → String → Bool) (tx : Transaction) : ConsensusResult :=
  c.toSocialBaseConsensus.Check IsCheckpoint tx

end PocketConsensus

namespace PocketDb

open PocketTx

namespace ConsensusRepository

/-! ### `GetUserReputation` -/

/-- The `WHERE` clause of both `GetUserReputation` queries: `r.Type = ? and r.Id = ?`, the
second operand being null when the subquery of the address form selects nothing. -/
def GetUserReputation_where (type : RatingType) (id : Option Int) (r : RatingsRow) : Bool :=
  r.Type_ == type
    && (match id with
        | some i => r.Id == i
        | none => false)

/-- The clause `order by r.Height desc limit 1`: the first row of greatest height, `none` for
no row. -/
def orderByHeightDescLimit1 : List RatingsRow → Option RatingsRow
  | [] => none
  | r :: rest =>
    match orderByHeightDescLimit1 rest with
    | none => some r
    | some best => if best.Height > r.Height then some best else some r

/-- The body both `GetUserReputation` overloads share: `result` starts at 0 and takes the
value of the selected row when the column is not null. -/
def GetUserReputation_result (db : ConsensusRepository) (id : Option Int) : Int :=
  match orderByHeightDescLimit1 (db.Ratings.filter (GetUserReputation_where RATING_ACCOUNT id))
  with
  | some row =>
    match TryGetColumnInt row.Value with
    | (true, value) => value
    | (false, _) => 0
  | none => 0

/-- The `WHERE` clause of the subquery of `GetUserReputation(const string&)`. -/
def GetUserReputation_user_where (address : String) (u : ViewRow) : Bool :=
  u.Height.isSome && u.Last == some 1 && u.AddressHash == some address

/-- The subquery `(SELECT u.Id FROM vUsers u WHERE ... LIMIT 1)`: the `Id` of the first
selected row, null when there is none. -/
def GetUserReputation_user_id (db : ConsensusRepository) (address : String) : Option Int :=
  match db.vUsers.find? (GetUserReputation_user_where address) with
  | some u => u.Id
  | none => none

/-- Source `ConsensusRepository::GetUserReputation(const string& address)`. -/
def GetUserReputation_address (db : ConsensusRepository) (address : String) : Int :=
  GetUserReputation_result db (GetUserReputation_user_id db address)

/-- Source `ConsensusRepository::GetUserReputation(int addressId)`. -/
def GetUserReputation_addressId (db : ConsensusRepository) (addressId : Int) : Int :=
  GetUserReputation_result db (some addressId)

end ConsensusRepository

end PocketDb

namespace PocketConsensus

open PocketTx PocketDb SocialConsensusResult AccountMode ScoreCommentClass

end PocketConsensus

namespace PocketTx

/-! ## `models/dto/Post.cpp` -/

/-- An element of a parsed `UniValue` array: a string, or a value of another kind, on which
`get_str` throws. -/
inductive UniValueItem
  | str (s : String)
  | other
  deriving DecidableEq, Repr

/-- The method `get_str` of an element; `none` stands for the exception it throws on a value
that is not a string. -/
def UniValueItem.get_str : UniValueItem → Option String
  | UniValueItem.str s => some s
  | UniValueItem.other => none

namespace Post

/-- Source `Post::GetRootTxHash`. -/
def GetRootTxHash (tx : Transaction) : Option String := tx.m_string2

/-- Source `Post::GetRelayTxHash`. -/
def GetRelayTxHash (tx : Transaction) : Option String := tx.m_string3

/-- The loop `for (size_t i = 0; i < tags.size(); ++i)` of `Post::BuildHash`, carrying `i`
and `data`: a comma before every element but the first, then the element's `get_str`. -/
def BuildHash_loop : List UniValueItem → Nat → String → Option String
  | [], _, data => some data
  | item :: rest, i, data =>
    match item.get_str with
    | some s => BuildHash_loop rest (i + 1) ((data ++ (if i ≠ 0 then "," else "")) ++ s)
    | none => none

/-- One of the two blocks `if (m_payload->GetStringN() && !(*m_payload->GetStringN()).empty())`
of `Post::BuildHash`: the field is parsed by `read` and its elements are appended. -/
def BuildHash_array (read : String → List UniValueItem) (field : Option String)
    (data : String) : Option String :=
  match field with
  | some s => if !s.isEmpty then BuildHash_loop (read s) 0 data else some data
  | none => some data

/-- The string `Post::BuildHash` builds in `data` and hands to `Transaction::GenerateHash`.
The parser `UniValue::read` of the univalue library is the parameter `read` (the elements of
the array it parses, none when the text is no array). There is no result when `m_payload` is
a null pointer, which the source dereferences unchecked, or when `get_str` throws. -/
def BuildHash_data (read : String → List UniValueItem) (tx : Transaction) : Option String := do
  let m_payload ← tx.m_payload
  let data := ""
  let data := data ++ (match m_payload.GetString7 with | some s => s | none => "")
  let data := data ++ (match m_payload.GetString2 with | some s => s | none => "")
  let data := data ++ (match m_payload.GetString3 with | some s => s | none => "")
  let data ← BuildHash_array read m_payload.GetString4 data
  let data ← BuildHash_array read m_payload.GetString5 data
  let data :=
    match GetRootTxHash tx with
    | some root => if root ≠ tx.GetHash then data ++ root else data
    | none => data
  let data := data ++ (match GetRelayTxHash tx with | some s => s | none => "")
  pure data

/-- Source `Post::BuildHash`: `Transaction::GenerateHash(data)`, the hash function being the
parameter `GenerateHash` (`Transaction.cpp` is not under src). -/
def BuildHash (GenerateHash : String → String) (read : String → List UniValueItem)
    (tx : Transaction) : Option String :=
  (BuildHash_data read tx).map GenerateHash

end Post

end PocketTx

namespace PocketConsensus

open PocketTx PocketDb SocialConsensusResult AccountMode ScoreCommentClass

end PocketConsensus

namespace PocketDb

open PocketTx

/-! ## `SQLiteDatabase.cpp` and `BaseRepository::TryTransactionStep` -/

def SQLITE_OK : Int := 0
def SQLITE_BUSY : Int := 5
def SQLITE_ROW : Int := 100
def SQLITE_DONE : Int := 101

/-- The connection object `SQLiteDatabase`, as the three transaction methods see it:
whether `m_db` is a handle, whether `sqlite3_get_autocommit(m_db)` is non-zero (no store
transaction is open), and how many more times `m_connection_mutex` was locked than
unlocked. -/
structure SQLiteDatabase where
  m_db : Bool := true
  autocommit : Bool := true
  m_connection_mutex : Int := 0
  deriving DecidableEq, Repr

/-- What the storage engine answers during one query: whether `BEGIN TRANSACTION`, `COMMIT
TRANSACTION` and `ROLLBACK TRANSACTION` return `SQLITE_OK`, and the error code
`sqlite3_step` returns when the step fails (`none` when it does not fail). -/
structure StorageAnswers where
  beginOk : Bool := true
  commitOk : Bool := true
  rollbackOk : Bool := true
  stepFailure : Option Int := none
  deriving DecidableEq, Repr

namespace SQLiteDatabase

/-- Source `SQLiteDatabase::BeginTransaction`. -/
def BeginTransaction (answers : StorageAnswers) (db : SQLiteDatabase) :
    Bool × SQLiteDatabase :=
  let db := { db with m_connection_mutex := db.m_connection_mutex + 1 }
  if !db.m_db || !db.autocommit then (false, db)
  else if answers.beginOk then (true, { db with autocommit := false })
  else (false, db)

/-- Source `SQLiteDatabase::CommitTransaction`. -/
def CommitTransaction (answers : StorageAnswers) (db : SQLiteDatabase) :
    Bool × SQLiteDatabase :=
  if !db.m_db || db.autocommit then (false, db)
  else
    let db := if answers.commitOk then { db with autocommit := true } else db
    (answers.commitOk, { db with m_connection_mutex := db.m_connection_mutex - 1 })

/-- Source `SQLiteDatabase::AbortTransaction`. -/
def AbortTransaction (answers : StorageAnswers) (db : SQLiteDatabase) :
    Bool × SQLiteDatabase :=
  if !db.m_db || db.autocommit then (false, db)
  else
    let db := if answers.rollbackOk then { db with autocommit := true } else db
    (answers.rollbackOk, { db with m_connection_mutex := db.m_connection_mutex - 1 })

end SQLiteDatabase

/-- How a call ends for its caller: it returns a value, or an exception with the given text
leaves it. -/
inductive CallResult (α : Type)
  | returned (a : α)
  | thrown (what : String)
  deriving DecidableEq, Repr

/-- Source `BaseRepository::TryTransactionStep`. The body `sql` has run to the end (`returned
a`, with what it left in the captured result) or has thrown; the `catch` block aborts and
throws again. The outcome is the connection afterwards and how the call ends for the
caller. -/
def TryTransactionStep {α : Type} (answers : StorageAnswers) (db : SQLiteDatabase)
    (sql : CallResult α) : SQLiteDatabase × CallResult α :=
  match SQLiteDatabase.BeginTransaction answers db with
  | (false, db) =>
    ((SQLiteDatabase.AbortTransaction answers db).2,
      CallResult.thrown "TryTransactionStep: can't begin transaction\n")
  | (true, db) =>
    match sql with
    | CallResult.thrown ex =>
      ((SQLiteDatabase.AbortTransaction answers db).2, CallResult.thrown ex)
    | CallResult.returned a =>
      match SQLiteDatabase.CommitTransaction answers db with
      | (false, db) =>
        ((SQLiteDatabase.AbortTransaction answers db).2,
          CallResult.thrown "TryTransactionStep: can't commit transaction\n")
      | (true, db) => (db, CallResult.returned a)

namespace ConsensusRepository

/-- The call `sqlite3_step(*stmt)` of `ExistsScore`: the error code when the step fails, else
`SQLITE_ROW` when the query has a row and `SQLITE_DONE` when it has none. -/
def ExistsScore_step (answers : StorageAnswers) (db : ConsensusRepository)
    (address contentHash : String) (type : PocketTxType) (mempool : Bool) : Int :=
  match answers.stepFailure with
  | some code => code
  | none =>
    if (db.vScores.find? (ExistsScore_where address contentHash type mempool)).isSome then
      SQLITE_ROW
    else SQLITE_DONE

/-- The lambda `ExistsScore` hands to `TryTransactionStep`, with the `result` it leaves: true
only when the step returns `SQLITE_ROW` (the selected column, the constant 1, is not null). -/
def ExistsScore_sql (answers : StorageAnswers) (db : ConsensusRepository)
    (address contentHash : String) (type : PocketTxType) (mempool : Bool) : Bool :=
  if ExistsScore_step answers db address contentHash type mempool = SQLITE_ROW then
    match TryGetColumnInt (some 1) with
    | (true, _) => true
    | (false, _) => false
  else false

/-- Source `ConsensusRepository::ExistsScore` run against a storage engine that may fail:
the connection afterwards and the value returned or the exception thrown. -/
def ExistsScore_run (answers : StorageAnswers) (conn : SQLiteDatabase)
    (db : ConsensusRepository) (address contentHash : String) (type : PocketTxType)
    (mempool : Bool) : SQLiteDatabase × CallResult Bool :=
  TryTransactionStep answers conn
    (CallResult.returned (ExistsScore_sql answers db address contentHash type mempool))

end ConsensusRepository

end PocketDb

namespace PocketConsensus

open PocketTx PocketDb SocialConsensusResult AccountMode ScoreCommentClass

end PocketConsensus

namespace PocketDb

open PocketTx

namespace ConsensusRepository

/-! ### The chain counters of comments and posts -/

/-- The `WHERE` clause of `CountChainCommentTime`. -/
def CountChainCommentTime_where (address : String) (time : Int) (s : ViewRow) : Bool :=
  s.Height.isSome
    && (match s.Time with
        | some t => decide (t ≥ time)
        | none => false)
    && s.AddressHash == some address
    && s.Type_ == some 204
    && s.Last == some 1

/-- Source `ConsensusRepository::CountChainCommentTime`. -/
def CountChainCommentTime (db : ConsensusRepository) (address : String) (time : Int) : Int :=
  GetCount (db.vComments.filter (CountChainCommentTime_where address time))

/-- The `WHERE` clause of `CountChainCommentHeight`. -/
def CountChainCommentHeight_where (address : String) (height : Int) (s : ViewRow) : Bool :=
  s.Height.isSome
    && (match s.Height with
        | some h => decide (h ≥ height)
        | none => false)
    && s.AddressHash == some address
    && s.Type_ == some 204
    && s.Last == some 1

/-- Source `ConsensusRepository::CountChainCommentHeight`. -/
def CountChainCommentHeight (db : ConsensusRepository) (address : String) (height : Int) :
    Int :=
  GetCount (db.vComments.filter (CountChainCommentHeight_where address height))

/-- The `WHERE` clause of `CountChainPostTime`. -/
def CountChainPostTime_where (address : String) (time : Int) (s : ViewRow) : Bool :=
  s.Height.isSome
    && s.AddressHash == some address
    && (match s.Time with
        | some t => decide (t ≥ time)
        | none => false)
    && s.Last == some 1

/-- Source `ConsensusRepository::CountChainPostTime`. -/
def CountChainPostTime (db : ConsensusRepository) (address : String) (time : Int) : Int :=
  GetCount (db.vPosts.filter (CountChainPostTime_where address time))

/-- The `WHERE` clause of `CountChainPostHeight`. -/
def CountChainPostHeight_where (address : String) (height : Int) (s : ViewRow) : Bool :=
  s.Height.isSome
    && s.AddressHash == some address
    && (match s.Height with
        | some h => decide (h ≥ height)
        | none => false)
    && s.Last == some 1

/-- Source `ConsensusRepository::CountChainPostHeight`. -/
def CountChainPostHeight (db : ConsensusRepository) (address : String) (height : Int) : Int :=
  GetCount (db.vPosts.filter (CountChainPostHeight_where address height))

/-! ### Confirmation of an action, seen through the views -/

/-- The root of the version `txHash` in a view: the `RootTxHash` of its row. -/
def rootInView (view : List ViewRow) (txHash : String) : Option String :=
  match view.find? (fun r => r.Hash == some txHash) with
  | some r => r.RootTxHash
  | none => none

/-- Modelled from the spec: the effect on one row of a view of the confirmation of the
version `txHash` at `height` by `ChainRepository::IndexBlock` (`ChainRepository.cpp` is not
under src). "Set its height"; "clear the previous `IsLast` flag for that root's prior
confirmed version and set `IsLast` on the new version". -/
def confirmRow (root : Option String) (txHash : String) (height : Int) (r : ViewRow) :
    ViewRow :=
  if r.Hash = some txHash then
    { r with Height := some height, Last := some 1 }
  else if root.isSome ∧ r.RootTxHash = root ∧ r.Height.isSome then
    { r with Last := some 0 }
  else r

/-- Modelled from the spec: the confirmation of the version `txHash` at `height`, in one
view. -/
def confirmInView (view : List ViewRow) (txHash : String) (height : Int) : List ViewRow :=
  view.map (confirmRow (rootInView view txHash) txHash height)

/-- Modelled from the spec: the store after the confirmation of the version `txHash` at
`height`: every view shows the new height and the moved last-version flag. -/
def confirm (db : ConsensusRepository) (txHash : String) (height : Int) :
    ConsensusRepository :=
  { Transactions := db.Transactions,
    vUsers := confirmInView db.vUsers txHash height,
    vScores := confirmInView db.vScores txHash height,
    vScoreComments := confirmInView db.vScoreComments txHash height,
    vBlockings := confirmInView db.vBlockings txHash height,
    Ratings := db.Ratings,
    vComments := confirmInView db.vComments txHash height,
    vPosts := confirmInView db.vPosts txHash height }

end ConsensusRepository

end PocketDb

namespace PocketConsensus

open PocketTx PocketDb SocialConsensusResult AccountMode ScoreCommentClass

end PocketConsensus

namespace PocketTx

/-! ## `TransactionIndexingInfo` of `PocketTypes.h` -/

/-- Source `TransactionIndexingInfo`: "transaction info for indexing spents and other". -/
structure TransactionIndexingInfo where
  Hash : String
  BlockNumber : Int
  Type_ : PocketTxType
  Inputs : List (String × Int) := []
  deriving DecidableEq, Repr

namespace TransactionIndexingInfo

def IsAccount (i : TransactionIndexingInfo) : Bool :=
  i.Type_ == ACCOUNT_USER
    || i.Type_ == ACCOUNT_VIDEO_SERVER
    || i.Type_ == ACCOUNT_MESSAGE_SERVER
    || i.Type_ == ACCOUNT_SETTING

def IsContent (i : TransactionIndexingInfo) : Bool :=
  i.Type_ == CONTENT_POST
    || i.Type_ == CONTENT_VIDEO
    || i.Type_ == CONTENT_TRANSLATE
    || i.Type_ == CONTENT_DELETE

def IsComment (i : TransactionIndexingInfo) : Bool :=
  i.Type_ == CONTENT_COMMENT
    || i.Type_ == CONTENT_COMMENT_EDIT
    || i.Type_ == CONTENT_COMMENT_DELETE

def IsBlocking (i : TransactionIndexingInfo) : Bool :=
  i.Type_ == ACTION_BLOCKING
    || i.Type_ == ACTION_BLOCKING_CANCEL

def IsSubscribe (i : TransactionIndexingInfo) : Bool :=
  i.Type_ == ACTION_SUBSCRIBE
    || i.Type_ == ACTION_SUBSCRIBE_CANCEL
    || i.Type_ == ACTION_SUBSCRIBE_PRIVATE

def IsActionScore (i : TransactionIndexingInfo) : Bool :=
  i.Type_ == ACTION_SCORE_COMMENT
    || i.Type_ == ACTION_SCORE_CONTENT

end TransactionIndexingInfo

end PocketTx

namespace PocketDb

open PocketTx

/-! ## The chain indexer (`ChainRepository.h`)

The header declares `IndexBlock`, `Rollback`, `RollbackHeight`, `RestoreOldLast`,
`UpdateTransactionHeight`, `UpdateTransactionOutputs`, `IndexAccount`, `IndexContent`,
`IndexAction` and `ClearOldLast`; their bodies (`ChainRepository.cpp`) are not under src and
are modelled from section 4.4 of the specification. -/

/-- Modelled from the spec: a version row as the indexer sees it. "Every version row carries:
root-hash, own-hash, height (nullable), a boolean `IsLast` flag"; the block identifier and the
position in the block are the "block-position fields". A transaction outside the entity
family has no root. -/
@[ext]
structure VersionRow where
  Hash : String
  RootHash : Option String := none
  Height : Option Int := none
  BlockHash : Option String := none
  BlockNum : Option Int := none
  IsLast : Bool := false
  deriving DecidableEq, Repr

/-- Modelled from the spec: a row of `Outputs` ("tx-hash, index, address, value, spent-height
nullable"). -/
@[ext]
structure TxOutput where
  TxHash : String
  Number : Int
  AddressHash : String
  Value : Int
  SpentHeight : Option Int := none
  deriving DecidableEq, Repr

/-- Modelled from the spec: the part of the store the indexer writes. -/
structure ChainState where
  Transactions : List VersionRow := []
  TxOutputs : List TxOutput := []
  Ratings : List RatingsRow := []
  deriving DecidableEq, Repr

/-- Modelled from the spec: what the specification leaves to `ChainRepository.cpp`.
`refers i txHash number address` tells whether the input pair `i` of a
`TransactionIndexingInfo` names the output with these columns; `ratings txInfo height` are
the "derived rating rows produced by this confirmation"; `wasLast height rows r` is the
recomputation of "which prior version (if any) was `IsLast` immediately before this
rollback". -/
structure ChainRepository where
  refers : String × Int → String → Int → String → Bool
  ratings : TransactionIndexingInfo → Int → List RatingsRow
  wasLast : Int → List VersionRow → VersionRow → Bool

namespace ChainRepository

/-- The root of the version `txHash`. -/
def rootOf (rows : List VersionRow) (txHash : String) : Option String :=
  match rows.find? (fun r => r.Hash == txHash) with
  | some r => r.RootHash
  | none => none

/-- The effect of `UpdateTransactionHeight` on one row. -/
def UpdateTransactionHeight_row (blockHash : String) (blockNumber height : Int)
    (txHash : String) (r : VersionRow) : VersionRow :=
  if r.Hash = txHash then
    { r with Height := some height, BlockHash := some blockHash, BlockNum := some blockNumber }
  else r

/-- Modelled from the spec: `UpdateTransactionHeight`, "set its height and block-position
fields". -/
def UpdateTransactionHeight (blockHash : String) (blockNumber height : Int) (txHash : String)
    (rows : List VersionRow) : List VersionRow :=
  rows.map (UpdateTransactionHeight_row blockHash blockNumber height txHash)

/-- The effect of `UpdateTransactionOutputs` on one output. -/
def UpdateTransactionOutputs_row (repo : ChainRepository) (txInfo : TransactionIndexingInfo)
    (height : Int) (o : TxOutput) : TxOutput :=
  if txInfo.Inputs.any (fun i => repo.refers i o.TxHash o.Number o.AddressHash) then
    { o with SpentHeight := some height }
  else o

/-- Modelled from the spec: `UpdateTransactionOutputs`, "for each spent output it references,
mark that output as spent at this height". -/
def UpdateTransactionOutputs (repo : ChainRepository) (txInfo : TransactionIndexingInfo)
    (height : Int) (outputs : List TxOutput) : List TxOutput :=
  outputs.map (UpdateTransactionOutputs_row repo txInfo height)

/-- The effect of `ClearOldLast` on one row, `root` being the root of the new version. -/
def ClearOldLast_row (root : Option String) (txHash : String) (r : VersionRow) : VersionRow :=
  if r.Hash ≠ txHash ∧ root.isSome ∧ r.RootHash = root ∧ r.Height.isSome then
    { r with IsLast := false }
  else r

/-- Modelled from the spec: `ClearOldLast`, "clear the previous `IsLast` flag for that root's
prior confirmed version". -/
def ClearOldLast (txHash : String) (rows : List VersionRow) : List VersionRow :=
  rows.map (ClearOldLast_row (rootOf rows txHash) txHash)

/-- The setting of the flag on one row. -/
def SetLast_row (txHash : String) (r : VersionRow) : VersionRow :=
  if r.Hash = txHash then { r with IsLast := true } else r

/-- Modelled from the spec: "set `IsLast` on the new version". -/
def SetLast (txHash : String) (rows : List VersionRow) : List VersionRow :=
  rows.map (SetLast_row txHash)

/-- Modelled from the spec: the last-version step of `IndexAccount`, `IndexContent` and
`IndexAction`. The first version of a root has no prior version to clear and gets the
flag. -/
def IndexLast (txHash : String) (rows : List VersionRow) : List VersionRow :=
  SetLast txHash (ClearOldLast txHash rows)

/-- Modelled from the spec: "the transaction is an account/content/comment/action-type
mutation", that is a transaction of the entity family of section 3 ("Account, Content,
Comment, Score, Subscription, Blocking, Complaint"): every category from 100 to 103, from 200
to 207 and from 300 to 307. The six predicates of `TransactionIndexingInfo` tell them all but
the server ping (203) and the complaint (307), which are named here. -/
def versioned (txInfo : TransactionIndexingInfo) : Bool :=
  txInfo.IsAccount || txInfo.IsContent || txInfo.Type_ == CONTENT_SERVERPING
    || txInfo.IsComment || txInfo.IsActionScore || txInfo.IsSubscribe || txInfo.IsBlocking
    || txInfo.Type_ == ACTION_COMPLAIN

/-- Modelled from the spec: the four steps `IndexBlock` performs for one transaction. -/
def IndexTransaction (repo : ChainRepository) (blockHash : String) (height : Int)
    (s : ChainState) (txInfo : TransactionIndexingInfo) : ChainState :=
  let rows :=
    UpdateTransactionHeight blockHash txInfo.BlockNumber height txInfo.Hash s.Transactions
  { Transactions := if versioned txInfo then IndexLast txInfo.Hash rows else rows,
    TxOutputs := UpdateTransactionOutputs repo txInfo height s.TxOutputs,
    Ratings := s.Ratings ++ repo.ratings txInfo height }

/-- Modelled from the spec: `IndexBlock(blockId, height, orderedTxInfos)`, "for each
transaction, in block order". -/
def IndexBlock (repo : ChainRepository) (blockHash : String) (height : Int)
    (txs : List TransactionIndexingInfo) (s : ChainState) : ChainState :=
  txs.foldl (IndexTransaction repo blockHash height) s

/-- A row "being un-confirmed" by a rollback to `height`: its height is at or above the
target. -/
def unconfirmedBy (height : Int) (r : VersionRow) : Bool :=
  match r.Height with
  | some h => decide (height ≤ h)
  | none => false

/-- A row that stays confirmed after a rollback to `height`. -/
def confirmedBelow (height : Int) (r : VersionRow) : Bool :=
  match r.Height with
  | some h => decide (h < height)
  | none => false

/-- The effect of `RestoreOldLast` on one row. -/
def RestoreOldLast_row (repo : ChainRepository) (height : Int) (rows : List VersionRow)
    (r : VersionRow) : VersionRow :=
  if confirmedBelow height r
      ∧ rows.any (fun u => unconfirmedBy height u && u.RootHash.isSome
          && u.RootHash == r.RootHash)
      ∧ repo.wasLast height rows r then
    { r with IsLast := true }
  else r

/-- Modelled from the spec: `RestoreOldLast`, "recompute, for every root touched by a row
being un-confirmed, which prior version (if any) was `IsLast` immediately before this
rollback — reinstate that row's `IsLast` flag". -/
def RestoreOldLast (repo : ChainRepository) (height : Int) (rows : List VersionRow) :
    List VersionRow :=
  rows.map (RestoreOldLast_row repo height rows)

/-- The effect of `RollbackHeight` on one row. -/
def RollbackHeight_row (height : Int) (r : VersionRow) : VersionRow :=
  if unconfirmedBy height r then
    { r with Height := none, BlockHash := none, BlockNum := none, IsLast := false }
  else r

/-- Modelled from the spec: `RollbackHeight`, "clear height/block-position fields on all rows
at or above the target height, returning them to mempool-visible, unconfirmed state"; a
mempool version never holds the `IsLast` flag. -/
def RollbackHeight (height : Int) (rows : List VersionRow) : List VersionRow :=
  rows.map (RollbackHeight_row height)

/-- The un-marking of one output. -/
def RollbackOutputs_row (height : Int) (o : TxOutput) : TxOutput :=
  match o.SpentHeight with
  | some h => if height ≤ h then { o with SpentHeight := none } else o
  | none => o

/-- Modelled from the spec: `Rollback(height)`: restore the old last versions, clear the
heights, "un-mark spent outputs whose spend height is ≥ target", "delete derived rating rows
appended at or above the target height". -/
def Rollback (repo : ChainRepository) (height : Int) (s : ChainState) : ChainState :=
  { Transactions := RollbackHeight height (RestoreOldLast repo height s.Transactions),
    TxOutputs := s.TxOutputs.map (RollbackOutputs_row height),
    Ratings := s.Ratings.filter (fun r => decide (r.Height < height)) }

/-- A block handed to `IndexBlock`. -/
structure IndexedBlock where
  blockHash : String
  height : Int
  txs : List TransactionIndexingInfo
  deriving DecidableEq, Repr

/-- The indexing of a sequence of blocks in order. -/
def IndexBlocks (repo : ChainRepository) (blocks : List IndexedBlock) (s : ChainState) :
    ChainState :=
  blocks.foldl (fun s b => IndexBlock repo b.blockHash b.height b.txs s) s

end ChainRepository

end PocketDb

namespace PocketConsensus

open PocketTx PocketDb SocialConsensusResult AccountMode ScoreCommentClass

end PocketConsensus

namespace PocketWeb

/-! ## `web/PocketFrontend.cpp` -/

/-- The status codes `GetFile` returns (the enum `HTTPStatusCode` is declared in
`rpc/protocol.h`, not under src). -/
inductive HTTPStatusCode
  | HTTP_OK
  | HTTP_BAD_REQUEST
  | HTTP_NOT_FOUND
  deriving DecidableEq, Repr

open HTTPStatusCode

/-- The struct `StaticFile` (declared in `PocketFrontend.h`, not under src), with the four
members `ReadFile` and `Init` initialise in this order: the path, the name, the content type
and the content. -/
structure StaticFile where
  Path : String
  Name : String
  ContentType : String
  Content : String
  deriving DecidableEq, Repr

/-- The object `PocketFrontend`, as `GetFile` sees it: the maps `Cache` and `MimeTypes`, kept
as association lists in which a key is looked up from the front. The mutex `CacheMutex` is
taken and released inside every cache method and is left out. -/
structure PocketFrontend where
  Cache : List (String × StaticFile) := []
  MimeTypes : List (String × String) := []
  deriving DecidableEq, Repr

/-- The search of `std::string::find` from a position on: the first position at which `pat`
starts, `none` for `npos`. -/
def string_find_from (pat : List Char) : List Char → Nat → Option Nat
  | [], pos => if pat.isPrefixOf [] then some pos else none
  | ch :: s, pos =>
    if pat.isPrefixOf (ch :: s) then some pos else string_find_from pat s (pos + 1)

/-- Source `std::string::find(pat)`: the first position at which `pat` starts, `none` for
`std::string::npos`. The strings are searched character by character; for a pattern of
ASCII characters this finds what the search byte by byte finds. -/
def string_find (s pat : String) : Option Nat :=
  string_find_from pat.data s.data 0

/-- The scan of `boost::split` over the characters left, `piece` being the piece read so
far. -/
def boost_split_from (delimiter : Char) : List Char → List Char → List (List Char)
  | [], piece => [piece]
  | ch :: s, piece =>
    if ch == delimiter then piece :: boost_split_from delimiter s []
    else boost_split_from delimiter s (piece ++ [ch])

/-- Source `boost::split(parts, s, boost::is_any_of(delimiters))` for a single delimiter
character: the pieces of `s` between the delimiters, one (empty) piece for the empty
string. -/
def boost_split (s : String) (delimiter : Char) : List String :=
  (boost_split_from delimiter s.data []).map String.mk

namespace PocketFrontend

/-- Source `PocketFrontend::ReadFileFromDisk`. The file system is the parameter `disk`: the
content of the file `_rootPath / path` when the stream opened on it is good, `none` when it
is not or when reading throws. -/
def ReadFileFromDisk (disk : String → Option String) (path : String) : Bool × String :=
  match disk path with
  | some content => (true, content)
  | none => (false, "")

/-- Source `PocketFrontend::DetectContentType`. The operator `MimeTypes["default"]` adds the
key with an empty value when the map does not hold it. -/
def DetectContentType (fe : PocketFrontend) (fileName : String) : String × PocketFrontend :=
  let nameParts := boost_split fileName '.'
  let _extension := if nameParts.length > 1 then nameParts.getLastD fileName else fileName
  match fe.MimeTypes.lookup _extension with
  | some mime => (mime, fe)
  | none =>
    match fe.MimeTypes.lookup "default" with
    | some mime => (mime, fe)
    | none => ("", { fe with MimeTypes := fe.MimeTypes ++ [("default", "")] })

/-- Source `PocketFrontend::ReadFile`. -/
def ReadFile (disk : String → Option String) (fe : PocketFrontend) (path : String) :
    Bool × Option StaticFile × PocketFrontend :=
  match ReadFileFromDisk disk path with
  | (false, _) => (false, none, fe)
  | (true, content) =>
    let pathParts := boost_split path '/'
    let _name := if pathParts.length > 1 then pathParts.getLastD path else path
    let (contentType, fe) := DetectContentType fe _name
    (true, some { Path := path, Name := _name, ContentType := contentType,
                  Content := content }, fe)

/-- Source `PocketFrontend::CacheEmplace`. -/
def CacheEmplace (fe : PocketFrontend) (path : String) (content : Option StaticFile) :
    PocketFrontend :=
  match fe.Cache.lookup path, content with
  | none, some file => { fe with Cache := fe.Cache ++ [(path, file)] }
  | _, _ => fe

/-- Source `PocketFrontend::CacheGet`. -/
def CacheGet (fe : PocketFrontend) (path : String) : Bool × Option StaticFile :=
  match fe.Cache.lookup path with
  | some file => (true, some file)
  | none => (false, none)

/-- A call `GetFile` makes: to the cache, to the disk, or to itself. -/
inductive Call
  | CacheGet (path : String)
  | ReadFile (path : String)
  | CacheEmplace (path : String)
  | GetFile (path : String) (stopRecurse : Bool)
  deriving DecidableEq, Repr

/-- How a call of `GetFile` ends: the status and the file it returns, the object afterwards
and the calls it has made, in order. -/
structure Outcome where
  status : HTTPStatusCode
  file : Option StaticFile
  frontend : PocketFrontend
  calls : List Call
  deriving DecidableEq, Repr

/-- The outcome of a call of `GetFile` that ends with `return GetFile(path, stopRecurse)`
after the calls `before`. -/
def Outcome.after (before : List Call) (path : String) (stopRecurse : Bool)
    (inner : Option Outcome) : Option Outcome :=
  match inner with
  | some o =>
    some { status := o.status, file := o.file, frontend := o.frontend,
           calls := before ++ Call.GetFile path stopRecurse :: o.calls }
  | none => none

/-- Source `PocketFrontend::GetFile`. The first argument bounds the depth of the recursion:
with no fuel left there is no result. -/
def GetFile (disk : String → Option String) :
    Nat → PocketFrontend → String → Bool → Option Outcome
  | 0, _, _, _ => none
  | fuel + 1, fe, path, stopRecurse =>
    if (string_find path "..").isSome then
      some { status := HTTP_BAD_REQUEST, file := none, frontend := fe, calls := [] }
    else if path.isEmpty then
      Outcome.after [] "/index.html" true (GetFile disk fuel fe "/index.html" true)
    else
      let pathPrms := boost_split path '?'
      let _path := if pathPrms.length > 1 then pathPrms.headD path else path
      match CacheGet fe _path with
      | (true, cacheContent) =>
        some { status := HTTP_OK, file := cacheContent, frontend := fe,
               calls := [Call.CacheGet _path] }
      | (false, _) =>
        match ReadFile disk fe _path with
        | (false, _, _) =>
          if !stopRecurse then
            Outcome.after [Call.CacheGet _path, Call.ReadFile _path] "/index.html" true
              (GetFile disk fuel fe "/index.html" true)
          else
            some { status := HTTP_NOT_FOUND, file := none, frontend := fe,
                   calls := [Call.CacheGet _path, Call.ReadFile _path] }
        | (true, fileContent, fe2) =>
          some { status := HTTP_OK, file := fileContent,
                 frontend := CacheEmplace fe2 _path fileContent,
                 calls := [Call.CacheGet _path, Call.ReadFile _path,
                           Call.CacheEmplace _path] }

end PocketFrontend

end PocketWeb

namespace PocketConsensus

open PocketTx PocketDb SocialConsensusResult AccountMode ScoreCommentClass

end PocketConsensus

/-! # Vocabulary of the statements -/

namespace PocketConsensus

open PocketTx PocketDb

/-- The addresses the `ACCOUNT_USER` transactions of a block carry, in block order. -/
def blockRegistrations (block : PocketBlock) : List String :=
  block.filterMap (fun b => if b.GetType = ACCOUNT_USER then b.GetString1 else none)

/-- The required addresses that no `ACCOUNT_USER` transaction of the block carries. -/
def notExempt (block : PocketBlock) (addresses : List String) : List String :=
  addresses.filter (fun a => decide (a ∉ blockRegistrations block))

/-- Every `ACCOUNT_USER` transaction of the block carries its address (`String1` is not a
null pointer), so the registration loop dereferences no null pointer. -/
def blockUsersHaveAddress (block : PocketBlock) : Bool :=
  block.all (fun b => b.GetType != ACCOUNT_USER || b.GetString1.isSome)

/-- The address has a user-registration row in `vUsers`: a confirmed one (`Height` not
null) when `mempool` is false, a confirmed or unconfirmed one when it is true. -/
def HasRegistration (db : ConsensusRepository) (address : String) (mempool : Bool) : Bool :=
  db.vUsers.any (fun u => u.AddressHash == some address && (mempool || u.Height.isSome))

/-- The state `env` with other inputs of the rate limit: the rows of `vScoreComments`, which
the comment-score counts are taken from, and the account modes. Registrations, contents,
scores and blockings are those of `env`. -/
def Env.withRateLimitInputs (env : Env) (scoreComments : List ViewRow)
    (mode : Int → String → AccountMode) : Env :=
  { ConsensusRepoInst :=
      { Transactions := env.ConsensusRepoInst.Transactions,
        vUsers := env.ConsensusRepoInst.vUsers,
        vScores := env.ConsensusRepoInst.vScores,
        vScoreComments := scoreComments,
        vBlockings := env.ConsensusRepoInst.vBlockings,
        Ratings := env.ConsensusRepoInst.Ratings,
        vComments := env.ConsensusRepoInst.vComments,
        vPosts := env.ConsensusRepoInst.vPosts },
    GetAccountMode := mode }

/-- The confirmed comment-scores of `address` in the window of the rule set `c`: the rows
`GetChainCount` has counted, by time (from `tx.Time - 86400`) up to checkpoint 1124000 and by
height (from `Height - 1440`) from checkpoint 1180000. -/
def chainWindowRows (c : ScoreCommentConsensus) (db : ConsensusRepository) (tx : Transaction)
    (address : String) : List ViewRow :=
  match c.cls with
  | ScoreCommentClass.ScoreCommentConsensus_checkpoint_1180000 =>
    db.vScoreComments.filter
      (ConsensusRepository.CountChainScoreCommentHeight_where address (c.Height - 1440))
  | _ =>
    db.vScoreComments.filter
      (ConsensusRepository.CountChainScoreCommentTime_where address (tx.GetTime - 86400))

/-- The comment-scores of `address` in the mempool: the rows `CountMempoolScoreComment`
counts. -/
def mempoolRows (db : ConsensusRepository) (address : String) : List ViewRow :=
  db.vScoreComments.filter (ConsensusRepository.CountMempoolScoreComment_where address)

/-- The value of a rating row as `GetUserReputation` returns it: the column narrowed to `int`,
0 for a null column. -/
def ratingValue (r : RatingsRow) : Int :=
  match r.Value with
  | some v => toInt32 v
  | none => 0

/-- The text of an optional field: the empty string when the field is absent. -/
def fieldOrEmpty (field : Option String) : String :=
  match field with
  | some s => s
  | none => ""

/-- The tag or image list of a post: the elements `read` parses from the field, no element
when the field is absent or empty. -/
def listOfField (read : String → List UniValueItem) (field : Option String) :
    List UniValueItem :=
  match field with
  | some s => if s.isEmpty then [] else read s
  | none => []

/-- The hash input of a post in the words of the specification: url, caption, message, the
tags joined by `","`, the images joined by `","`, the root hash of an edit, the relay hash. -/
def postHashInput (url caption message : String) (tags images : List String)
    (rootOfEdit relay : String) : String :=
  url ++ caption ++ message ++ ",".intercalate tags ++ ",".intercalate images
    ++ rootOfEdit ++ relay

/-- The version `txHash` opens a new root in a view: its own row and the rows of its root
are all unconfirmed. -/
def opensNewRoot (view : List ViewRow) (txHash : String) : Prop :=
  ∀ r ∈ view,
    (r.Hash = some txHash
      ∨ ((ConsensusRepository.rootInView view txHash).isSome
          ∧ r.RootTxHash = ConsensusRepository.rootInView view txHash)) →
    r.Height = none

/-- One step of the indexer: the block hash, the height and the transaction. -/
abbrev IndexStep := String × Int × TransactionIndexingInfo

/-- The steps `IndexBlocks` performs, in order. -/
def indexSteps (blocks : List ChainRepository.IndexedBlock) : List IndexStep :=
  blocks.flatMap (fun b => b.txs.map (fun t => (b.blockHash, b.height, t)))

/-- The indexer run over a list of steps. -/
def IndexSteps (repo : ChainRepository) (steps : List IndexStep) (s : ChainState) :
    ChainState :=
  steps.foldl (fun s st => ChainRepository.IndexTransaction repo st.1 st.2.1 s st.2.2) s

/-- The effect of `IndexTransaction` on one row, `root` being the root of the indexed
version. -/
def IndexRow (root : Option String) (blockHash : String) (height : Int)
    (t : TransactionIndexingInfo) (r : VersionRow) : VersionRow :=
  if ChainRepository.versioned t then
    ChainRepository.SetLast_row t.Hash
      (ChainRepository.ClearOldLast_row root t.Hash
        (ChainRepository.UpdateTransactionHeight_row blockHash t.BlockNumber height t.Hash r))
  else ChainRepository.UpdateTransactionHeight_row blockHash t.BlockNumber height t.Hash r

/-- The effect of a list of steps on one row, `roots` giving the root of every version. -/
def IndexRows (roots : String → Option String) (steps : List IndexStep) (r : VersionRow) :
    VersionRow :=
  steps.foldl (fun r st => IndexRow (roots st.2.2.Hash) st.1 st.2.1 st.2.2 r) r

/-- The effect of a list of steps on one output. -/
def MarkRows (repo : ChainRepository) (steps : List IndexStep) (o : TxOutput) : TxOutput :=
  steps.foldl (fun o st => ChainRepository.UpdateTransactionOutputs_row repo st.2.2 st.2.1 o) o

/-- The row is a confirmed version of the root `R`. -/
def confirmedOf (R : String) (r : VersionRow) : Bool :=
  r.RootHash == some R && r.Height.isSome

/-- The row is a confirmed version of the root `R` holding the `IsLast` flag. -/
def lastOf (R : String) (r : VersionRow) : Bool :=
  r.RootHash == some R && r.Height.isSome && r.IsLast

/-- The last pointer of every root is in order: exactly one confirmed row of the root holds
`IsLast`, none when the root has no confirmed version. -/
def LastPointerOk (rows : List VersionRow) : Prop :=
  ∀ R : String, rows.countP (lastOf R) = if rows.any (confirmedOf R) then 1 else 0

/-- Every confirmed row and every spent output of the state is below `height`. -/
def belowHeight (s : ChainState) (height : Int) : Prop :=
  (∀ r ∈ s.Transactions, ∀ h, r.Height = some h → h < height)
  ∧ (∀ o ∈ s.TxOutputs, ∀ h, o.SpentHeight = some h → h < height)

/-- The transactions of the blocks are in the mempool state: their rows have no height and
no `IsLast` flag. -/
def inMempool (s : ChainState) (blocks : List ChainRepository.IndexedBlock) : Prop :=
  ∀ b ∈ blocks, ∀ t ∈ b.txs, ∀ r ∈ s.Transactions, r.Hash = t.Hash →
    r.Height = none ∧ r.IsLast = false

/-- The category of the transaction is one of the entity family of section 3 of the
specification: an account (100 to 103), a content or a comment (200 to 207, the server ping
included) or an action (300 to 307: score, subscription, blocking, complaint). The other
categories are the coin transactions (1 to 3) and `NOT_SUPPORTED`. -/
def ofEntityFamily (t : TransactionIndexingInfo) : Prop :=
  (100 ≤ t.Type_ ∧ t.Type_ ≤ 103) ∨ (200 ≤ t.Type_ ∧ t.Type_ ≤ 207)
    ∨ (300 ≤ t.Type_ ∧ t.Type_ ≤ 307)

/-- The store keeps a root for the entity family only: every transaction of the blocks whose
row has a root is of the entity family. -/
def rootsVersioned (s : ChainState) (blocks : List ChainRepository.IndexedBlock) : Prop :=
  ∀ b ∈ blocks, ∀ t ∈ b.txs,
    (ChainRepository.rootOf s.Transactions t.Hash).isSome → ofEntityFamily t

/-- Some versioned step touches the root `root`. -/
def touches (roots : String → Option String) (steps : List IndexStep) (root : Option String) :
    Bool :=
  steps.any (fun st => ChainRepository.versioned st.2.2 && (roots st.2.2.Hash).isSome
    && (roots st.2.2.Hash == root))

/-- The step spends the output. -/
def spends (repo : ChainRepository) (st : IndexStep) (o : TxOutput) : Bool :=
  st.2.2.Inputs.any (fun i => repo.refers i o.TxHash o.Number o.AddressHash)

/-- The output is marked as spent at or above `height`. -/
def spentFrom (height : Int) (o : TxOutput) : Bool :=
  match o.SpentHeight with
  | some h => decide (height ≤ h)
  | none => false

/-- The state `env` with other blocking records: the rows of `vBlockings` are replaced,
everything else is that of `env`. -/
def Env.withBlockings (env : Env) (blockings : List ViewRow) : Env :=
  { ConsensusRepoInst :=
      { Transactions := env.ConsensusRepoInst.Transactions,
        vUsers := env.ConsensusRepoInst.vUsers,
        vScores := env.ConsensusRepoInst.vScores,
        vScoreComments := env.ConsensusRepoInst.vScoreComments,
        vBlockings := blockings,
        Ratings := env.ConsensusRepoInst.Ratings,
        vComments := env.ConsensusRepoInst.vComments,
        vPosts := env.ConsensusRepoInst.vPosts },
    GetAccountMode := env.GetAccountMode }

/-- The row is a confirmed last-version comment-score of `address`. -/
def confirmedLastScoreOf (address : String) (r : ViewRow) : Prop :=
  r.Height ≠ none ∧ r.AddressHash = some address ∧ r.Last = some 1

/-- The row of `Transactions` is a confirmed last version of the content or comment with the
root `T`: its second string slot is `T`, it has a height, its `Last` is 1 and its type is one
of 200 to 206. -/
def lastContentOf (T : String) (r : TransactionsRow) : Prop :=
  r.String2 = some T ∧ r.Last = 1 ∧ r.Height ≠ none ∧ 200 ≤ r.Type_ ∧ r.Type_ ≤ 206

/-- The row of `vBlockings` is a confirmed last-version blocking record from `B` toward
`A`. -/
def lastBlockingOf (B A : String) (r : ViewRow) : Prop :=
  r.AddressHash = some B ∧ r.AddressToHash = some A ∧ r.Height ≠ none ∧ r.Last = some 1

/-- A sibling of the validated transaction `tx` of the actor `A` in the candidate block:
another transaction of type `ACTION_SCORE_COMMENT` with the address `A`. -/
def isSibling (tx : Transaction) (A : String) (b : Transaction) : Bool :=
  b.GetType == ACTION_SCORE_COMMENT && b.GetHash != tx.GetHash && b.GetAddress == some A

/-- Every `ACTION_SCORE_COMMENT` transaction of the block with another hash than `tx`
carries its address (`String1` is not a null pointer), so the loop of
`ValidateLimit(tx, block)` dereferences no null pointer of the block. -/
def blockScoresHaveAddress (tx : Transaction) (block : PocketBlock) : Bool :=
  block.all (fun b => b.GetType != ACTION_SCORE_COMMENT || b.GetHash == tx.GetHash
    || b.GetAddress.isSome)

/-- An `int` count after `n` increments `count += 1`. -/
def incrementInt32 (n : Nat) (count : Int) : Int :=
  Nat.iterate (fun k => toInt32 (k + 1)) n count

/-- The call is a call of `GetFile` to itself. -/
def isRecursiveCall (call : PocketWeb.PocketFrontend.Call) : Bool :=
  match call with
  | PocketWeb.PocketFrontend.Call.GetFile _ _ => true
  | _ => false

/-- The path contains the substring `".."`. -/
def containsDotDot (path : String) : Prop :=
  ∃ pre post : List Char, path.data = pre ++ "..".data ++ post

/-- The row is a comment-score of `address` that waits in the mempool: it has no height. -/
def mempoolScoreOf (address : String) (r : ViewRow) : Prop :=
  r.Height = none ∧ r.AddressHash = some address

/-- The row lies in the window of the rule set `c` for the transaction `tx`: from checkpoint
1180000 its height is at least `Height - 1440`, in the earlier rule sets its time is at least
`tx.Time - 86400`. -/
def inScoreWindow (c : ScoreCommentConsensus) (tx : Transaction) (r : ViewRow) : Prop :=
  if c.cls = ScoreCommentClass.ScoreCommentConsensus_checkpoint_1180000 then
    ∃ k, r.Height = some k ∧ c.Height - 1440 ≤ k
  else ∃ t, r.Time = some t ∧ tx.GetTime - 86400 ≤ t

instance decidableFrom (start : Int) (column : Option Int) :
    Decidable (∃ v, column = some v ∧ start ≤ v) :=
  match column with
  | none => isFalse (fun ⟨_, h, _⟩ => Option.noConfusion h)
  | some v =>
    if h : start ≤ v then isTrue ⟨v, rfl, h⟩
    else isFalse (fun ⟨_, h1, h2⟩ => h (Option.some.inj h1 ▸ h2))

instance decidableMempoolScoreOf (address : String) (r : ViewRow) :
    Decidable (mempoolScoreOf address r) :=
  inferInstanceAs (Decidable (r.Height = none ∧ r.AddressHash = some address))

instance decidableConfirmedLastScoreOf (address : String) (r : ViewRow) :
    Decidable (confirmedLastScoreOf address r) :=
  inferInstanceAs
    (Decidable (r.Height ≠ none ∧ r.AddressHash = some address ∧ r.Last = some 1))

instance decidableInScoreWindow (c : ScoreCommentConsensus) (tx : Transaction) (r : ViewRow) :
    Decidable (inScoreWindow c tx r) :=
  inferInstanceAs
    (Decidable
      (if c.cls = ScoreCommentClass.ScoreCommentConsensus_checkpoint_1180000 then
        ∃ k, r.Height = some k ∧ c.Height - 1440 ≤ k
      else ∃ t, r.Time = some t ∧ tx.GetTime - 86400 ≤ t))

end PocketConsensus

/-! # Concrete inputs -/

namespace PocketConsensus

open PocketTx PocketDb SocialConsensusResult AccountMode ScoreCommentClass

/-- A comment-score of actor `"A"` on the comment `"T"`. -/
def score_A_on_T : Transaction :=
  { m_type := ACTION_SCORE_COMMENT, m_hash := "s1", m_time := 1000,
    m_string1 := some "A", m_string2 := some "T", m_int1 := some 1 }

/-- A store where the comment `"T"` is authored by `"A"` and `"A"` has no registration. -/
def env_author_unregistered : Env :=
  { ConsensusRepoInst :=
      { Transactions := [{ Type_ := 204, Hash := "T", Time := 900, Height := some 10, Last := 1,
                           String1 := some "A", String2 := some "T" }] },
    GetAccountMode := fun _ _ => AccountMode_Trial }

/-- A store where `"A"` is registered and the last confirmed version of the comment `"T"`,
authored by `"A"`, is a delete version. -/
def env_target_deleted : Env :=
  { ConsensusRepoInst :=
      { Transactions := [{ Type_ := 206, Hash := "T2", Time := 950, Height := some 11, Last := 1,
                           String1 := some "A", String2 := some "T" }],
        vUsers := [{ AddressHash := some "A", Height := some 5 }] },
    GetAccountMode := fun _ _ => AccountMode_Trial }

/-- A store where `"A"` is registered and the comment `"T"`, authored by `"A"`, stands. -/
def env_self_comment : Env :=
  { ConsensusRepoInst :=
      { Transactions := [{ Type_ := 204, Hash := "T", Time := 900, Height := some 10, Last := 1,
                           String1 := some "A", String2 := some "T" }],
        vUsers := [{ AddressHash := some "A", Height := some 5 }] },
    GetAccountMode := fun _ _ => AccountMode_Trial }

/-- A store where `"A"` is registered, the comment `"T"` of `"B"` stands, a comment-score of
`"A"` on `"T"` waits in the mempool (no height) and `"A"` has no other comment-score. -/
def env_score_in_mempool : Env :=
  { ConsensusRepoInst :=
      { Transactions := [{ Type_ := 204, Hash := "T", Time := 900, Height := some 10, Last := 1,
                           String1 := some "B", String2 := some "T" }],
        vUsers := [{ AddressHash := some "A", Height := some 5 }],
        vScores := [{ Type_ := some 301, Hash := some "s0", Time := some 990,
                      AddressHash := some "A", ContentTxHash := some "T" }] },
    GetAccountMode := fun _ _ => AccountMode_Trial }

/-- A confirmed last-version comment-score row of `"A"` at time 999 and height 20. -/
def confirmed_score_row : ViewRow :=
  { Type_ := some 301, Time := some 999, Height := some 20, Last := some 1,
    AddressHash := some "A" }

/-- A store where the Trial actor `"A"` has `n` confirmed comment-scores in the window, none
in the mempool and no score on `"T"`. -/
def env_confirmed_scores (n : Nat) : Env :=
  { ConsensusRepoInst :=
      { Transactions := [{ Type_ := 204, Hash := "T", Time := 900, Height := some 10, Last := 1,
                           String1 := some "B", String2 := some "T" }],
        vUsers := [{ AddressHash := some "A", Height := some 5 }],
        vScoreComments := List.replicate n confirmed_score_row },
    GetAccountMode := fun _ _ => AccountMode_Trial }

/-- Another comment-score of actor `"A"` on the same comment `"T"`, with its own hash and an
earlier time. -/
def earlier_score_A_on_T : Transaction :=
  { m_type := ACTION_SCORE_COMMENT, m_hash := "s0", m_time := 990,
    m_string1 := some "A", m_string2 := some "T", m_int1 := some 1 }

/-- The `ACCOUNT_USER` transaction that registers the address `"A"`. -/
def registration_of_A : Transaction :=
  { m_type := ACCOUNT_USER, m_hash := "u1", m_time := 980, m_string1 := some "A" }

/-- A store where `"A"` is registered, the comment `"T"` of `"B"` stands and no score is
stored. -/
def env_registered : Env :=
  { ConsensusRepoInst :=
      { Transactions := [{ Type_ := 204, Hash := "T", Time := 900, Height := some 10, Last := 1,
                           String1 := some "B", String2 := some "T" }],
        vUsers := [{ AddressHash := some "A", Height := some 5 }] },
    GetAccountMode := fun _ _ => AccountMode_Trial }

/-- A store with no registration at all, where the comment `"T"` of `"B"` stands. -/
def env_no_registration : Env :=
  { ConsensusRepoInst :=
      { Transactions := [{ Type_ := 204, Hash := "T", Time := 900, Height := some 10, Last := 1,
                           String1 := some "B", String2 := some "T" }] },
    GetAccountMode := fun _ _ => AccountMode_Trial }

/-- A checkpoint table with the single entry (transaction `"s1"`, payload hash `"p1"`). -/
def checkpoint_s1_p1 (txHash payloadHash : String) : Bool :=
  txHash == "s1" && payloadHash == "p1"

/-- The comment-score `"s1"` of `"A"` on `"T"` whose op-return data commits `"o1"` while its
payload hashes to `"p1"`. -/
def score_with_other_commitment : Transaction :=
  { m_type := ACTION_SCORE_COMMENT, m_hash := "s1", m_time := 1000,
    m_string1 := some "A", m_string2 := some "T", m_int1 := some 1,
    m_opreturn_tx := some "o1", m_opreturn_payload := some "p1" }

/-- The comment-score `"s1"` of `"A"` on `"T"` whose op-return data commits the hash `"p1"`
of its payload. -/
def score_with_commitment : Transaction :=
  { m_type := ACTION_SCORE_COMMENT, m_hash := "s1", m_time := 1000,
    m_string1 := some "A", m_string2 := some "T", m_int1 := some 1,
    m_opreturn_tx := some "p1", m_opreturn_payload := some "p1" }

/-- The same comment-score without its value (`Int1` is a null pointer). -/
def score_without_value : Transaction :=
  { m_type := ACTION_SCORE_COMMENT, m_hash := "s1", m_time := 1000,
    m_string1 := some "A", m_string2 := some "T", m_int1 := none,
    m_opreturn_tx := some "p1", m_opreturn_payload := some "p1" }

/-- The same comment-score with the value 2, outside `{-1, +1}`. -/
def score_with_value_2 : Transaction :=
  { m_type := ACTION_SCORE_COMMENT, m_hash := "s1", m_time := 1000,
    m_string1 := some "A", m_string2 := some "T", m_int1 := some 2,
    m_opreturn_tx := some "p1", m_opreturn_payload := some "p1" }

/-- A store where the registration of `"A"` is still in the mempool (no height) and the
comment `"T"` of `"B"` stands. -/
def env_registration_in_mempool : Env :=
  { ConsensusRepoInst :=
      { Transactions := [{ Type_ := 204, Hash := "T", Time := 900, Height := some 10, Last := 1,
                           String1 := some "B", String2 := some "T" }],
        vUsers := [{ AddressHash := some "A", Height := none }] },
    GetAccountMode := fun _ _ => AccountMode_Trial }

/-- A comment-score of actor `"A"` on another comment, `"T2"`, with the same time as
`score_A_on_T`. -/
def score_A_on_T2_same_time : Transaction :=
  { m_type := ACTION_SCORE_COMMENT, m_hash := "s2", m_time := 1000,
    m_string1 := some "A", m_string2 := some "T2", m_int1 := some 1 }

/-- A store where the confirmed last user record of `"A"` has id 7; the account ratings of id
7 are 10 at height 5 and 25 at height 9, next to a likers rating of id 7 and an account
rating of id 8. -/
def db_ratings : ConsensusRepository :=
  { vUsers := [{ AddressHash := some "A", Height := some 5, Last := some 1, Id := some 7 }],
    Ratings := [{ Type_ := 0, Id := 7, Height := 5, Value := some 10 },
                { Type_ := 1, Id := 7, Height := 12, Value := some 3 },
                { Type_ := 0, Id := 7, Height := 9, Value := some 25 },
                { Type_ := 0, Id := 8, Height := 20, Value := some 99 }] }

/-- A stand-in for the array parser: the text `"TAGS"` holds the elements `"x"` and `"y"`, the
text `"IMAGES"` the element `"i1"`, any other text no element. -/
def read_sample (s : String) : List UniValueItem :=
  if s = "TAGS" then [UniValueItem.str "x", UniValueItem.str "y"]
  else if s = "IMAGES" then [UniValueItem.str "i1"]
  else []

/-- An edit `"p2"` of the post `"p1"` with url `"u"`, caption `"c"`, message `"m"`, two tags,
one image and no relay. -/
def post_edit : Transaction :=
  { m_type := CONTENT_POST, m_hash := "p2", m_time := 1000,
    m_string1 := some "A", m_string2 := some "p1",
    m_payload := some { m_string1 := some "en", m_string2 := some "c", m_string3 := some "m",
                        m_string4 := some "TAGS", m_string5 := some "IMAGES",
                        m_string7 := some "u" } }

/-- A store with the confirmed comment `"c1"` of `"A"` (height 10, the last version of its
root) and its edit `"c2"`, still unconfirmed. -/
def db_comment_with_edit : ConsensusRepository :=
  { vComments :=
      [{ Type_ := some 204, Hash := some "c1", Time := some 100, Height := some 10,
         Last := some 1, AddressHash := some "A", RootTxHash := some "c1" },
       { Type_ := some 205, Hash := some "c2", Time := some 200, Height := none,
         Last := some 0, AddressHash := some "A", RootTxHash := some "c1" }] }

/-- A store with the confirmed comment `"c1"` of `"A"` and a second comment `"c3"` of `"A"`,
a root of its own, still unconfirmed. -/
def db_two_comments : ConsensusRepository :=
  { vComments :=
      [{ Type_ := some 204, Hash := some "c1", Time := some 100, Height := some 10,
         Last := some 1, AddressHash := some "A", RootTxHash := some "c1" },
       { Type_ := some 204, Hash := some "c3", Time := some 200, Height := none,
         Last := some 0, AddressHash := some "A", RootTxHash := some "c3" }] }

/-- A chain repository for the examples: an input pair names the output with its
transaction hash and index, no rating is derived, and every candidate is taken as the prior
last version. -/
def repo_sample : ChainRepository :=
  { refers := fun i txHash number _ => i.1 == txHash && i.2 == number,
    ratings := fun _ _ => [],
    wasLast := fun _ _ _ => true }

/-- A store with the post `"p1"`, confirmed at height 5 and the last version of its root, and
in the mempool two edits of it, `"p2"` and `"p3"`, and the complaint `"k1"`, a root of its
own. -/
def chain_post_with_edits : ChainState :=
  { Transactions :=
      [{ Hash := "p1", RootHash := some "p1", Height := some 5, BlockHash := some "b5",
         BlockNum := some 0, IsLast := true },
       { Hash := "p2", RootHash := some "p1" },
       { Hash := "p3", RootHash := some "p1" },
       { Hash := "k1", RootHash := some "k1" }] }

/-- The block that confirms the two edits, `"p2"` before `"p3"`, and the complaint `"k1"`
between them. -/
def block_two_edits : List TransactionIndexingInfo :=
  [{ Hash := "p2", BlockNumber := 0, Type_ := CONTENT_POST },
   { Hash := "k1", BlockNumber := 1, Type_ := ACTION_COMPLAIN },
   { Hash := "p3", BlockNumber := 2, Type_ := CONTENT_POST }]

/-- A store before three blocks: a coin transaction `"g"` confirmed at height 5 with two
unspent outputs, and in the mempool the post `"p1"`, its edits `"p2"` and `"p3"`, the coin
transaction `"m1"` and the complaint `"k1"`, a root of its own. -/
def chain_before_blocks : ChainState :=
  { Transactions :=
      [{ Hash := "g", Height := some 5, BlockHash := some "b5", BlockNum := some 0 },
       { Hash := "p1", RootHash := some "p1" },
       { Hash := "p2", RootHash := some "p1" },
       { Hash := "p3", RootHash := some "p1" },
       { Hash := "m1" },
       { Hash := "k1", RootHash := some "k1" }],
    TxOutputs :=
      [{ TxHash := "g", Number := 0, AddressHash := "A", Value := 5 },
       { TxHash := "g", Number := 1, AddressHash := "A", Value := 7 }] }

/-- The block of height 10: the post `"p1"`, which spends the first output of `"g"`. -/
def block_10 : ChainRepository.IndexedBlock :=
  { blockHash := "b10", height := 10,
    txs := [{ Hash := "p1", BlockNumber := 0, Type_ := CONTENT_POST, Inputs := [("g", 0)] }] }

/-- The block of height 11: the coin transaction `"m1"`, which spends the second output of
`"g"`, and the edit `"p2"`. -/
def block_11 : ChainRepository.IndexedBlock :=
  { blockHash := "b11", height := 11,
    txs := [{ Hash := "m1", BlockNumber := 0, Type_ := TX_DEFAULT, Inputs := [("g", 1)] },
            { Hash := "p2", BlockNumber := 1, Type_ := CONTENT_POST }] }

/-- The block of height 12: the edit `"p3"` and the complaint `"k1"`. -/
def block_12 : ChainRepository.IndexedBlock :=
  { blockHash := "b12", height := 12,
    txs := [{ Hash := "p3", BlockNumber := 0, Type_ := CONTENT_POST },
            { Hash := "k1", BlockNumber := 1, Type_ := ACTION_COMPLAIN }] }

/-- A post `"p1"` of `"A"` with caption `"ab"` and an empty message. -/
def post_caption_ab : Transaction :=
  { m_type := CONTENT_POST, m_hash := "p1", m_time := 1000,
    m_string1 := some "A", m_string2 := some "p1",
    m_payload := some { m_string1 := some "en", m_string2 := some "ab",
                        m_string3 := some "" } }

/-- The same post with caption `"a"` and message `"b"`. -/
def post_caption_a_message_b : Transaction :=
  { m_type := CONTENT_POST, m_hash := "p1", m_time := 1000,
    m_string1 := some "A", m_string2 := some "p1",
    m_payload := some { m_string1 := some "en", m_string2 := some "a",
                        m_string3 := some "b" } }

/-- A state in which the reputation consensus answers `AccountMode_Trial` for every
address. -/
def env_all_trial : Env :=
  { ConsensusRepoInst := {}, GetAccountMode := fun _ _ => AccountMode_Trial }

/-- A state in which the reputation consensus answers `AccountMode_Full` for every
address. -/
def env_all_full : Env :=
  { ConsensusRepoInst := {}, GetAccountMode := fun _ _ => AccountMode_Full }

/-- A store where `"A"` has a confirmed registration and `"B"` one that waits in the
mempool. -/
def db_A_confirmed_B_mempool : ConsensusRepository :=
  { vUsers := [{ AddressHash := some "A", Height := some 5 },
               { AddressHash := some "B", Height := none }] }

/-- A store where `"A"` is registered, the comment `"T"` of `"B"` stands after the comment
`"U"` of `"C"`, and the last confirmed blocking record of `"B"` toward `"A"` is the blocking
`"k1"`, which follows the superseded cancellation `"k0"`. -/
def env_B_blocks_A : Env :=
  { ConsensusRepoInst :=
      { Transactions := [{ Type_ := 204, Hash := "U", Time := 890, Height := some 9, Last := 1,
                           String1 := some "C", String2 := some "U" },
                         { Type_ := 204, Hash := "T", Time := 900, Height := some 10, Last := 1,
                           String1 := some "B", String2 := some "T" }],
        vUsers := [{ AddressHash := some "A", Height := some 5 }],
        vBlockings := [{ Type_ := some 306, Hash := some "k0", Time := some 700,
                         Height := some 7, Last := some 0, AddressHash := some "B",
                         AddressToHash := some "A" },
                       { Type_ := some 305, Hash := some "k1", Time := some 800,
                         Height := some 8, Last := some 1, AddressHash := some "B",
                         AddressToHash := some "A" }] },
    GetAccountMode := fun _ _ => AccountMode_Trial }

/-- A store where the actor `"A"` has four confirmed last-version comment-scores: one at
time 999 and height 1179990, one at time -90000 and height 1179990, and two at time 999 and
height 1000. The transaction `score_A_on_T` has time 1000, so its time window starts at
-85400; the height window of the evaluation height 1180000 starts at 1178560. -/
def env_scores_in_and_out_of_window : Env :=
  { ConsensusRepoInst :=
      { vScoreComments :=
          [{ Type_ := some 301, Time := some 999, Height := some 1179990, Last := some 1,
             AddressHash := some "A" },
           { Type_ := some 301, Time := some (-90000), Height := some 1179990, Last := some 1,
             AddressHash := some "A" },
           { Type_ := some 301, Time := some 999, Height := some 1000, Last := some 1,
             AddressHash := some "A" },
           { Type_ := some 301, Time := some 999, Height := some 1000, Last := some 1,
             AddressHash := some "A" }] },
    GetAccountMode := fun _ _ => AccountMode_Trial }

/-- A comment-score of actor `"A"` on a third comment, `"T3"`, with a later time than
`score_A_on_T`. -/
def score_A_on_T3_later : Transaction :=
  { m_type := ACTION_SCORE_COMMENT, m_hash := "s3", m_time := 2000,
    m_string1 := some "A", m_string2 := some "T3", m_int1 := some 1 }

/-- A comment-score of another actor, `"C"`, on the comment `"T"`. -/
def score_C_on_T : Transaction :=
  { m_type := ACTION_SCORE_COMMENT, m_hash := "s4", m_time := 990,
    m_string1 := some "C", m_string2 := some "T", m_int1 := some 1 }

/-- A candidate block with the validated comment-score of `"A"`, two other comment-scores of
`"A"` (one with the same time, one later), a comment-score of `"C"` and the registration of
`"A"`. -/
def block_with_two_siblings : PocketBlock :=
  [score_A_on_T, score_A_on_T2_same_time, score_C_on_T, registration_of_A,
   score_A_on_T3_later]

/-- A frontend whose cache holds the page `"/test.html"` that `Init` puts there. -/
def frontend_after_Init : PocketWeb.PocketFrontend :=
  { Cache := [("/test.html",
      { Path := "/test.html", Name := "test.html", ContentType := "",
        Content :=
          "<html><head><script src='main.js'></script></head><body>Hello World!</body></html>" })],
    MimeTypes := [("html", "text/html"), ("default", "application/octet-stream")] }

/-- A disk that holds the single file `"/index.html"`. -/
def disk_with_index (path : String) : Option String :=
  if path = "/index.html" then some "<html></html>" else none

/-- A comment-score row of `"A"` that waits in the mempool: no height, not a last version. -/
def mempool_score_row : ViewRow :=
  { Type_ := some 301, Time := some 999, Height := none, Last := some 0,
    AddressHash := some "A" }

/-- A store where the Trial actor `"A"` has `n` confirmed comment-scores in the window, `m`
comment-scores in the mempool and no score on `"T"`. -/
def env_confirmed_and_mempool_scores (n m : Nat) : Env :=
  { ConsensusRepoInst :=
      { Transactions := [{ Type_ := 204, Hash := "T", Time := 900, Height := some 10, Last := 1,
                           String1 := some "B", String2 := some "T" }],
        vUsers := [{ AddressHash := some "A", Height := some 5 }],
        vScoreComments :=
          List.replicate n confirmed_score_row ++ List.replicate m mempool_score_row },
    GetAccountMode := fun _ _ => AccountMode_Trial }

end PocketConsensus

/-! # Theorems -/

namespace PocketConsensus

open PocketTx PocketDb SocialConsensusResult AccountMode ScoreCommentClass

/-! ## Checkpoint selection -/

/-- The map `m_rules` holds the five entries in ascending order of activation height. -/
theorem ScoreCommentConsensusFactory.m_rules_eq :
    ScoreCommentConsensusFactory.m_rules =
      [ (0, fun height => ⟨ScoreCommentConsensus_base, height⟩),
        (430000, fun height => ⟨ScoreCommentConsensus_checkpoint_430000, height⟩),
        (514184, fun height => ⟨ScoreCommentConsensus_checkpoint_514184, height⟩),
        (1124000, fun height => ⟨ScoreCommentConsensus_checkpoint_1124000, height⟩),
        (1180000, fun height => ⟨ScoreCommentConsensus_checkpoint_1180000, height⟩) ] := by
  simp [ScoreCommentConsensusFactory.m_rules, ScoreCommentConsensusFactory.m_rules_init,
    List.insertionSort, List.orderedInsert]

/-- The class `Instance` builds, by height range. -/
theorem ScoreCommentConsensusFactory.Instance_eq (h : Int) (h0 : 0 ≤ h) :
    ScoreCommentConsensusFactory.Instance h = some
      ⟨if h < 430000 then ScoreCommentConsensus_base
        else if h < 514184 then ScoreCommentConsensus_checkpoint_430000
        else if h < 1124000 then ScoreCommentConsensus_checkpoint_514184
        else if h < 1180000 then ScoreCommentConsensus_checkpoint_1124000
        else ScoreCommentConsensus_checkpoint_1180000, h⟩ := by
  unfold ScoreCommentConsensusFactory.Instance ScoreCommentConsensusFactory.upper_bound
  rw [ScoreCommentConsensusFactory.m_rules_eq]
  by_cases h1 : h < 430000
  · have : ¬ h < 0 := by omega
    simp [List.findIdx_cons, h1, this]
  by_cases h2 : h < 514184
  · have : ¬ h < 0 := by omega
    simp [List.findIdx_cons, h1, h2, this]
  by_cases h3 : h < 1124000
  · have : ¬ h < 0 := by omega
    simp [List.findIdx_cons, h1, h2, h3, this]
  by_cases h4 : h < 1180000
  · have : ¬ h < 0 := by omega
    simp [List.findIdx_cons, h1, h2, h3, h4, this]
  · have : ¬ h < 0 := by omega
    simp [List.findIdx_cons, h1, h2, h3, h4, this]

/-- C1. For every height `h ≥ 0`, `ScoreCommentConsensusFactory::Instance(h)` builds the rule
set registered in `m_rules` under the greatest activation height `≤ h`, the keys of the table
being 0, 430000, 514184, 1124000 and 1180000 (and the object it builds reports that key as its
`CheckpointHeight`); in particular 429999 selects the base rule set, 430000 and 514183 the
430000 checkpoint, and 514184 the 514184 checkpoint. -/
theorem C1_Instance_selects_greatest_activation (h : Int) (h0 : 0 ≤ h) :
    ScoreCommentConsensusFactory.m_rules.map Prod.fst = [0, 430000, 514184, 1124000, 1180000]
    ∧ (∃ e ∈ ScoreCommentConsensusFactory.m_rules,
        e.1 ≤ h
        ∧ (∀ e2 ∈ ScoreCommentConsensusFactory.m_rules, e2.1 ≤ h → e2.1 ≤ e.1)
        ∧ ScoreCommentConsensusFactory.Instance h = some (e.2 h)
        ∧ (e.2 h).CheckpointHeight = e.1)
    ∧ ScoreCommentConsensusFactory.Instance 429999 = some ⟨ScoreCommentConsensus_base, 429999⟩
    ∧ ScoreCommentConsensusFactory.Instance 430000
        = some ⟨ScoreCommentConsensus_checkpoint_430000, 430000⟩
    ∧ ScoreCommentConsensusFactory.Instance 514183
        = some ⟨ScoreCommentConsensus_checkpoint_430000, 514183⟩
    ∧ ScoreCommentConsensusFactory.Instance 514184
        = some ⟨ScoreCommentConsensus_checkpoint_514184, 514184⟩ := by
  refine ⟨by simp [ScoreCommentConsensusFactory.m_rules_eq], ?_, ?_, ?_, ?_, ?_⟩
  · rw [ScoreCommentConsensusFactory.Instance_eq h h0, ScoreCommentConsensusFactory.m_rules_eq]
    by_cases h1 : h < 430000
    · refine ⟨(0, fun height => ⟨ScoreCommentConsensus_base, height⟩), by simp, h0, ?_, ?_, rfl⟩
      · intro e2 he2 hle
        simp at he2
        rcases he2 with rfl | rfl | rfl | rfl | rfl <;> dsimp only at hle ⊢ <;> omega
      · simp [h1]
    by_cases h2 : h < 514184
    · refine ⟨(430000, fun height => ⟨ScoreCommentConsensus_checkpoint_430000, height⟩),
        by simp, by simp; omega, ?_, ?_, rfl⟩
      · intro e2 he2 hle
        simp at he2
        rcases he2 with rfl | rfl | rfl | rfl | rfl <;> dsimp only at hle ⊢ <;> omega
      · simp [h1, h2]
    by_cases h3 : h < 1124000
    · refine ⟨(514184, fun height => ⟨ScoreCommentConsensus_checkpoint_514184, height⟩),
        by simp, by simp; omega, ?_, ?_, rfl⟩
      · intro e2 he2 hle
        simp at he2
        rcases he2 with rfl | rfl | rfl | rfl | rfl <;> dsimp only at hle ⊢ <;> omega
      · simp [h1, h2, h3]
    by_cases h4 : h < 1180000
    · refine ⟨(1124000, fun height => ⟨ScoreCommentConsensus_checkpoint_1124000, height⟩),
        by simp, by simp; omega, ?_, ?_, rfl⟩
      · intro e2 he2 hle
        simp at he2
        rcases he2 with rfl | rfl | rfl | rfl | rfl <;> dsimp only at hle ⊢ <;> omega
      · simp [h1, h2, h3, h4]
    · refine ⟨(1180000, fun height => ⟨ScoreCommentConsensus_checkpoint_1180000, height⟩),
        by simp, by simp; omega, ?_, ?_, rfl⟩
      · intro e2 he2 hle
        simp at he2
        rcases he2 with rfl | rfl | rfl | rfl | rfl <;> dsimp only at hle ⊢ <;> omega
      · simp [h1, h2, h3, h4]
  · rw [ScoreCommentConsensusFactory.Instance_eq _ (by decide)]; simp
  · rw [ScoreCommentConsensusFactory.Instance_eq _ (by decide)]; simp
  · rw [ScoreCommentConsensusFactory.Instance_eq _ (by decide)]; simp
  · rw [ScoreCommentConsensusFactory.Instance_eq _ (by decide)]; simp

/-- C1 at height 1123999, the last height of the 514184 checkpoint. -/
theorem C1_Instance_selects_greatest_activation_witness :
    (0 : Int) ≤ 1123999
    ∧ ∃ e ∈ ScoreCommentConsensusFactory.m_rules,
        e.1 ≤ 1123999
        ∧ (∀ e2 ∈ ScoreCommentConsensusFactory.m_rules, e2.1 ≤ 1123999 → e2.1 ≤ e.1)
        ∧ ScoreCommentConsensusFactory.Instance 1123999 = some (e.2 1123999)
        ∧ (e.2 1123999).CheckpointHeight = e.1 :=
  ⟨by decide, (C1_Instance_selects_greatest_activation 1123999 (by decide)).2.1⟩

/-! ## The registration gate -/

theorem toInt32_of_range (x : Int) (h0 : 0 ≤ x) (h1 : x < 2147483648) : toInt32 x = x := by
  unfold toInt32
  omega

theorem IsIn_singleton (txType t : PocketTxType) :
    IsIn txType [t] = decide (t = txType) := by
  by_cases h : t = txType <;> simp [IsIn, h]

/-- When every `ACCOUNT_USER` transaction of the block carries its address, the
registration loop leaves exactly the addresses no `ACCOUNT_USER` transaction of the block
carries, wherever in the block those transactions stand. -/
theorem SocialBaseConsensus.Validate_tx_block_loop_eq (block : PocketBlock)
    (addresses : List String) (hwf : blockUsersHaveAddress block = true) :
    SocialBaseConsensus.Validate_tx_block_loop block addresses
      = some (notExempt block addresses) := by
  unfold notExempt
  induction block generalizing addresses with
  | nil => simp [SocialBaseConsensus.Validate_tx_block_loop, blockRegistrations]
  | cons b rest ih =>
    have hrest : blockUsersHaveAddress rest = true := by
      simp [blockUsersHaveAddress] at hwf ⊢
      exact hwf.2
    unfold SocialBaseConsensus.Validate_tx_block_loop
    rw [IsIn_singleton]
    by_cases ht : b.GetType = ACCOUNT_USER
    · have hs : b.GetString1.isSome = true := by
        simp [blockUsersHaveAddress, ht] at hwf
        exact hwf.1
      obtain ⟨x, hx⟩ := Option.isSome_iff_exists.mp hs
      have hreg : blockRegistrations (b :: rest) = x :: blockRegistrations rest := by
        simp [blockRegistrations, List.filterMap_cons, ht, hx]
      simp only [ht, hx, hreg, decide_True, Bool.not_true, Bool.false_eq_true, if_false,
        Option.bind_eq_bind, Option.some_bind]
      by_cases hmem : x ∈ addresses
      · rw [if_pos hmem, ih _ hrest, List.filter_filter]
        congr 1
        apply List.filter_congr
        intro a _
        by_cases hax : a = x <;> simp [hax]
      · rw [if_neg hmem, ih _ hrest]
        congr 1
        apply List.filter_congr
        intro a ha
        have : a ≠ x := fun h => hmem (h ▸ ha)
        simp [this]
    · have hreg : blockRegistrations (b :: rest) = blockRegistrations rest := by
        simp [blockRegistrations, List.filterMap_cons, ht]
      have ht2 : ¬ ACCOUNT_USER = b.GetType := fun h => ht h.symm
      simp only [ht2, decide_False, Bool.not_false, if_true, hreg]
      exact ih _ hrest

/-- The distinct addresses `ExistsUserRegistrations` counts are the listed addresses that
have a registration row. -/
theorem ExistsUserRegistrations_mem_selected (db : ConsensusRepository)
    (addresses : List String) (mempool : Bool) (a : String) :
    a ∈ ((db.vUsers.filter
            (ConsensusRepository.ExistsUserRegistrations_where addresses mempool)).filterMap
          (fun u => u.AddressHash)).dedup
      ↔ a ∈ addresses ∧ HasRegistration db a mempool = true := by
  simp only [List.mem_dedup, List.mem_filterMap, List.mem_filter, HasRegistration,
    List.any_eq_true, ConsensusRepository.ExistsUserRegistrations_where, Bool.and_eq_true,
    beq_iff_eq]
  constructor
  · rintro ⟨u, ⟨hu, hw, hh⟩, hua⟩
    rw [hua] at hw
    exact ⟨by simpa using hw, u, hu, hua, hh⟩
  · rintro ⟨ha, u, hu, hua, hh⟩
    refine ⟨u, ⟨hu, ?_, hh⟩, hua⟩
    rw [hua]
    simpa using ha

/-- Function `ExistsUserRegistrations` answers false as soon as one listed address has no
registration row (the list being shorter than `2^31`). -/
theorem ExistsUserRegistrations_eq_false (db : ConsensusRepository)
    (addresses : List String) (mempool : Bool) (hlen : addresses.length < 2147483648)
    (a0 : String) (ha0 : a0 ∈ addresses) (hno : HasRegistration db a0 mempool = false) :
    ConsensusRepository.ExistsUserRegistrations db addresses mempool = false := by
  unfold ConsensusRepository.ExistsUserRegistrations
  have hne : addresses.isEmpty = false := by
    cases addresses with
    | nil => simp at ha0
    | cons _ _ => rfl
  simp only [hne, Bool.false_eq_true, if_false, TryGetColumnInt, sqlite3_column_int]
  set S := ((db.vUsers.filter
      (ConsensusRepository.ExistsUserRegistrations_where addresses mempool)).filterMap
        (fun u => u.AddressHash)).dedup with hS
  have hsub : S.toFinset ⊆ addresses.toFinset.erase a0 := by
    intro a ha
    rw [List.mem_toFinset, hS, ExistsUserRegistrations_mem_selected] at ha
    rw [Finset.mem_erase, List.mem_toFinset]
    refine ⟨?_, ha.1⟩
    rintro rfl
    rw [hno] at ha
    exact Bool.false_ne_true ha.2
  have hcard : S.length = S.toFinset.card := by
    rw [List.toFinset_card_of_nodup (List.nodup_dedup _)]
  have h1 : S.toFinset.card ≤ (addresses.toFinset.erase a0).card := Finset.card_le_card hsub
  have h2 : (addresses.toFinset.erase a0).card < addresses.toFinset.card :=
    Finset.card_erase_lt_of_mem (List.mem_toFinset.mpr ha0)
  have h3 : addresses.toFinset.card ≤ addresses.length := List.toFinset_card_le addresses
  have hlt : S.length < addresses.length := by omega
  rw [toInt32_of_range _ (by omega) (by omega), toInt32_of_range _ (by omega) (by omega)]
  simp only [beq_eq_false_iff_ne, ne_eq]
  omega

/-- Function `ExistsUserRegistrations` answers true for a single address that has a registration
row. -/
theorem ExistsUserRegistrations_singleton (db : ConsensusRepository) (a : String)
    (mempool : Bool) (hreg : HasRegistration db a mempool = true) :
    ConsensusRepository.ExistsUserRegistrations db [a] mempool = true := by
  unfold ConsensusRepository.ExistsUserRegistrations
  simp only [List.isEmpty_cons, Bool.false_eq_true, if_false, TryGetColumnInt,
    sqlite3_column_int, List.length_singleton]
  set S := ((db.vUsers.filter
      (ConsensusRepository.ExistsUserRegistrations_where [a] mempool)).filterMap
        (fun u => u.AddressHash)).dedup with hS
  have hfin : S.toFinset = {a} := by
    ext x
    rw [List.mem_toFinset, hS, ExistsUserRegistrations_mem_selected, Finset.mem_singleton,
      List.mem_singleton]
    constructor
    · exact fun h => h.1
    · rintro rfl
      exact ⟨rfl, hreg⟩
  have hcard : S.length = 1 := by
    rw [← List.toFinset_card_of_nodup (List.nodup_dedup _), ← hS, hfin, Finset.card_singleton]
  rw [hcard]
  rfl

theorem notExempt_mem (block : PocketBlock) (addresses : List String) (a : String) :
    a ∈ notExempt block addresses ↔ a ∈ addresses ∧ a ∉ blockRegistrations block := by
  unfold notExempt
  rw [List.mem_filter]
  simp

theorem isEmpty_eq_false_of_mem {α : Type} (l : List α) (a : α) (h : a ∈ l) :
    l.isEmpty = false := by
  cases l with
  | nil => exact absurd h (List.not_mem_nil a)
  | cons _ _ => rfl

/-- Function `Validate(tx, block)` with its registration loop resolved: the addresses left are those
no `ACCOUNT_USER` transaction of the block carries. -/
theorem SocialBaseConsensus.Validate_tx_block_eq (c : SocialBaseConsensus) (env : Env)
    (tx : Transaction) (block : PocketBlock) (addresses : List String)
    (haddr : c.GetAddressesForCheckRegistration tx = some addresses)
    (hwf : blockUsersHaveAddress block = true) :
    c.Validate_tx_block env tx block =
      if addresses.isEmpty = true then c.Validate_tx_block_rest env tx block
      else if ((!(notExempt block addresses).isEmpty)
          && !ConsensusRepository.ExistsUserRegistrations env.ConsensusRepoInst
                (notExempt block addresses) false) = true then
        some (false, SocialConsensusResult_NotRegistered)
      else c.Validate_tx_block_rest env tx block := by
  unfold SocialBaseConsensus.Validate_tx_block
  rw [haddr]
  simp only [Option.bind_eq_bind, Option.some_bind,
    SocialBaseConsensus.Validate_tx_block_loop_eq block addresses hwf]
  by_cases he : addresses.isEmpty = true
  · rw [if_pos he]
    simp only [he, Bool.not_true, Bool.false_eq_true, if_false]
  · rw [if_neg he]
    simp only [he, Bool.not_false, if_true]
    rfl

/-- The registration gate of `Validate(tx, block)` lets the transaction through when every
required address is carried by an `ACCOUNT_USER` transaction of the block. -/
theorem SocialBaseConsensus.Validate_tx_block_of_exempt (c : SocialBaseConsensus) (env : Env)
    (tx : Transaction) (block : PocketBlock) (addresses : List String)
    (haddr : c.GetAddressesForCheckRegistration tx = some addresses)
    (hwf : blockUsersHaveAddress block = true)
    (hex : ∀ a ∈ addresses, a ∈ blockRegistrations block) :
    c.Validate_tx_block env tx block = c.Validate_tx_block_rest env tx block := by
  rw [SocialBaseConsensus.Validate_tx_block_eq c env tx block addresses haddr hwf]
  have hnil : notExempt block addresses = [] := by
    apply List.eq_nil_iff_forall_not_mem.mpr
    intro a ha
    rw [notExempt_mem] at ha
    exact ha.2 (hex a ha.1)
  rw [hnil]
  by_cases he : addresses.isEmpty = true
  · rw [if_pos he]
  · rw [if_neg he, if_neg]
    simp

/-- The registration gate of `Validate(tx, block)` rejects with `NotRegistered` when an
address that no `ACCOUNT_USER` transaction of the block carries has no confirmed
registration. -/
theorem SocialBaseConsensus.Validate_tx_block_of_unregistered (c : SocialBaseConsensus)
    (env : Env) (tx : Transaction) (block : PocketBlock) (addresses : List String)
    (haddr : c.GetAddressesForCheckRegistration tx = some addresses)
    (hwf : blockUsersHaveAddress block = true)
    (hlen : addresses.length < 2147483648)
    (a0 : String) (ha0 : a0 ∈ addresses) (hne : a0 ∉ blockRegistrations block)
    (hno : HasRegistration env.ConsensusRepoInst a0 false = false) :
    c.Validate_tx_block env tx block = some (false, SocialConsensusResult_NotRegistered) := by
  rw [SocialBaseConsensus.Validate_tx_block_eq c env tx block addresses haddr hwf]
  have hmem : a0 ∈ notExempt block addresses := (notExempt_mem block addresses a0).mpr ⟨ha0, hne⟩
  have hlen2 : (notExempt block addresses).length < 2147483648 :=
    lt_of_le_of_lt (List.length_filter_le _ _) hlen
  have hfalse := ExistsUserRegistrations_eq_false env.ConsensusRepoInst _ false hlen2 a0 hmem hno
  have he1 : addresses.isEmpty = false := isEmpty_eq_false_of_mem _ _ ha0
  have he2 : (notExempt block addresses).isEmpty = false := isEmpty_eq_false_of_mem _ _ hmem
  rw [he1, he2, hfalse]
  rfl

/-- The registration gate of `Validate(tx, block)` lets a transaction with one required
address through when that address is carried by an `ACCOUNT_USER` transaction of the block
or has a confirmed registration. -/
theorem SocialBaseConsensus.Validate_tx_block_of_single (c : SocialBaseConsensus) (env : Env)
    (tx : Transaction) (block : PocketBlock) (A : String)
    (haddr : c.GetAddressesForCheckRegistration tx = some [A])
    (hwf : blockUsersHaveAddress block = true)
    (hreg : A ∈ blockRegistrations block ∨ HasRegistration env.ConsensusRepoInst A false = true) :
    c.Validate_tx_block env tx block = c.Validate_tx_block_rest env tx block := by
  by_cases hex : A ∈ blockRegistrations block
  · apply SocialBaseConsensus.Validate_tx_block_of_exempt c env tx block [A] haddr hwf
    intro a ha
    rw [List.mem_singleton] at ha
    rw [ha]
    exact hex
  · have hr : HasRegistration env.ConsensusRepoInst A false = true := by
      rcases hreg with h | h
      · exact absurd h hex
      · exact h
    rw [SocialBaseConsensus.Validate_tx_block_eq c env tx block [A] haddr hwf]
    have hf : notExempt block [A] = [A] := by
      unfold notExempt
      rw [List.filter_cons_of_pos (by simpa using hex)]
      rfl
    rw [hf, ExistsUserRegistrations_singleton env.ConsensusRepoInst A false hr]
    rfl

/-- Function `Validate(tx)` with its required addresses resolved. -/
theorem SocialBaseConsensus.Validate_tx_eq (c : SocialBaseConsensus) (env : Env)
    (tx : Transaction) (addresses : List String)
    (haddr : c.GetAddressesForCheckRegistration tx = some addresses) :
    c.Validate_tx env tx =
      if ((!addresses.isEmpty)
          && !ConsensusRepository.ExistsUserRegistrations env.ConsensusRepoInst addresses true)
          = true then
        some (false, SocialConsensusResult_NotRegistered)
      else c.Validate_tx_rest env tx := by
  unfold SocialBaseConsensus.Validate_tx
  rw [haddr]
  rfl

/-- The registration gate of `Validate(tx)` lets a transaction with one required address
through when that address has a registration row, confirmed or in the mempool. -/
theorem SocialBaseConsensus.Validate_tx_of_single (c : SocialBaseConsensus) (env : Env)
    (tx : Transaction) (A : String)
    (haddr : c.GetAddressesForCheckRegistration tx = some [A])
    (hreg : HasRegistration env.ConsensusRepoInst A true = true) :
    c.Validate_tx env tx = c.Validate_tx_rest env tx := by
  rw [SocialBaseConsensus.Validate_tx_eq c env tx [A] haddr,
    ExistsUserRegistrations_singleton env.ConsensusRepoInst A true hreg]
  rfl

/-- The registration gate of `Validate(tx)` rejects with `NotRegistered` when a required
address has no registration row at all. -/
theorem SocialBaseConsensus.Validate_tx_of_unregistered (c : SocialBaseConsensus) (env : Env)
    (tx : Transaction) (addresses : List String)
    (haddr : c.GetAddressesForCheckRegistration tx = some addresses)
    (hlen : addresses.length < 2147483648)
    (a0 : String) (ha0 : a0 ∈ addresses)
    (hno : HasRegistration env.ConsensusRepoInst a0 true = false) :
    c.Validate_tx env tx = some (false, SocialConsensusResult_NotRegistered) := by
  have hfalse := ExistsUserRegistrations_eq_false env.ConsensusRepoInst _ true hlen a0 ha0 hno
  have he1 : addresses.isEmpty = false := isEmpty_eq_false_of_mem _ _ ha0
  rw [SocialBaseConsensus.Validate_tx_eq c env tx addresses haddr, he1, hfalse]
  rfl

/-- A confirmed registration row is also a registration row when the mempool is included. -/
theorem HasRegistration_mempool_of_confirmed (db : ConsensusRepository) (a : String)
    (h : HasRegistration db a false = true) : HasRegistration db a true = true := by
  unfold HasRegistration at h ⊢
  rw [List.any_eq_true] at h ⊢
  obtain ⟨u, hu, hcond⟩ := h
  refine ⟨u, hu, ?_⟩
  rw [Bool.and_eq_true] at hcond ⊢
  exact ⟨hcond.1, rfl⟩

/-! ## The comment-score rule sets -/

theorem ScoreCommentConsensus.GetAddressesForCheckRegistration_eq (c : ScoreCommentConsensus)
    (tx : Transaction) (A : String) (hA : tx.GetAddress = some A) :
    c.toSocialBaseConsensus.GetAddressesForCheckRegistration tx = some [A] := by
  show c.GetAddressesForCheckRegistration tx = some [A]
  unfold ScoreCommentConsensus.GetAddressesForCheckRegistration
  rw [hA]
  rfl

/-- Function `ValidateBlocking` answers `Success` or the `Blocking` rejection. -/
theorem ScoreCommentConsensus.ValidateBlocking_cases (c : ScoreCommentConsensus) (env : Env)
    (commentAddress : String) (tx : Transaction) (A : String) (hA : tx.GetAddress = some A) :
    c.ValidateBlocking env commentAddress tx = some Success
      ∨ c.ValidateBlocking env commentAddress tx
          = some (false, SocialConsensusResult_Blocking) := by
  unfold ScoreCommentConsensus.ValidateBlocking
  cases c.cls
  case ScoreCommentConsensus_checkpoint_430000 =>
    simp only [hA, Option.bind_eq_bind, Option.some_bind]
    cases hb : ConsensusRepository.GetLastBlockingType env.ConsensusRepoInst commentAddress A
      with
    | mk e t =>
      by_cases hc : (e && t == ACTION_BLOCKING) = true
      · right
        simp only [hc, if_true]
        rfl
      · left
        simp only [hc, if_false]
        rfl
  all_goals exact Or.inl rfl

/-- Function `ValidateModel` when the scored comment has no confirmed last version. -/
theorem ScoreCommentConsensus.ValidateModel_of_none (c : ScoreCommentConsensus) (env : Env)
    (tx : Transaction) (T : String) (hT : tx.GetCommentTxHash = some T)
    (hlast : ConsensusRepository.GetLastContent env.ConsensusRepoInst T = none) :
    c.ValidateModel env tx = some (false, SocialConsensusResult_NotFound) := by
  unfold ScoreCommentConsensus.ValidateModel
  simp only [hT, Option.bind_eq_bind, Option.some_bind, hlast]
  rfl

/-- Function `ValidateModel` when the last confirmed version of the scored comment is a delete. -/
theorem ScoreCommentConsensus.ValidateModel_of_delete (c : ScoreCommentConsensus) (env : Env)
    (tx : Transaction) (T : String) (lastContent : Transaction)
    (hT : tx.GetCommentTxHash = some T)
    (hlast : ConsensusRepository.GetLastContent env.ConsensusRepoInst T = some lastContent)
    (hdel : lastContent.GetType = CONTENT_COMMENT_DELETE) :
    c.ValidateModel env tx = some (false, SocialConsensusResult_NotFound) := by
  unfold ScoreCommentConsensus.ValidateModel
  simp only [hT, Option.bind_eq_bind, Option.some_bind, hlast, hdel, if_true]
  rfl

/-- Function `ValidateModel` when the actor is the author of the scored comment. -/
theorem ScoreCommentConsensus.ValidateModel_of_self (c : ScoreCommentConsensus) (env : Env)
    (tx : Transaction) (A T : String) (lastContent : Transaction)
    (hA : tx.GetAddress = some A) (hT : tx.GetCommentTxHash = some T)
    (hlast : ConsensusRepository.GetLastContent env.ConsensusRepoInst T = some lastContent)
    (hnd : lastContent.GetType ≠ CONTENT_COMMENT_DELETE)
    (hauthor : lastContent.GetString1 = some A) :
    c.ValidateModel env tx = some (false, SocialConsensusResult_SelfCommentScore) := by
  unfold ScoreCommentConsensus.ValidateModel
  simp only [hT, Option.bind_eq_bind, Option.some_bind, hlast, hnd, if_false, hA, hauthor,
    if_true]
  rfl

/-- Function `ValidateModel` when the scored comment stands, is authored by another address and no
blocking rejection applies: the confirmed scores decide. -/
theorem ScoreCommentConsensus.ValidateModel_of_other (c : ScoreCommentConsensus) (env : Env)
    (tx : Transaction) (A B T : String) (lastContent : Transaction)
    (hA : tx.GetAddress = some A) (hT : tx.GetCommentTxHash = some T)
    (hlast : ConsensusRepository.GetLastContent env.ConsensusRepoInst T = some lastContent)
    (hnd : lastContent.GetType ≠ CONTENT_COMMENT_DELETE)
    (hauthor : lastContent.GetString1 = some B) (hAB : A ≠ B)
    (hblocking : c.ValidateBlocking env B tx ≠ some (false, SocialConsensusResult_Blocking)) :
    c.ValidateModel env tx =
      if ConsensusRepository.ExistsScore env.ConsensusRepoInst A T ACTION_SCORE_COMMENT false
          = true then
        some (false, SocialConsensusResult_DoubleCommentScore)
      else some Success := by
  have hb : c.ValidateBlocking env B tx = some Success := by
    rcases ScoreCommentConsensus.ValidateBlocking_cases c env B tx A hA with h | h
    · exact h
    · exact absurd h hblocking
  unfold ScoreCommentConsensus.ValidateModel
  simp only [hT, Option.bind_eq_bind, Option.some_bind, hlast, hnd, if_false, hA, hauthor,
    hAB, hb]
  rfl

/-! ## Self-score rejection -/

/-- C2, as stated, fails: a comment-score of `"A"` on a comment authored by `"A"` is rejected
with `NotRegistered`, by mempool and by block validation, when `"A"` has no registration,
and with `NotFound` when the last confirmed version of the comment is a delete version. -/
theorem C2_counterexample :
    score_A_on_T.GetAddress = some "A"
    ∧ (ConsensusRepository.GetLastContent env_author_unregistered.ConsensusRepoInst "T").bind
        Transaction.GetString1 = some "A"
    ∧ ScoreCommentConsensus.Validate_tx ⟨ScoreCommentConsensus_base, 100⟩
        env_author_unregistered score_A_on_T = some (false, SocialConsensusResult_NotRegistered)
    ∧ ScoreCommentConsensus.Validate_tx_block ⟨ScoreCommentConsensus_base, 100⟩
        env_author_unregistered score_A_on_T [score_A_on_T] = some (false, SocialConsensusResult_NotRegistered)
    ∧ (ConsensusRepository.GetLastContent env_target_deleted.ConsensusRepoInst "T").bind
        Transaction.GetString1 = some "A"
    ∧ ScoreCommentConsensus.Validate_tx ⟨ScoreCommentConsensus_base, 100⟩
        env_target_deleted score_A_on_T = some (false, SocialConsensusResult_NotFound)
    ∧ ScoreCommentConsensus.Validate_tx_block ⟨ScoreCommentConsensus_base, 100⟩
        env_target_deleted score_A_on_T [score_A_on_T] = some (false, SocialConsensusResult_NotFound) := by
  decide

/-- C2 (amended). A comment-score transaction whose actor address equals the author address
of the target comment is rejected with `SelfCommentScore`, by mempool validation and by block
validation, under every rule set, whenever the registration gate lets it through (mempool:
the actor has a registration row; block: the actor has a confirmed registration or an
`ACCOUNT_USER` transaction of the block carries its address) and the target comment has a
confirmed last version that is not a delete version; blocking records, existing scores and
rate-limit counts play no part. -/
theorem C2_self_score_rejected (c : ScoreCommentConsensus) (env : Env) (tx : Transaction)
    (block : PocketBlock) (A T : String) (lastContent : Transaction)
    (hA : tx.GetAddress = some A) (hT : tx.GetCommentTxHash = some T)
    (hlast : ConsensusRepository.GetLastContent env.ConsensusRepoInst T = some lastContent)
    (hnd : lastContent.GetType ≠ CONTENT_COMMENT_DELETE)
    (hauthor : lastContent.GetString1 = some A) :
    (HasRegistration env.ConsensusRepoInst A true = true →
      c.Validate_tx env tx = some (false, SocialConsensusResult_SelfCommentScore))
    ∧ (blockUsersHaveAddress block = true →
        (A ∈ blockRegistrations block ∨ HasRegistration env.ConsensusRepoInst A false = true) →
        c.Validate_tx_block env tx block
          = some (false, SocialConsensusResult_SelfCommentScore)) := by
  have hmodel : c.toSocialBaseConsensus.ValidateModel env tx
      = some (false, SocialConsensusResult_SelfCommentScore) :=
    ScoreCommentConsensus.ValidateModel_of_self c env tx A T lastContent hA hT hlast hnd hauthor
  have haddr := ScoreCommentConsensus.GetAddressesForCheckRegistration_eq c tx A hA
  constructor
  · intro hreg
    unfold ScoreCommentConsensus.Validate_tx
    rw [SocialBaseConsensus.Validate_tx_of_single _ env tx A haddr hreg]
    unfold SocialBaseConsensus.Validate_tx_rest
    rw [hmodel]
    rfl
  · intro hwf hreg
    unfold ScoreCommentConsensus.Validate_tx_block
    rw [SocialBaseConsensus.Validate_tx_block_of_single _ env tx block A haddr hwf hreg]
    unfold SocialBaseConsensus.Validate_tx_block_rest
    rw [hmodel]
    rfl

/-- C2 (amended) at a store where `"A"` is registered and authored the standing comment
`"T"`, under the 430000 checkpoint. -/
theorem C2_self_score_rejected_witness :
    ScoreCommentConsensus.Validate_tx ⟨ScoreCommentConsensus_checkpoint_430000, 430000⟩
        env_self_comment score_A_on_T = some (false, SocialConsensusResult_SelfCommentScore)
    ∧ ScoreCommentConsensus.Validate_tx_block ⟨ScoreCommentConsensus_checkpoint_430000, 430000⟩
        env_self_comment score_A_on_T [score_A_on_T] = some (false, SocialConsensusResult_SelfCommentScore) :=
  ⟨(C2_self_score_rejected ⟨ScoreCommentConsensus_checkpoint_430000, 430000⟩ env_self_comment score_A_on_T
      [score_A_on_T] "A" "T"
      { m_type := 204, m_hash := "T", m_time := 900, m_string1 := some "A",
        m_string2 := some "T" }
      (by decide) (by decide) (by decide) (by decide) (by decide)).1 (by decide),
   (C2_self_score_rejected ⟨ScoreCommentConsensus_checkpoint_430000, 430000⟩ env_self_comment score_A_on_T
      [score_A_on_T] "A" "T"
      { m_type := 204, m_hash := "T", m_time := 900, m_string1 := some "A",
        m_string2 := some "T" }
      (by decide) (by decide) (by decide) (by decide) (by decide)).2 (by decide)
      (Or.inr (by decide))⟩

/-! ## Double-score rejection -/

/-- Function `ExistsScore` with the mempool included finds a score row of the actor on the target,
whatever its height. -/
theorem ExistsScore_mempool_of_mem (db : ConsensusRepository) (A T : String)
    (type : PocketTxType) (s : ViewRow) (hs : s ∈ db.vScores) (hsA : s.AddressHash = some A)
    (hsT : s.ContentTxHash = some T) (hsType : s.Type_ = some type) :
    ConsensusRepository.ExistsScore db A T type true = true := by
  unfold ConsensusRepository.ExistsScore
  rw [List.find?_isSome]
  refine ⟨s, hs, ?_⟩
  unfold ConsensusRepository.ExistsScore_where
  rw [hsA, hsT, hsType]
  simp

/-- Function `ValidateLimit(tx)` rejects with `DoubleCommentScore` as soon as a score of the actor on
the target is stored, before any count is taken. -/
theorem ScoreCommentConsensus.ValidateLimit_tx_of_exists (c : ScoreCommentConsensus)
    (env : Env) (tx : Transaction) (A T : String)
    (hA : tx.GetAddress = some A) (hT : tx.GetCommentTxHash = some T)
    (hex : ConsensusRepository.ExistsScore env.ConsensusRepoInst A T ACTION_SCORE_COMMENT true
      = true) :
    c.ValidateLimit_tx env tx = some (false, SocialConsensusResult_DoubleCommentScore) := by
  unfold ScoreCommentConsensus.ValidateLimit_tx
  simp only [hA, hT, Option.bind_eq_bind, Option.some_bind, hex, if_true]
  rfl

/-- Mempool validation of a comment-score whose actor already has a stored score on the
target, the earlier gates passing. -/
theorem ScoreCommentConsensus.Validate_tx_of_exists (c : ScoreCommentConsensus) (env : Env)
    (tx : Transaction) (A B T : String) (lastContent : Transaction)
    (hA : tx.GetAddress = some A) (hT : tx.GetCommentTxHash = some T)
    (hreg : HasRegistration env.ConsensusRepoInst A true = true)
    (hlast : ConsensusRepository.GetLastContent env.ConsensusRepoInst T = some lastContent)
    (hnd : lastContent.GetType ≠ CONTENT_COMMENT_DELETE)
    (hauthor : lastContent.GetString1 = some B) (hAB : A ≠ B)
    (hblocking : c.ValidateBlocking env B tx ≠ some (false, SocialConsensusResult_Blocking))
    (hex : ConsensusRepository.ExistsScore env.ConsensusRepoInst A T ACTION_SCORE_COMMENT true
      = true) :
    c.Validate_tx env tx = some (false, SocialConsensusResult_DoubleCommentScore) := by
  have haddr := ScoreCommentConsensus.GetAddressesForCheckRegistration_eq c tx A hA
  have hmodel : c.toSocialBaseConsensus.ValidateModel env tx = _ :=
    ScoreCommentConsensus.ValidateModel_of_other c env tx A B T lastContent hA hT hlast hnd
      hauthor hAB hblocking
  have hlimit : c.toSocialBaseConsensus.ValidateLimit_tx env tx = _ :=
    ScoreCommentConsensus.ValidateLimit_tx_of_exists c env tx A T hA hT hex
  unfold ScoreCommentConsensus.Validate_tx
  rw [SocialBaseConsensus.Validate_tx_of_single _ env tx A haddr hreg]
  unfold SocialBaseConsensus.Validate_tx_rest
  rw [hmodel, hlimit]
  by_cases hc : ConsensusRepository.ExistsScore env.ConsensusRepoInst A T ACTION_SCORE_COMMENT
      false = true
  · rw [if_pos hc]
    rfl
  · rw [if_neg hc]
    rfl

/-- C3. In mempool validation of a comment-score by actor `A` on target `T`, when the store
holds a comment-score row of `A` on `T` (confirmed or not) and the earlier gates pass (`A` has
a registration row, `T` has a confirmed last version that is not a delete and is authored by
another address, and no blocking rejection applies), the result is `DoubleCommentScore`
whatever the rows of `vScoreComments` the rate-limit counts are taken from and whatever the
account mode of `A`. -/
theorem C3_double_score_precedes_limit (c : ScoreCommentConsensus) (env : Env)
    (tx : Transaction) (A B T : String) (lastContent : Transaction) (s : ViewRow)
    (hA : tx.GetAddress = some A) (hT : tx.GetCommentTxHash = some T)
    (hreg : HasRegistration env.ConsensusRepoInst A true = true)
    (hlast : ConsensusRepository.GetLastContent env.ConsensusRepoInst T = some lastContent)
    (hnd : lastContent.GetType ≠ CONTENT_COMMENT_DELETE)
    (hauthor : lastContent.GetString1 = some B) (hAB : A ≠ B)
    (hblocking : c.ValidateBlocking env B tx ≠ some (false, SocialConsensusResult_Blocking))
    (hs : s ∈ env.ConsensusRepoInst.vScores) (hsA : s.AddressHash = some A)
    (hsT : s.ContentTxHash = some T) (hsType : s.Type_ = some ACTION_SCORE_COMMENT)
    (scoreComments : List ViewRow) (mode : Int → String → AccountMode) :
    c.Validate_tx (env.withRateLimitInputs scoreComments mode) tx
      = some (false, SocialConsensusResult_DoubleCommentScore) := by
  apply ScoreCommentConsensus.Validate_tx_of_exists c _ tx A B T lastContent hA hT
  · exact hreg
  · exact hlast
  · exact hnd
  · exact hauthor
  · exact hAB
  · exact hblocking
  · exact ExistsScore_mempool_of_mem _ A T ACTION_SCORE_COMMENT s hs hsA hsT hsType

/-- C3 at a store where the earlier score of `"A"` on `"T"` is still in the mempool, with no
comment-score counted for `"A"` and a Full account. -/
theorem C3_double_score_precedes_limit_witness :
    ScoreCommentConsensus.Validate_tx ⟨ScoreCommentConsensus_checkpoint_1180000, 1200000⟩
        (env_score_in_mempool.withRateLimitInputs [] (fun _ _ => AccountMode_Full)) score_A_on_T
      = some (false, SocialConsensusResult_DoubleCommentScore) :=
  C3_double_score_precedes_limit ⟨ScoreCommentConsensus_checkpoint_1180000, 1200000⟩ env_score_in_mempool
    score_A_on_T "A" "B" "T"
    { m_type := 204, m_hash := "T", m_time := 900, m_string1 := some "B",
      m_string2 := some "T" }
    { Type_ := some 301, Hash := some "s0", Time := some 990,
      AddressHash := some "A", ContentTxHash := some "T" }
    (by decide) (by decide) (by decide) (by decide) (by decide) (by decide) (by decide)
    (by decide) (by decide) (by decide) (by decide) (by decide) [] (fun _ _ => AccountMode_Full)

/-! ## Deleted and missing targets -/

/-- The steps after the registration gate reject with `NotFound`, in mempool and in block
validation, as soon as `ValidateModel` does. -/
theorem ScoreCommentConsensus.rest_of_model_NotFound (c : ScoreCommentConsensus) (env : Env)
    (tx : Transaction) (block : PocketBlock)
    (hmodel : c.ValidateModel env tx = some (false, SocialConsensusResult_NotFound)) :
    c.toSocialBaseConsensus.Validate_tx_rest env tx
        = some (false, SocialConsensusResult_NotFound)
    ∧ c.toSocialBaseConsensus.Validate_tx_block_rest env tx block
        = some (false, SocialConsensusResult_NotFound) := by
  have hmodel2 : c.toSocialBaseConsensus.ValidateModel env tx
      = some (false, SocialConsensusResult_NotFound) := hmodel
  constructor
  · unfold SocialBaseConsensus.Validate_tx_rest
    rw [hmodel2]
    rfl
  · unfold SocialBaseConsensus.Validate_tx_block_rest
    rw [hmodel2]
    rfl

/-- A comment-score whose `ValidateModel` answers `NotFound` is rejected by mempool and by
block validation, at the registration gate or else with `NotFound`. -/
theorem ScoreCommentConsensus.Validate_of_model_NotFound (c : ScoreCommentConsensus)
    (env : Env) (tx : Transaction) (block : PocketBlock) (A : String)
    (hA : tx.GetAddress = some A)
    (hwf : blockUsersHaveAddress block = true)
    (hmodel : c.ValidateModel env tx = some (false, SocialConsensusResult_NotFound)) :
    (c.Validate_tx env tx = some (false, SocialConsensusResult_NotRegistered)
      ∨ c.Validate_tx env tx = some (false, SocialConsensusResult_NotFound))
    ∧ (c.Validate_tx_block env tx block = some (false, SocialConsensusResult_NotRegistered)
      ∨ c.Validate_tx_block env tx block = some (false, SocialConsensusResult_NotFound)) := by
  have hrest := ScoreCommentConsensus.rest_of_model_NotFound c env tx block hmodel
  have haddr := ScoreCommentConsensus.GetAddressesForCheckRegistration_eq c tx A hA
  constructor
  · unfold ScoreCommentConsensus.Validate_tx
    rw [SocialBaseConsensus.Validate_tx_eq _ env tx [A] haddr]
    by_cases hc : ((!List.isEmpty [A])
        && !ConsensusRepository.ExistsUserRegistrations env.ConsensusRepoInst [A] true) = true
    · rw [if_pos hc]
      exact Or.inl rfl
    · rw [if_neg hc]
      exact Or.inr hrest.1
  · unfold ScoreCommentConsensus.Validate_tx_block
    have hne : ¬ (List.isEmpty [A] = true) := by simp
    rw [SocialBaseConsensus.Validate_tx_block_eq _ env tx block [A] haddr hwf, if_neg hne]
    by_cases hc : ((!(notExempt block [A]).isEmpty)
        && !ConsensusRepository.ExistsUserRegistrations env.ConsensusRepoInst
              (notExempt block [A]) false) = true
    · rw [if_pos hc]
      exact Or.inl rfl
    · rw [if_neg hc]
      exact Or.inr hrest.2

/-- C9. A comment-score transaction whose target comment has a delete version
(`CONTENT_COMMENT_DELETE`) as its last confirmed version, or has no confirmed last version at
all, is rejected by mempool validation and by block validation, with `NotRegistered` at the
registration gate or else with `NotFound`, under every rule set, whatever the rows of
`vScoreComments` the rate-limit counts are taken from and whatever the account mode. -/
theorem C9_deleted_or_missing_target_rejected (c : ScoreCommentConsensus) (env : Env)
    (tx : Transaction) (block : PocketBlock) (A T : String)
    (hA : tx.GetAddress = some A) (hT : tx.GetCommentTxHash = some T)
    (htarget : ConsensusRepository.GetLastContent env.ConsensusRepoInst T = none
      ∨ ∃ lastContent,
          ConsensusRepository.GetLastContent env.ConsensusRepoInst T = some lastContent
          ∧ lastContent.GetType = CONTENT_COMMENT_DELETE)
    (hwf : blockUsersHaveAddress block = true)
    (scoreComments : List ViewRow) (mode : Int → String → AccountMode) :
    (c.Validate_tx (env.withRateLimitInputs scoreComments mode) tx
        = some (false, SocialConsensusResult_NotRegistered)
      ∨ c.Validate_tx (env.withRateLimitInputs scoreComments mode) tx
        = some (false, SocialConsensusResult_NotFound))
    ∧ (c.Validate_tx_block (env.withRateLimitInputs scoreComments mode) tx block
        = some (false, SocialConsensusResult_NotRegistered)
      ∨ c.Validate_tx_block (env.withRateLimitInputs scoreComments mode) tx block
        = some (false, SocialConsensusResult_NotFound)) := by
  apply ScoreCommentConsensus.Validate_of_model_NotFound c _ tx block A hA hwf
  rcases htarget with hnone | ⟨lastContent, hlast, hdel⟩
  · exact ScoreCommentConsensus.ValidateModel_of_none c _ tx T hT hnone
  · exact ScoreCommentConsensus.ValidateModel_of_delete c _ tx T lastContent hT hlast hdel

/-- C9 at the store where the last confirmed version of `"T"` is a delete version and the
actor `"A"` is registered: both validations answer `NotFound`. -/
theorem C9_deleted_or_missing_target_rejected_witness :
    (ScoreCommentConsensus.Validate_tx ⟨ScoreCommentConsensus_checkpoint_514184, 600000⟩
          (env_target_deleted.withRateLimitInputs [] (fun _ _ => AccountMode_Full)) score_A_on_T
        = some (false, SocialConsensusResult_NotRegistered)
      ∨ ScoreCommentConsensus.Validate_tx ⟨ScoreCommentConsensus_checkpoint_514184, 600000⟩
          (env_target_deleted.withRateLimitInputs [] (fun _ _ => AccountMode_Full)) score_A_on_T
        = some (false, SocialConsensusResult_NotFound))
    ∧ (ScoreCommentConsensus.Validate_tx_block ⟨ScoreCommentConsensus_checkpoint_514184, 600000⟩
          (env_target_deleted.withRateLimitInputs [] (fun _ _ => AccountMode_Full)) score_A_on_T
          [score_A_on_T]
        = some (false, SocialConsensusResult_NotRegistered)
      ∨ ScoreCommentConsensus.Validate_tx_block ⟨ScoreCommentConsensus_checkpoint_514184, 600000⟩
          (env_target_deleted.withRateLimitInputs [] (fun _ _ => AccountMode_Full)) score_A_on_T
          [score_A_on_T]
        = some (false, SocialConsensusResult_NotFound)) :=
  C9_deleted_or_missing_target_rejected ⟨ScoreCommentConsensus_checkpoint_514184, 600000⟩
    env_target_deleted score_A_on_T [score_A_on_T] "A" "T" (by decide) (by decide)
    (Or.inr ⟨{ m_type := 206, m_hash := "T2", m_time := 950, m_string1 := some "A",
               m_string2 := some "T" }, by decide, by decide⟩)
    (by decide) [] (fun _ _ => AccountMode_Full)

/-! ## `CheckModel` -/

theorem IsEmpty_string_eq_false (ptr : Option String) :
    IsEmpty_string ptr = false ↔ ∃ a, ptr = some a ∧ a ≠ "" := by
  cases ptr with
  | none => simp [IsEmpty_string]
  | some a =>
    simp only [IsEmpty_string, Option.some.injEq, exists_eq_left', ne_eq]
    rw [← String.isEmpty_iff]
    simp

theorem IsEmpty_int64_eq_false (ptr : Option Int) :
    IsEmpty_int64 ptr = false ↔ ∃ v, ptr = some v := by
  cases ptr <;> simp [IsEmpty_int64]

/-- C10. `CheckModel` of a comment-score transaction succeeds exactly when the actor address
is present and non-empty, the target comment hash is present and non-empty, the value is
present, and the value is 1 or -1; in every other case it fails (with `Failed`). -/
theorem C10_CheckModel_iff (c : ScoreCommentConsensus) (tx : Transaction) :
    (c.CheckModel tx = Success ↔
      (∃ a, tx.GetAddress = some a ∧ a ≠ "")
      ∧ (∃ t, tx.GetCommentTxHash = some t ∧ t ≠ "")
      ∧ (∃ v, tx.GetValue = some v ∧ (v = 1 ∨ v = -1)))
    ∧ (c.CheckModel tx = Success
        ∨ c.CheckModel tx = (false, SocialConsensusResult_Failed)) := by
  unfold ScoreCommentConsensus.CheckModel
  rw [← IsEmpty_string_eq_false, ← IsEmpty_string_eq_false]
  cases h1 : IsEmpty_string tx.GetAddress
  case true => simp [Success]
  cases h2 : IsEmpty_string tx.GetCommentTxHash
  case true => simp [Success]
  cases hv : tx.GetValue with
  | none => simp [IsEmpty_int64, Success]
  | some v =>
    by_cases hc : v ≠ 1 ∧ v ≠ -1
    · have h3 : ¬ (v = 1 ∨ v = -1) := by tauto
      simp [IsEmpty_int64, Success, hc, h3]
    · have h3 : v = 1 ∨ v = -1 := by
        by_contra h
        exact hc ⟨fun h1 => h (Or.inl h1), fun h2 => h (Or.inr h2)⟩
      simp [IsEmpty_int64, Success, hc, h3]

/-! ## The rate limit of mempool validation -/

theorem filter_length_add_le {α : Type} (l : List α) (p q : α → Bool)
    (h : ∀ x, p x = true → q x = false) :
    (l.filter p).length + (l.filter q).length ≤ l.length := by
  induction l with
  | nil => simp
  | cons a l ih =>
    cases hp : p a
    · cases hq : q a
      · rw [List.filter_cons_of_neg (by simp [hp]), List.filter_cons_of_neg (by simp [hq])]
        simp only [List.length_cons]
        omega
      · rw [List.filter_cons_of_neg (by simp [hp]), List.filter_cons_of_pos hq]
        simp only [List.length_cons]
        omega
    · have hq : q a = false := h a hp
      rw [List.filter_cons_of_pos hp, List.filter_cons_of_neg (by simp [hq])]
      simp only [List.length_cons]
      omega

/-- Function `GetCount` is the number of rows when that number fits an `int`. -/
theorem GetCount_eq (rows : List ViewRow) (h : rows.length < 2147483648) :
    ConsensusRepository.GetCount rows = rows.length := by
  unfold ConsensusRepository.GetCount TryGetColumnInt sqlite3_column_int
  exact toInt32_of_range _ (by omega) (by omega)

/-- Function `GetChainCount` is the number of confirmed rows in the window. -/
theorem ScoreCommentConsensus.GetChainCount_eq (c : ScoreCommentConsensus) (env : Env)
    (tx : Transaction) (A : String) (hA : tx.GetAddress = some A)
    (hrows : env.ConsensusRepoInst.vScoreComments.length < 2147483648) :
    c.GetChainCount env tx = some ((chainWindowRows c env.ConsensusRepoInst tx A).length : Int)
    := by
  unfold ScoreCommentConsensus.GetChainCount chainWindowRows
    ConsensusRepository.CountChainScoreCommentHeight
    ConsensusRepository.CountChainScoreCommentTime ScoreCommentConsensus.GetLimitWindow
  cases hc : c.cls <;>
    simp only [hA, Option.bind_eq_bind, Option.some_bind, Option.pure_def, Option.some.injEq]
      <;>
    exact GetCount_eq _ (lt_of_le_of_lt (List.length_filter_le _ _) hrows)

/-- The confirmed rows in the window and the mempool rows are different rows. -/
theorem chainWindowRows_add_mempoolRows_le (c : ScoreCommentConsensus)
    (db : ConsensusRepository) (tx : Transaction) (A : String) :
    (chainWindowRows c db tx A).length + (mempoolRows db A).length
      ≤ db.vScoreComments.length := by
  unfold chainWindowRows mempoolRows
  cases c.cls <;>
    · apply filter_length_add_le
      intro x hx
      unfold ConsensusRepository.CountMempoolScoreComment_where
      simp only [ConsensusRepository.CountChainScoreCommentTime_where,
        ConsensusRepository.CountChainScoreCommentHeight_where] at hx
      cases hh : x.Height <;> simp [hh] at hx ⊢

/-- Function `ValidateLimit(tx)` once no stored score of the actor on the target is found: the
confirmed rows in the window and the mempool rows are counted and compared with the limit
of the account mode. -/
theorem ScoreCommentConsensus.ValidateLimit_tx_eq (c : ScoreCommentConsensus) (env : Env)
    (tx : Transaction) (A T : String)
    (hA : tx.GetAddress = some A) (hT : tx.GetCommentTxHash = some T)
    (hno : ConsensusRepository.ExistsScore env.ConsensusRepoInst A T ACTION_SCORE_COMMENT true
      = false)
    (hrows : env.ConsensusRepoInst.vScoreComments.length < 2147483648) :
    c.ValidateLimit_tx env tx =
      if (((chainWindowRows c env.ConsensusRepoInst tx A).length
            + (mempoolRows env.ConsensusRepoInst A).length : Nat) : Int)
          ≥ c.GetScoresLimit (env.GetAccountMode c.Height A) then
        some (false, SocialConsensusResult_CommentScoreLimit)
      else some Success := by
  have hle := chainWindowRows_add_mempoolRows_le c env.ConsensusRepoInst tx A
  have hm : ConsensusRepository.CountMempoolScoreComment env.ConsensusRepoInst A
      = ((mempoolRows env.ConsensusRepoInst A).length : Int) := by
    unfold ConsensusRepository.CountMempoolScoreComment
    exact GetCount_eq _ (lt_of_le_of_lt (List.length_filter_le _ _) hrows)
  unfold ScoreCommentConsensus.ValidateLimit_tx
  simp only [hA, hT, Option.bind_eq_bind, Option.some_bind, hno, Bool.false_eq_true, if_false,
    ScoreCommentConsensus.GetChainCount_eq c env tx A hA hrows, hm]
  rw [toInt32_of_range _ (by omega) (by omega)]
  unfold ScoreCommentConsensus.ValidateLimit_tx_count
  simp only [hA, Option.bind_eq_bind, Option.some_bind, Nat.cast_add]
  rfl

/-- A score the mempool-inclusive query does not find is not found among the confirmed rows
either. -/
theorem ExistsScore_confirmed_of_mempool (db : ConsensusRepository) (A T : String)
    (type : PocketTxType)
    (hno : ConsensusRepository.ExistsScore db A T type true = false) :
    ConsensusRepository.ExistsScore db A T type false = false := by
  cases hc : ConsensusRepository.ExistsScore db A T type false with
  | false => rfl
  | true =>
    unfold ConsensusRepository.ExistsScore at hc
    rw [List.find?_isSome] at hc
    obtain ⟨x, hx, hp⟩ := hc
    have htrue : ConsensusRepository.ExistsScore db A T type true = true := by
      unfold ConsensusRepository.ExistsScore
      rw [List.find?_isSome]
      refine ⟨x, hx, ?_⟩
      unfold ConsensusRepository.ExistsScore_where at hp ⊢
      rw [Bool.and_eq_true] at hp ⊢
      exact ⟨hp.1, rfl⟩
    rw [hno] at htrue
    exact absurd htrue (by decide)

/-- Mempool validation of a comment-score that passes the registration gate and the model step
is decided by the rate-limit step. -/
theorem ScoreCommentConsensus.Validate_tx_eq_ValidateLimit_tx (c : ScoreCommentConsensus)
    (env : Env) (tx : Transaction) (A B T : String) (lastContent : Transaction)
    (hA : tx.GetAddress = some A) (hT : tx.GetCommentTxHash = some T)
    (hreg : HasRegistration env.ConsensusRepoInst A true = true)
    (hlast : ConsensusRepository.GetLastContent env.ConsensusRepoInst T = some lastContent)
    (hnd : lastContent.GetType ≠ CONTENT_COMMENT_DELETE)
    (hauthor : lastContent.GetString1 = some B) (hAB : A ≠ B)
    (hblocking : c.ValidateBlocking env B tx ≠ some (false, SocialConsensusResult_Blocking))
    (hno : ConsensusRepository.ExistsScore env.ConsensusRepoInst A T ACTION_SCORE_COMMENT true
      = false)
    (hrows : env.ConsensusRepoInst.vScoreComments.length < 2147483648) :
    c.Validate_tx env tx = c.ValidateLimit_tx env tx := by
  have haddr := ScoreCommentConsensus.GetAddressesForCheckRegistration_eq c tx A hA
  have hmodel : c.toSocialBaseConsensus.ValidateModel env tx = _ :=
    ScoreCommentConsensus.ValidateModel_of_other c env tx A B T lastContent hA hT hlast hnd
      hauthor hAB hblocking
  have hno2 := ExistsScore_confirmed_of_mempool env.ConsensusRepoInst A T ACTION_SCORE_COMMENT
    hno
  have hlimit := ScoreCommentConsensus.ValidateLimit_tx_eq c env tx A T hA hT hno hrows
  have hlimit2 : c.toSocialBaseConsensus.ValidateLimit_tx env tx = c.ValidateLimit_tx env tx :=
    rfl
  unfold ScoreCommentConsensus.Validate_tx
  rw [SocialBaseConsensus.Validate_tx_of_single _ env tx A haddr hreg]
  unfold SocialBaseConsensus.Validate_tx_rest
  rw [hmodel, hno2, hlimit2, hlimit]
  by_cases hc : (((chainWindowRows c env.ConsensusRepoInst tx A).length
      + (mempoolRows env.ConsensusRepoInst A).length : Nat) : Int)
        ≥ c.GetScoresLimit (env.GetAccountMode c.Height A)
  · rw [if_pos hc]
    rfl
  · rw [if_neg hc]
    rfl

/-- The `WHERE` clause of `CountMempoolScoreComment` selects the actor's rows with no
height. -/
theorem CountMempoolScoreComment_where_iff (A : String) (r : ViewRow) :
    ConsensusRepository.CountMempoolScoreComment_where A r = true ↔ mempoolScoreOf A r := by
  unfold ConsensusRepository.CountMempoolScoreComment_where mempoolScoreOf
  cases hh : r.Height <;> simp

/-- The `WHERE` clause of `CountChainScoreCommentTime` selects the actor's confirmed last
versions from the given time on. -/
theorem CountChainScoreCommentTime_where_iff (A : String) (time : Int) (r : ViewRow) :
    ConsensusRepository.CountChainScoreCommentTime_where A time r = true
      ↔ confirmedLastScoreOf A r ∧ ∃ t, r.Time = some t ∧ time ≤ t := by
  unfold ConsensusRepository.CountChainScoreCommentTime_where confirmedLastScoreOf
  cases hh : r.Height <;> cases ht : r.Time <;> simp
  tauto

/-- The `WHERE` clause of `CountChainScoreCommentHeight` selects the actor's confirmed last
versions from the given height on. -/
theorem CountChainScoreCommentHeight_where_iff (A : String) (height : Int) (r : ViewRow) :
    ConsensusRepository.CountChainScoreCommentHeight_where A height r = true
      ↔ confirmedLastScoreOf A r ∧ ∃ k, r.Height = some k ∧ height ≤ k := by
  unfold ConsensusRepository.CountChainScoreCommentHeight_where confirmedLastScoreOf
  cases hh : r.Height <;> simp
  tauto

/-- A selection by a clause is the selection by the condition the clause expresses. -/
theorem filter_eq_filter_decide {α : Type} (p : α → Bool) (P : α → Prop) [DecidablePred P]
    (hp : ∀ a, p a = true ↔ P a) (l : List α) :
    l.filter p = l.filter (fun a => decide (P a)) := by
  apply List.filter_congr
  intro a _
  rw [Bool.eq_iff_iff, decide_eq_true_eq]
  exact hp a

/-- The mempool rows of the limit step are the actor's rows of `vScoreComments` with no
height. -/
theorem mempoolRows_eq (db : ConsensusRepository) (A : String) :
    mempoolRows db A = db.vScoreComments.filter (fun r => decide (mempoolScoreOf A r)) :=
  filter_eq_filter_decide _ _ (CountMempoolScoreComment_where_iff A) _

/-- The chain rows of the limit step are the actor's confirmed last-version rows of
`vScoreComments` in the window of the rule set. -/
theorem chainWindowRows_eq (c : ScoreCommentConsensus) (db : ConsensusRepository)
    (tx : Transaction) (A : String) :
    chainWindowRows c db tx A
      = db.vScoreComments.filter
          (fun r => decide (confirmedLastScoreOf A r ∧ inScoreWindow c tx r)) := by
  unfold chainWindowRows
  cases hcls : c.cls <;>
    simp only [inScoreWindow, hcls, reduceCtorEq, if_false, if_true]
  · exact filter_eq_filter_decide _ _ (CountChainScoreCommentTime_where_iff A _) _
  · exact filter_eq_filter_decide _ _ (CountChainScoreCommentTime_where_iff A _) _
  · exact filter_eq_filter_decide _ _ (CountChainScoreCommentTime_where_iff A _) _
  · exact filter_eq_filter_decide _ _ (CountChainScoreCommentTime_where_iff A _) _
  · exact filter_eq_filter_decide _ _ (CountChainScoreCommentHeight_where_iff A _) _

/-- C8. In mempool validation of a comment-score, the rate-limit step `ValidateLimit(tx)`,
once no stored score of the actor on the target is found, rejects with `CommentScoreLimit`
exactly when the number of the actor's confirmed rows in the window plus the number of its
mempool rows is `≥` the limit of the account mode, 300 for a Trial and 600 for a Full account,
and succeeds otherwise; so a Trial actor with 300 confirmed scores in the window and none in
the mempool is rejected, and with 299 it is accepted. The confirmed rows in the window are the
rows of `vScoreComments` with the actor's address, a height and `Last = 1` whose time is at
least `tx.Time - 86400` (whose height is at least `Height - 1440` from checkpoint 1180000);
the mempool rows are the rows of `vScoreComments` with the actor's address and no height;
both are counted with their multiplicity, and the limit step is stated once more over these
two counts. (The store is taken to hold fewer than `2^31` comment-score rows, so that the
counts fit an `int`.) -/
theorem C8_mempool_rate_limit (c : ScoreCommentConsensus) (env : Env) (tx : Transaction)
    (A T : String) (hA : tx.GetAddress = some A) (hT : tx.GetCommentTxHash = some T)
    (hno : ConsensusRepository.ExistsScore env.ConsensusRepoInst A T ACTION_SCORE_COMMENT true
      = false)
    (hrows : env.ConsensusRepoInst.vScoreComments.length < 2147483648) :
    c.GetScoresLimit AccountMode_Trial = 300
    ∧ c.GetScoresLimit AccountMode_Full = 600
    ∧ (c.ValidateLimit_tx env tx = some (false, SocialConsensusResult_CommentScoreLimit) ↔
        (((chainWindowRows c env.ConsensusRepoInst tx A).length
            + (mempoolRows env.ConsensusRepoInst A).length : Nat) : Int)
          ≥ c.GetScoresLimit (env.GetAccountMode c.Height A))
    ∧ (c.ValidateLimit_tx env tx = some Success ↔
        (((chainWindowRows c env.ConsensusRepoInst tx A).length
            + (mempoolRows env.ConsensusRepoInst A).length : Nat) : Int)
          < c.GetScoresLimit (env.GetAccountMode c.Height A))
    ∧ (env.GetAccountMode c.Height A = AccountMode_Trial →
        (mempoolRows env.ConsensusRepoInst A).length = 0 →
        ((chainWindowRows c env.ConsensusRepoInst tx A).length = 300 →
          c.ValidateLimit_tx env tx = some (false, SocialConsensusResult_CommentScoreLimit))
        ∧ ((chainWindowRows c env.ConsensusRepoInst tx A).length = 299 →
          c.ValidateLimit_tx env tx = some Success))
    ∧ mempoolRows env.ConsensusRepoInst A
        = env.ConsensusRepoInst.vScoreComments.filter
            (fun r => decide (r.Height = none ∧ r.AddressHash = some A))
    ∧ chainWindowRows c env.ConsensusRepoInst tx A
        = env.ConsensusRepoInst.vScoreComments.filter
            (fun r => decide ((r.Height ≠ none ∧ r.AddressHash = some A ∧ r.Last = some 1)
              ∧ if c.cls = ScoreCommentConsensus_checkpoint_1180000 then
                  ∃ k, r.Height = some k ∧ c.Height - 1440 ≤ k
                else ∃ t, r.Time = some t ∧ tx.GetTime - 86400 ≤ t))
    ∧ (c.ValidateLimit_tx env tx = some (false, SocialConsensusResult_CommentScoreLimit) ↔
        (((env.ConsensusRepoInst.vScoreComments.filter
              (fun r => decide (confirmedLastScoreOf A r ∧ inScoreWindow c tx r))).length
            + (env.ConsensusRepoInst.vScoreComments.filter
              (fun r => decide (mempoolScoreOf A r))).length : Nat) : Int)
          ≥ (if env.GetAccountMode c.Height A = AccountMode_Full then 600 else 300)) := by
  have heq := ScoreCommentConsensus.ValidateLimit_tx_eq c env tx A T hA hT hno hrows
  have hne : (some (false, SocialConsensusResult_CommentScoreLimit) : Option ConsensusResult)
      ≠ some Success := by decide
  have hiff : c.ValidateLimit_tx env tx = some (false, SocialConsensusResult_CommentScoreLimit)
      ↔ (((chainWindowRows c env.ConsensusRepoInst tx A).length
            + (mempoolRows env.ConsensusRepoInst A).length : Nat) : Int)
          ≥ c.GetScoresLimit (env.GetAccountMode c.Height A) := by
    rw [heq]
    constructor
    · intro h
      by_contra hc
      rw [if_neg hc] at h
      exact hne h.symm
    · intro h
      rw [if_pos h]
  refine ⟨rfl, rfl, hiff, ?_, ?_, mempoolRows_eq _ _, chainWindowRows_eq _ _ _ _, ?_⟩
  · rw [heq]
    constructor
    · intro h
      by_contra hc
      rw [if_pos (not_lt.mp hc)] at h
      exact hne h
    · intro h
      rw [if_neg (not_le.mpr h)]
  · intro hmode hmem
    rw [heq, hmode, hmem]
    constructor
    · intro h
      rw [h]
      rfl
    · intro h
      rw [h]
      rfl
  · rw [hiff, mempoolRows_eq, chainWindowRows_eq]
    cases hmode : env.GetAccountMode c.Height A <;> simp <;> rfl

/-- C8 for the Trial actor `"A"`: with no mempool score the limit step, and with it the whole
mempool validation, rejects with 300 confirmed scores in the window and accepts with 299;
with one score in the mempool the limit step rejects with 299 confirmed scores in the window
and accepts with 298. -/
theorem C8_mempool_rate_limit_witness :
    ScoreCommentConsensus.ValidateLimit_tx ⟨ScoreCommentConsensus_base, 100⟩
        (env_confirmed_scores 300) score_A_on_T
      = some (false, SocialConsensusResult_CommentScoreLimit)
    ∧ ScoreCommentConsensus.ValidateLimit_tx ⟨ScoreCommentConsensus_base, 100⟩
        (env_confirmed_scores 299) score_A_on_T
      = some Success
    ∧ ScoreCommentConsensus.Validate_tx ⟨ScoreCommentConsensus_base, 100⟩
        (env_confirmed_scores 300) score_A_on_T
      = some (false, SocialConsensusResult_CommentScoreLimit)
    ∧ ScoreCommentConsensus.Validate_tx ⟨ScoreCommentConsensus_base, 100⟩
        (env_confirmed_scores 299) score_A_on_T
      = some Success
    ∧ ScoreCommentConsensus.ValidateLimit_tx ⟨ScoreCommentConsensus_base, 100⟩
        (env_confirmed_and_mempool_scores 299 1) score_A_on_T
      = some (false, SocialConsensusResult_CommentScoreLimit)
    ∧ ScoreCommentConsensus.ValidateLimit_tx ⟨ScoreCommentConsensus_base, 100⟩
        (env_confirmed_and_mempool_scores 298 1) score_A_on_T
      = some Success := by
  have hpos : ConsensusRepository.CountChainScoreCommentTime_where "A"
      (score_A_on_T.GetTime - 86400) confirmed_score_row = true := by decide
  have hneg : ¬ ConsensusRepository.CountMempoolScoreComment_where "A" confirmed_score_row
      = true := by decide
  have hpos2 : ConsensusRepository.CountMempoolScoreComment_where "A" mempool_score_row
      = true := by decide
  have hneg2 : ¬ ConsensusRepository.CountChainScoreCommentTime_where "A"
      (score_A_on_T.GetTime - 86400) mempool_score_row = true := by decide
  have hchain : ∀ n, (chainWindowRows ⟨ScoreCommentConsensus_base, 100⟩
      (env_confirmed_scores n).ConsensusRepoInst score_A_on_T "A").length = n := by
    intro n
    show ((List.replicate n confirmed_score_row).filter _).length = n
    rw [List.filter_replicate_of_pos hpos, List.length_replicate]
  have hmem : ∀ n, (mempoolRows (env_confirmed_scores n).ConsensusRepoInst "A").length = 0 := by
    intro n
    show ((List.replicate n confirmed_score_row).filter _).length = 0
    rw [List.filter_replicate_of_neg hneg]
    rfl
  have hchain2 : ∀ n m, (chainWindowRows ⟨ScoreCommentConsensus_base, 100⟩
      (env_confirmed_and_mempool_scores n m).ConsensusRepoInst score_A_on_T "A").length
        = n := by
    intro n m
    show ((List.replicate n confirmed_score_row ++ List.replicate m mempool_score_row).filter
      _).length = n
    rw [List.filter_append, List.filter_replicate_of_pos hpos,
      List.filter_replicate_of_neg hneg2, List.append_nil, List.length_replicate]
  have hmem2 : ∀ n m, (mempoolRows
      (env_confirmed_and_mempool_scores n m).ConsensusRepoInst "A").length = m := by
    intro n m
    show ((List.replicate n confirmed_score_row ++ List.replicate m mempool_score_row).filter
      _).length = m
    rw [List.filter_append, List.filter_replicate_of_neg hneg,
      List.filter_replicate_of_pos hpos2, List.nil_append, List.length_replicate]
  have hrows : ∀ n, n < 2147483648 →
      (env_confirmed_scores n).ConsensusRepoInst.vScoreComments.length < 2147483648 := by
    intro n hn
    show (List.replicate n confirmed_score_row).length < 2147483648
    rw [List.length_replicate]
    exact hn
  have hrows2 : ∀ n m, n + m < 2147483648 →
      (env_confirmed_and_mempool_scores n m).ConsensusRepoInst.vScoreComments.length
        < 2147483648 := by
    intro n m hn
    show (List.replicate n confirmed_score_row ++ List.replicate m mempool_score_row).length
      < 2147483648
    rw [List.length_append, List.length_replicate, List.length_replicate]
    exact hn
  have hstep300 := ((C8_mempool_rate_limit ⟨ScoreCommentConsensus_base, 100⟩
      (env_confirmed_scores 300) score_A_on_T "A" "T" (by decide) (by decide) (by decide)
      (hrows 300 (by decide))).2.2.2.2.1 rfl (hmem 300)).1 (hchain 300)
  have hstep299 := ((C8_mempool_rate_limit ⟨ScoreCommentConsensus_base, 100⟩
      (env_confirmed_scores 299) score_A_on_T "A" "T" (by decide) (by decide) (by decide)
      (hrows 299 (by decide))).2.2.2.2.1 rfl (hmem 299)).2 (hchain 299)
  have hmix299 := (C8_mempool_rate_limit ⟨ScoreCommentConsensus_base, 100⟩
      (env_confirmed_and_mempool_scores 299 1) score_A_on_T "A" "T" (by decide) (by decide)
      (by decide) (hrows2 299 1 (by decide))).2.2.1.mpr
      (by rw [hchain2, hmem2]; decide)
  have hmix298 := (C8_mempool_rate_limit ⟨ScoreCommentConsensus_base, 100⟩
      (env_confirmed_and_mempool_scores 298 1) score_A_on_T "A" "T" (by decide) (by decide)
      (by decide) (hrows2 298 1 (by decide))).2.2.2.1.mpr
      (by rw [hchain2, hmem2]; decide)
  have hall300 := ScoreCommentConsensus.Validate_tx_eq_ValidateLimit_tx
    ⟨ScoreCommentConsensus_base, 100⟩ (env_confirmed_scores 300) score_A_on_T "A" "B" "T"
    { m_type := 204, m_hash := "T", m_time := 900, m_string1 := some "B",
      m_string2 := some "T" }
    (by decide) (by decide) (by decide) (by decide) (by decide) (by decide) (by decide)
    (by decide) (by decide) (hrows 300 (by decide))
  have hall299 := ScoreCommentConsensus.Validate_tx_eq_ValidateLimit_tx
    ⟨ScoreCommentConsensus_base, 100⟩ (env_confirmed_scores 299) score_A_on_T "A" "B" "T"
    { m_type := 204, m_hash := "T", m_time := 900, m_string1 := some "B",
      m_string2 := some "T" }
    (by decide) (by decide) (by decide) (by decide) (by decide) (by decide) (by decide)
    (by decide) (by decide) (hrows 299 (by decide))
  exact ⟨hstep300, hstep299, hall300.trans hstep300, hall299.trans hstep299, hmix299,
    hmix298⟩

/-! ## Duplicate targets inside a block -/

/-- C4, evaluated on the code: the block holds two comment-scores of the registered actor
`"A"` on the same standing comment `"T"`, with different hashes; block validation of the
second one answers `Success`, under the base rule set and under checkpoint 1180000, where the
claim announces `DoubleCommentScore`. The loop compares the hash of the sibling itself, not
its target, with the target of the validated transaction. -/
theorem C4_block_duplicate_target_accepted :
    earlier_score_A_on_T.GetHash ≠ score_A_on_T.GetHash
    ∧ earlier_score_A_on_T.GetType = ACTION_SCORE_COMMENT
    ∧ earlier_score_A_on_T.GetAddress = score_A_on_T.GetAddress
    ∧ earlier_score_A_on_T.GetCommentTxHash = score_A_on_T.GetCommentTxHash
    ∧ ScoreCommentConsensus.Validate_tx_block ⟨ScoreCommentConsensus_base, 100⟩
        env_registered score_A_on_T [earlier_score_A_on_T, score_A_on_T] = some Success
    ∧ ScoreCommentConsensus.Validate_tx_block ⟨ScoreCommentConsensus_checkpoint_1180000, 1200000⟩
        env_registered score_A_on_T [earlier_score_A_on_T, score_A_on_T] = some Success := by
  decide

/-! ## The registration gate of block validation -/

/-- An `ACCOUNT_USER` transaction of the block contributes its address to the block
registrations. -/
theorem mem_blockRegistrations (block : PocketBlock) (u : Transaction) (X : String)
    (hmem : u ∈ block) (hu : u.GetType = ACCOUNT_USER) (huX : u.GetString1 = some X) :
    X ∈ blockRegistrations block := by
  unfold blockRegistrations
  rw [List.mem_filterMap]
  exact ⟨u, hmem, by rw [if_pos hu, huX]⟩

/-- The steps after the registration gate answer `NotRegistered` only if the model step or
the limit step of the rule set does. -/
theorem SocialBaseConsensus.Validate_tx_block_rest_ne (c : SocialBaseConsensus) (env : Env)
    (tx : Transaction) (block : PocketBlock)
    (hmodel : c.ValidateModel env tx ≠ some (false, SocialConsensusResult_NotRegistered))
    (hlimit : c.ValidateLimit_tx_block env tx block
      ≠ some (false, SocialConsensusResult_NotRegistered)) :
    c.Validate_tx_block_rest env tx block
      ≠ some (false, SocialConsensusResult_NotRegistered) := by
  unfold SocialBaseConsensus.Validate_tx_block_rest
  cases hm : c.ValidateModel env tx with
  | none => simp
  | some r =>
    obtain ⟨ok, reason⟩ := r
    cases ok with
    | false =>
      rw [hm] at hmodel
      simpa using hmodel
    | true =>
      cases hl : c.ValidateLimit_tx_block env tx block with
      | none => simp
      | some r2 =>
        obtain ⟨ok2, reason2⟩ := r2
        cases ok2 with
        | false =>
          rw [hl] at hlimit
          simpa using hlimit
        | true => simp [Success]

/-- The model step of the comment-score rule sets never answers `NotRegistered`. -/
theorem ScoreCommentConsensus.ValidateModel_ne_NotRegistered (c : ScoreCommentConsensus)
    (env : Env) (tx : Transaction) :
    c.ValidateModel env tx ≠ some (false, SocialConsensusResult_NotRegistered) := by
  unfold ScoreCommentConsensus.ValidateModel
  cases hT : tx.GetCommentTxHash with
  | none => simp
  | some T =>
    simp only [Option.bind_eq_bind, Option.some_bind]
    cases hlast : ConsensusRepository.GetLastContent env.ConsensusRepoInst T with
    | none => simp
    | some lastContent =>
      by_cases hdel : lastContent.GetType = CONTENT_COMMENT_DELETE
      · simp [hdel]
      · cases hA : tx.GetAddress with
        | none => simp [hdel]
        | some A =>
          cases hB : lastContent.GetString1 with
          | none => simp [hdel, hB]
          | some B =>
            by_cases hAB : A = B
            · simp [hdel, hB, hAB]
            · rcases ScoreCommentConsensus.ValidateBlocking_cases c env B tx A hA with hb | hb
              · cases hex : ConsensusRepository.ExistsScore env.ConsensusRepoInst A T
                  ACTION_SCORE_COMMENT false <;> simp [hdel, hB, hAB, hb, hex, Success]
              · simp [hdel, hB, hAB, hb]

/-- The limit comparison of the comment-score rule sets never answers `NotRegistered`. -/
theorem ScoreCommentConsensus.ValidateLimit_tx_count_ne_NotRegistered
    (c : ScoreCommentConsensus) (env : Env) (tx : Transaction) (count : Int) :
    c.ValidateLimit_tx_count env tx count
      ≠ some (false, SocialConsensusResult_NotRegistered) := by
  unfold ScoreCommentConsensus.ValidateLimit_tx_count
  cases hA : tx.GetAddress with
  | none => simp
  | some A =>
    simp only [Option.bind_eq_bind, Option.some_bind]
    split <;> simp [Success]

/-- The block limit step of the comment-score rule sets never answers `NotRegistered`. -/
theorem ScoreCommentConsensus.ValidateLimit_tx_block_ne_NotRegistered
    (c : ScoreCommentConsensus) (env : Env) (tx : Transaction) (block : PocketBlock) :
    c.ValidateLimit_tx_block env tx block
      ≠ some (false, SocialConsensusResult_NotRegistered) := by
  have hloop : ∀ (block : PocketBlock) (count : Int),
      c.ValidateLimit_tx_block_loop env tx block count
        ≠ some (false, SocialConsensusResult_NotRegistered) := by
    intro block
    induction block with
    | nil =>
      intro count
      unfold ScoreCommentConsensus.ValidateLimit_tx_block_loop
      exact ScoreCommentConsensus.ValidateLimit_tx_count_ne_NotRegistered c env tx count
    | cons b rest ih =>
      intro count
      unfold ScoreCommentConsensus.ValidateLimit_tx_block_loop
      split
      · exact ih count
      · split
        · exact ih count
        · cases hA : tx.GetAddress with
          | none => simp
          | some A =>
            cases hB : b.GetAddress with
            | none => simp
            | some B =>
              simp only [Option.bind_eq_bind, Option.some_bind]
              split
              · cases hT : tx.GetCommentTxHash with
                | none => simp
                | some T =>
                  simp only [Option.some_bind]
                  split
                  · simp
                  · exact ih _
              · exact ih count
  unfold ScoreCommentConsensus.ValidateLimit_tx_block
  cases hcount : c.GetChainCount env tx with
  | none => simp
  | some count =>
    simp only [Option.bind_eq_bind, Option.some_bind]
    exact hloop block count

/-- C5. For every rule set built on `SocialBaseConsensus` and every candidate block that holds
an `ACCOUNT_USER` transaction whose address (`String1`) is `X`, followed by a transaction `tx`
whose only registration-required address is `X`, block validation of `tx` passes the
registration gate whatever the store holds: its result is that of the model and limit steps,
and it is not `NotRegistered`, a reason the model and limit steps of the rule set do not use
(those of the comment-score rule sets never do, see `ValidateModel_ne_NotRegistered` and
`ValidateLimit_tx_block_ne_NotRegistered`). The `ACCOUNT_USER` transactions of the block carry
their address. -/
theorem C5_registration_exemption (c : SocialBaseConsensus) (env : Env)
    (tx u : Transaction) (pre mid post : PocketBlock) (X : String) (addresses : List String)
    (haddr : c.GetAddressesForCheckRegistration tx = some addresses)
    (honly : ∀ a ∈ addresses, a = X)
    (hu : u.GetType = ACCOUNT_USER) (huX : u.GetString1 = some X)
    (hwf : blockUsersHaveAddress (pre ++ u :: (mid ++ tx :: post)) = true)
    (hmodel : c.ValidateModel env tx ≠ some (false, SocialConsensusResult_NotRegistered))
    (hlimit : c.ValidateLimit_tx_block env tx (pre ++ u :: (mid ++ tx :: post))
      ≠ some (false, SocialConsensusResult_NotRegistered)) :
    c.Validate_tx_block env tx (pre ++ u :: (mid ++ tx :: post))
        = c.Validate_tx_block_rest env tx (pre ++ u :: (mid ++ tx :: post))
    ∧ c.Validate_tx_block env tx (pre ++ u :: (mid ++ tx :: post))
        ≠ some (false, SocialConsensusResult_NotRegistered) := by
  have hX : X ∈ blockRegistrations (pre ++ u :: (mid ++ tx :: post)) :=
    mem_blockRegistrations _ u X (by simp) hu huX
  have heq := SocialBaseConsensus.Validate_tx_block_of_exempt c env tx _ addresses haddr hwf
    (fun a ha => by rw [honly a ha]; exact hX)
  refine ⟨heq, ?_⟩
  rw [heq]
  exact SocialBaseConsensus.Validate_tx_block_rest_ne c env tx _ hmodel hlimit

/-- C5 for the base comment-score rule set, a store with no registration at all and the block
made of the registration of `"A"` followed by the comment-score of `"A"`: the result is
`Success`. -/
theorem C5_registration_exemption_witness :
    HasRegistration env_no_registration.ConsensusRepoInst "A" true = false
    ∧ (ScoreCommentConsensus.toSocialBaseConsensus ⟨ScoreCommentConsensus_base, 100⟩).Validate_tx_block
        env_no_registration score_A_on_T ([] ++ registration_of_A :: ([] ++ score_A_on_T :: []))
      = some Success
    ∧ (ScoreCommentConsensus.toSocialBaseConsensus ⟨ScoreCommentConsensus_base, 100⟩).Validate_tx_block
        env_no_registration score_A_on_T ([] ++ registration_of_A :: ([] ++ score_A_on_T :: []))
      ≠ some (false, SocialConsensusResult_NotRegistered) := by
  have h := C5_registration_exemption
    (ScoreCommentConsensus.toSocialBaseConsensus ⟨ScoreCommentConsensus_base, 100⟩)
    env_no_registration score_A_on_T registration_of_A [] [] [] "A" ["A"]
    (by decide) (by decide) (by decide) (by decide) (by decide)
    (ScoreCommentConsensus.ValidateModel_ne_NotRegistered _ _ _)
    (ScoreCommentConsensus.ValidateLimit_tx_block_ne_NotRegistered _ _ _ _)
  exact ⟨by decide, h.1.trans (by decide), h.2⟩

/-- C6, as stated, fails: the only `ACCOUNT_USER` transaction for `"A"` stands after the
validated comment-score of `"A"` in the block and `"A"` has no registration in the store, yet
block validation answers `Success`, not `NotRegistered`. -/
theorem C6_counterexample :
    HasRegistration env_no_registration.ConsensusRepoInst "A" false = false
    ∧ score_A_on_T.GetAddress = some "A"
    ∧ registration_of_A.GetType = ACCOUNT_USER
    ∧ registration_of_A.GetString1 = some "A"
    ∧ ScoreCommentConsensus.Validate_tx_block ⟨ScoreCommentConsensus_base, 100⟩
        env_no_registration score_A_on_T [score_A_on_T, registration_of_A] = some Success
    ∧ ScoreCommentConsensus.Validate_tx_block ⟨ScoreCommentConsensus_base, 100⟩
        env_no_registration score_A_on_T [score_A_on_T, registration_of_A]
      ≠ some (false, SocialConsensusResult_NotRegistered) := by
  decide

/-- C6 (amended). In block validation, an address that must be registered is exempted by an
`ACCOUNT_USER` transaction for it standing anywhere in the candidate block, also after the
validated transaction: the registration gate is then passed without a confirmed registration.
When the block holds no `ACCOUNT_USER` transaction for the address and the address has no
confirmed registration, the result is `NotRegistered`. The `ACCOUNT_USER` transactions of the
block carry their address, and the required addresses are fewer than `2^31`. -/
theorem C6_exemption_anywhere_in_block (c : SocialBaseConsensus) (env : Env)
    (tx : Transaction) (pre post : PocketBlock) (X : String) (addresses : List String)
    (haddr : c.GetAddressesForCheckRegistration tx = some addresses)
    (hwf : blockUsersHaveAddress (pre ++ tx :: post) = true) :
    ((∀ a ∈ addresses, a = X) →
      (∃ u ∈ post, u.GetType = ACCOUNT_USER ∧ u.GetString1 = some X) →
      c.Validate_tx_block env tx (pre ++ tx :: post)
        = c.Validate_tx_block_rest env tx (pre ++ tx :: post))
    ∧ (X ∈ addresses → addresses.length < 2147483648 →
        (∀ u ∈ pre ++ tx :: post, u.GetType = ACCOUNT_USER → u.GetString1 ≠ some X) →
        HasRegistration env.ConsensusRepoInst X false = false →
        c.Validate_tx_block env tx (pre ++ tx :: post)
          = some (false, SocialConsensusResult_NotRegistered)) := by
  constructor
  · intro honly hex
    obtain ⟨u, hupost, hu, huX⟩ := hex
    have hX : X ∈ blockRegistrations (pre ++ tx :: post) :=
      mem_blockRegistrations _ u X (by simp [hupost]) hu huX
    exact SocialBaseConsensus.Validate_tx_block_of_exempt c env tx _ addresses haddr hwf
      (fun a ha => by rw [honly a ha]; exact hX)
  · intro hX hlen hnone hno
    apply SocialBaseConsensus.Validate_tx_block_of_unregistered c env tx _ addresses haddr hwf
      hlen X hX _ hno
    unfold blockRegistrations
    rw [List.mem_filterMap]
    rintro ⟨u, humem, hux⟩
    by_cases hu : u.GetType = ACCOUNT_USER
    · rw [if_pos hu] at hux
      exact hnone u humem hu hux
    · rw [if_neg hu] at hux
      exact Option.noConfusion hux

/-- C6 (amended) for the base comment-score rule set and a store with no registration: with
the registration of `"A"` after the comment-score of `"A"` the gate is passed and the result
is `Success`; with no registration in the block the result is `NotRegistered`. -/
theorem C6_exemption_anywhere_in_block_witness :
    (ScoreCommentConsensus.toSocialBaseConsensus ⟨ScoreCommentConsensus_base, 100⟩).Validate_tx_block
        env_no_registration score_A_on_T ([] ++ score_A_on_T :: [registration_of_A])
      = some Success
    ∧ (ScoreCommentConsensus.toSocialBaseConsensus ⟨ScoreCommentConsensus_base, 100⟩).Validate_tx_block
        env_no_registration score_A_on_T ([] ++ score_A_on_T :: [])
      = some (false, SocialConsensusResult_NotRegistered) :=
  ⟨((C6_exemption_anywhere_in_block
      (ScoreCommentConsensus.toSocialBaseConsensus ⟨ScoreCommentConsensus_base, 100⟩)
      env_no_registration score_A_on_T [] [registration_of_A] "A" ["A"]
      (by decide) (by decide)).1 (by decide)
      ⟨registration_of_A, by decide, by decide, by decide⟩).trans (by decide),
   (C6_exemption_anywhere_in_block
      (ScoreCommentConsensus.toSocialBaseConsensus ⟨ScoreCommentConsensus_base, 100⟩)
      env_no_registration score_A_on_T [] [] "A" ["A"]
      (by decide) (by decide)).2 (by decide) (by decide) (by decide) (by decide)⟩

/-- C7. In block validation, when the required addresses that the candidate block does not
exempt do not all have a confirmed registration (so that at least one required address is not
exempted), the result is `NotRegistered`, whatever the model and limit steps of the rule set
would answer: the registration gate is decided first. The `ACCOUNT_USER` transactions of the
block carry their address, and the required addresses are fewer than `2^31`. -/
theorem C7_registration_gate_first (c : SocialBaseConsensus) (env : Env) (tx : Transaction)
    (block : PocketBlock) (addresses : List String)
    (haddr : c.GetAddressesForCheckRegistration tx = some addresses)
    (hwf : blockUsersHaveAddress block = true)
    (hlen : addresses.length < 2147483648)
    (hnot : ¬ ∀ a ∈ notExempt block addresses,
      HasRegistration env.ConsensusRepoInst a false = true) :
    c.Validate_tx_block env tx block = some (false, SocialConsensusResult_NotRegistered) := by
  have hex : ∃ a ∈ notExempt block addresses,
      HasRegistration env.ConsensusRepoInst a false = false := by
    by_contra hcon
    apply hnot
    intro a ha
    cases hh : HasRegistration env.ConsensusRepoInst a false with
    | true => rfl
    | false => exact absurd ⟨a, ha, hh⟩ hcon
  obtain ⟨a0, ha0, hno⟩ := hex
  rw [notExempt_mem] at ha0
  exact SocialBaseConsensus.Validate_tx_block_of_unregistered c env tx block addresses haddr
    hwf hlen a0 ha0.1 ha0.2 hno

/-- C7 for a rule set whose model and limit steps always answer `Success` and whose required
addresses are `"A"` and `"B"`: the block registers `"A"`, `"B"` has no confirmed registration,
and the result is `NotRegistered`. -/
theorem C7_registration_gate_first_witness :
    SocialBaseConsensus.Validate_tx_block
        { Height := 100,
          ValidateModel := fun _ _ => some Success,
          ValidateLimit_tx_block := fun _ _ _ => some Success,
          ValidateLimit_tx := fun _ _ => some Success,
          CheckModel := fun _ => Success,
          GetAddressesForCheckRegistration := fun _ => some ["A", "B"] }
        env_registered score_A_on_T [registration_of_A, score_A_on_T]
      = some (false, SocialConsensusResult_NotRegistered) :=
  C7_registration_gate_first _ env_registered score_A_on_T [registration_of_A, score_A_on_T]
    ["A", "B"] rfl (by decide) (by decide) (by decide)

/-! ## `Check` -/

/-- Function `CheckOpReturnHash` succeeds only when both hashes are present and non-empty
and either they are equal or the pair (transaction hash, payload hash) is a checkpoint. -/
theorem SocialBaseConsensus.CheckOpReturnHash_ok (IsCheckpoint : String → String → Bool)
    (tx : Transaction)
    (hok : (SocialBaseConsensus.CheckOpReturnHash IsCheckpoint tx).1 = true) :
    ∃ o p, tx.GetOpReturnTx = some o ∧ o ≠ "" ∧ tx.GetOpReturnPayload = some p ∧ p ≠ ""
      ∧ (o = p ∨ IsCheckpoint tx.GetHash p = true) := by
  unfold SocialBaseConsensus.CheckOpReturnHash at hok
  cases hp : IsEmpty_string tx.GetOpReturnPayload
  case true => simp [hp] at hok
  cases ho : IsEmpty_string tx.GetOpReturnTx
  case true => simp [hp, ho] at hok
  obtain ⟨p, hp1, hp2⟩ := (IsEmpty_string_eq_false _).mp hp
  obtain ⟨o, ho1, ho2⟩ := (IsEmpty_string_eq_false _).mp ho
  refine ⟨o, p, ho1, ho2, hp1, hp2, ?_⟩
  by_cases heq : o = p
  · exact Or.inl heq
  · right
    cases hc : IsCheckpoint tx.GetHash p
    · rw [hp1] at hp
      rw [ho1] at ho
      simp [hp, ho, hp1, ho1, heq, hc] at hok
    · rfl

/-- Function `Check` succeeds only when `CheckModel` and `CheckOpReturnHash` both do. -/
theorem SocialBaseConsensus.Check_ok (c : SocialBaseConsensus)
    (IsCheckpoint : String → String → Bool) (tx : Transaction)
    (hok : (c.Check IsCheckpoint tx).1 = true) :
    (c.CheckModel tx).1 = true
      ∧ (SocialBaseConsensus.CheckOpReturnHash IsCheckpoint tx).1 = true := by
  unfold SocialBaseConsensus.Check at hok
  rcases hm : c.CheckModel tx with ⟨okm, rm⟩
  rcases ho : SocialBaseConsensus.CheckOpReturnHash IsCheckpoint tx with ⟨oko, ro⟩
  rw [hm, ho] at hok
  cases okm <;> cases oko <;> simp at hok ⊢

/-- C11, as stated, fails: with a checkpoint table listing (`"s1"`, `"p1"`), the comment-score
`"s1"` whose op-return data commits `"o1"` while its payload hashes to `"p1"` passes `Check`. -/
theorem C11_counterexample :
    score_with_other_commitment.GetOpReturnTx = some "o1"
    ∧ score_with_other_commitment.GetOpReturnPayload = some "p1"
    ∧ ScoreCommentConsensus.Check ⟨ScoreCommentConsensus_base, 100⟩ checkpoint_s1_p1
        score_with_other_commitment = Success := by
  decide

/-- C11 (amended). For every rule set, every checkpoint table and every transaction, `Check`
returns success only if the op-return hash committed in the transaction and the hash of its
payload are both present and non-empty and either they are equal or the pair (transaction
hash, payload hash) is listed in the op-return checkpoints. -/
theorem C11_Check_success_only_if_hash_matches (c : SocialBaseConsensus)
    (IsCheckpoint : String → String → Bool) (tx : Transaction)
    (hok : (c.Check IsCheckpoint tx).1 = true) :
    ∃ o p, tx.GetOpReturnTx = some o ∧ o ≠ "" ∧ tx.GetOpReturnPayload = some p ∧ p ≠ ""
      ∧ (o = p ∨ IsCheckpoint tx.GetHash p = true) :=
  SocialBaseConsensus.CheckOpReturnHash_ok IsCheckpoint tx
    (SocialBaseConsensus.Check_ok c IsCheckpoint tx hok).2

/-- C11 (amended) for the comment-score whose op-return data commits the hash of its payload,
with an empty checkpoint table. -/
theorem C11_Check_success_only_if_hash_matches_witness :
    ((ScoreCommentConsensus.toSocialBaseConsensus ⟨ScoreCommentConsensus_base, 100⟩).Check
        (fun _ _ => false) score_with_commitment).1 = true
    ∧ ∃ o p, score_with_commitment.GetOpReturnTx = some o ∧ o ≠ ""
        ∧ score_with_commitment.GetOpReturnPayload = some p ∧ p ≠ ""
        ∧ (o = p ∨ (fun _ _ => false) score_with_commitment.GetHash p = true) :=
  ⟨by decide,
   C11_Check_success_only_if_hash_matches
    (ScoreCommentConsensus.toSocialBaseConsensus ⟨ScoreCommentConsensus_base, 100⟩)
    (fun _ _ => false) score_with_commitment (by decide)⟩

/-- C12, as stated, fails: `Check` reports the comment-score without a value and the
comment-score with the value 2 under one and the same reason, `Failed`. -/
theorem C12_counterexample :
    score_without_value.GetValue = none
    ∧ score_with_value_2.GetValue = some 2
    ∧ ScoreCommentConsensus.Check ⟨ScoreCommentConsensus_base, 100⟩ checkpoint_s1_p1
        score_without_value = (false, SocialConsensusResult_Failed)
    ∧ ScoreCommentConsensus.Check ⟨ScoreCommentConsensus_base, 100⟩ checkpoint_s1_p1
        score_with_value_2 = (false, SocialConsensusResult_Failed) := by
  decide

/-- C12 (amended). `Check` reports a comment-score transaction with a missing required field
(actor address, target comment hash or value absent, or one of the two strings empty) and a
transaction whose fields are all present but whose value lies outside `{-1, +1}` under the
same failure reason, `Failed`. -/
theorem C12_Check_one_reason (c : ScoreCommentConsensus)
    (IsCheckpoint : String → String → Bool) (tx : Transaction) :
    ((IsEmpty_string tx.GetAddress = true ∨ IsEmpty_string tx.GetCommentTxHash = true
        ∨ IsEmpty_int64 tx.GetValue = true) →
      c.Check IsCheckpoint tx = (false, SocialConsensusResult_Failed))
    ∧ (∀ v, IsEmpty_string tx.GetAddress = false → IsEmpty_string tx.GetCommentTxHash = false →
        tx.GetValue = some v → v ≠ 1 → v ≠ -1 →
        c.Check IsCheckpoint tx = (false, SocialConsensusResult_Failed)) := by
  have hfail : c.CheckModel tx = (false, SocialConsensusResult_Failed) →
      c.Check IsCheckpoint tx = (false, SocialConsensusResult_Failed) := by
    intro h
    have h2 : c.toSocialBaseConsensus.CheckModel tx = (false, SocialConsensusResult_Failed) := h
    unfold ScoreCommentConsensus.Check SocialBaseConsensus.Check
    rw [h2]
  constructor
  · intro h
    apply hfail
    unfold ScoreCommentConsensus.CheckModel
    cases h1 : IsEmpty_string tx.GetAddress
    case true => simp
    cases h2 : IsEmpty_string tx.GetCommentTxHash
    case true => simp
    have h3 : IsEmpty_int64 tx.GetValue = true := by
      rcases h with h | h | h
      · rw [h1] at h; exact absurd h (by decide)
      · rw [h2] at h; exact absurd h (by decide)
      · exact h
    simp [h3]
  · intro v h1 h2 hv hv1 hv2
    apply hfail
    unfold ScoreCommentConsensus.CheckModel
    simp [h1, h2, hv, IsEmpty_int64, hv1, hv2]

/-- C12 (amended) at the comment-score without a value and at the one with the value 2. -/
theorem C12_Check_one_reason_witness :
    ScoreCommentConsensus.Check ⟨ScoreCommentConsensus_base, 100⟩ (fun _ _ => false)
        score_without_value = (false, SocialConsensusResult_Failed)
    ∧ ScoreCommentConsensus.Check ⟨ScoreCommentConsensus_base, 100⟩ (fun _ _ => false)
        score_with_value_2 = (false, SocialConsensusResult_Failed) :=
  ⟨(C12_Check_one_reason ⟨ScoreCommentConsensus_base, 100⟩ (fun _ _ => false)
      score_without_value).1 (Or.inr (Or.inr (by decide))),
   (C12_Check_one_reason ⟨ScoreCommentConsensus_base, 100⟩ (fun _ _ => false)
      score_with_value_2).2 2 (by decide) (by decide) (by decide) (by decide) (by decide)⟩

/-! ## Mempool and block registration gates -/

/-- Function `ExistsUserRegistrations` answers true for a non-empty list that names each
address once when every listed address has a registration row (the list being shorter than
`2^31`). -/
theorem ExistsUserRegistrations_eq_true (db : ConsensusRepository)
    (addresses : List String) (mempool : Bool) (hne : addresses ≠ [])
    (hnodup : addresses.Nodup) (hlen : addresses.length < 2147483648)
    (hall : ∀ a ∈ addresses, HasRegistration db a mempool = true) :
    ConsensusRepository.ExistsUserRegistrations db addresses mempool = true := by
  unfold ConsensusRepository.ExistsUserRegistrations
  have hemp : addresses.isEmpty = false := by
    cases addresses with
    | nil => exact absurd rfl hne
    | cons _ _ => rfl
  simp only [hemp, Bool.false_eq_true, if_false, TryGetColumnInt, sqlite3_column_int]
  set S := ((db.vUsers.filter
      (ConsensusRepository.ExistsUserRegistrations_where addresses mempool)).filterMap
        (fun u => u.AddressHash)).dedup with hS
  have hfin : S.toFinset = addresses.toFinset := by
    ext x
    rw [List.mem_toFinset, List.mem_toFinset, hS, ExistsUserRegistrations_mem_selected]
    constructor
    · exact fun h => h.1
    · exact fun h => ⟨h, hall x h⟩
  have hcard : S.length = addresses.length := by
    rw [← List.toFinset_card_of_nodup (List.nodup_dedup _), ← hS, hfin,
      List.toFinset_card_of_nodup hnodup]
  rw [hcard]
  exact beq_self_eq_true _

/-- The block exempts none of the addresses: they all remain to be looked up. -/
theorem notExempt_eq_self (block : PocketBlock) (addresses : List String)
    (h : ∀ a ∈ addresses, a ∉ blockRegistrations block) :
    notExempt block addresses = addresses := by
  unfold notExempt
  rw [List.filter_eq_self]
  intro a ha
  exact decide_eq_true (h a ha)

/-- C13. Mempool validation passes the registration gate when every required address has a
user-registration row, confirmed or still in the mempool (height null), whereas block
validation against a block that holds no `ACCOUNT_USER` transaction for these addresses
passes the gate when every one of them has a confirmed row and returns `NotRegistered` as
soon as one of them has none, also when its registration waits in the mempool. The required
addresses are listed once each and are fewer than `2^31`; the `ACCOUNT_USER` transactions of
the block carry their address. -/
theorem C13_mempool_gate_counts_mempool_rows (c : SocialBaseConsensus) (env : Env)
    (tx : Transaction) (block : PocketBlock) (addresses : List String)
    (haddr : c.GetAddressesForCheckRegistration tx = some addresses)
    (hnodup : addresses.Nodup) (hlen : addresses.length < 2147483648)
    (hwf : blockUsersHaveAddress block = true)
    (hblock : ∀ a ∈ addresses, a ∉ blockRegistrations block) :
    ((∀ a ∈ addresses, HasRegistration env.ConsensusRepoInst a true = true) →
      c.Validate_tx env tx = c.Validate_tx_rest env tx)
    ∧ ((∀ a ∈ addresses, HasRegistration env.ConsensusRepoInst a false = true) →
      c.Validate_tx_block env tx block = c.Validate_tx_block_rest env tx block)
    ∧ ((∃ a ∈ addresses, HasRegistration env.ConsensusRepoInst a false = false) →
      c.Validate_tx_block env tx block
        = some (false, SocialConsensusResult_NotRegistered)) := by
  refine ⟨?_, ?_, ?_⟩
  · intro hall
    rw [SocialBaseConsensus.Validate_tx_eq c env tx addresses haddr]
    by_cases hne : addresses = []
    · rw [hne]
      rfl
    · rw [ExistsUserRegistrations_eq_true _ addresses true hne hnodup hlen hall]
      apply if_neg
      simp
  · intro hall
    rw [SocialBaseConsensus.Validate_tx_block_eq c env tx block addresses haddr hwf,
      notExempt_eq_self block addresses hblock]
    by_cases hne : addresses = []
    · rw [hne]
      rfl
    · rw [ExistsUserRegistrations_eq_true _ addresses false hne hnodup hlen hall]
      have hemp : ¬ (addresses.isEmpty = true) := by
        cases addresses with
        | nil => exact absurd rfl hne
        | cons _ _ => simp
      rw [if_neg hemp]
      apply if_neg
      simp
  · rintro ⟨a, ha, hno⟩
    exact SocialBaseConsensus.Validate_tx_block_of_unregistered c env tx block addresses haddr
      hwf hlen a ha (hblock a ha) hno

/-- C13 at a store where the registration of `"A"` is still in the mempool: mempool validation
of the comment-score of `"A"` passes the gate (and succeeds), block validation against the
block holding only that comment-score returns `NotRegistered`. -/
theorem C13_mempool_gate_counts_mempool_rows_witness :
    HasRegistration env_registration_in_mempool.ConsensusRepoInst "A" true = true
    ∧ HasRegistration env_registration_in_mempool.ConsensusRepoInst "A" false = false
    ∧ (ScoreCommentConsensus.toSocialBaseConsensus ⟨ScoreCommentConsensus_base, 100⟩).Validate_tx
        env_registration_in_mempool score_A_on_T = some Success
    ∧ (ScoreCommentConsensus.toSocialBaseConsensus ⟨ScoreCommentConsensus_base, 100⟩).Validate_tx_block
        env_registration_in_mempool score_A_on_T [score_A_on_T]
      = some (false, SocialConsensusResult_NotRegistered) := by
  have h := C13_mempool_gate_counts_mempool_rows
    (ScoreCommentConsensus.toSocialBaseConsensus ⟨ScoreCommentConsensus_base, 100⟩)
    env_registration_in_mempool score_A_on_T [score_A_on_T] ["A"]
    (by decide) (by decide) (by decide) (by decide) (by decide)
  exact ⟨by decide, by decide, (h.1 (by decide)).trans (by decide),
    h.2.2 ⟨"A", by decide, by decide⟩⟩

/-! ## The block count and the time of the siblings -/

/-- The rule sets `Instance` builds below height 1124000 are the base class and the
checkpoints 430000 and 514184. -/
theorem ScoreCommentConsensusFactory.Instance_below_1124000 (h : Int) (h0 : 0 ≤ h)
    (h1 : h < 1124000) (c : ScoreCommentConsensus)
    (hInst : ScoreCommentConsensusFactory.Instance h = some c) :
    c.cls = ScoreCommentConsensus_base ∨ c.cls = ScoreCommentConsensus_checkpoint_430000
      ∨ c.cls = ScoreCommentConsensus_checkpoint_514184 := by
  rw [ScoreCommentConsensusFactory.Instance_eq h h0] at hInst
  have hc := (Option.some.inj hInst).symm
  rw [hc]
  by_cases ha : h < 430000
  · simp [ha]
  · by_cases hb : h < 514184
    · simp [ha, hb]
    · simp [ha, hb, h1]

/-- One turn of the loop of `ValidateLimit(tx, block)` on another comment-score of the same
actor that is not the scored comment itself: the count is raised when `CheckBlockLimitTime`
holds, and the loop goes on. -/
theorem ScoreCommentConsensus.ValidateLimit_tx_block_loop_sibling (c : ScoreCommentConsensus)
    (env : Env) (tx b : Transaction) (rest : PocketBlock) (count : Int) (A T : String)
    (hA : tx.GetAddress = some A) (hT : tx.GetCommentTxHash = some T)
    (hbtype : b.GetType = ACTION_SCORE_COMMENT) (hbhash : b.GetHash ≠ tx.GetHash)
    (hbA : b.GetAddress = some A) (hbT : b.GetHash ≠ T) :
    c.ValidateLimit_tx_block_loop env tx (b :: rest) count
      = c.ValidateLimit_tx_block_loop env tx rest
          (if c.CheckBlockLimitTime tx b = true then toInt32 (count + 1) else count) := by
  rw [ScoreCommentConsensus.ValidateLimit_tx_block_loop, IsIn_singleton, hbtype]
  simp only [decide_True, Bool.not_true, Bool.false_eq_true, if_false, hbhash, hA, hbA, hT,
    Option.bind_eq_bind, Option.some_bind, if_true, hbT]

/-- C20, as stated, fails: under the base rule set, and under the checkpoints 430000 and
514184, a comment-score of the same actor in the block with the same time as the validated
transaction is counted; from a chain count of 299 it takes a Trial actor to the limit of 300,
where the block without it is accepted. -/
theorem C20_counterexample :
    score_A_on_T2_same_time.GetTime = score_A_on_T.GetTime
    ∧ score_A_on_T2_same_time.GetAddress = score_A_on_T.GetAddress
    ∧ ScoreCommentConsensus.CheckBlockLimitTime ⟨ScoreCommentConsensus_base, 100⟩
        score_A_on_T score_A_on_T2_same_time = true
    ∧ ScoreCommentConsensus.ValidateLimit_tx_block_loop ⟨ScoreCommentConsensus_base, 100⟩
        env_registered score_A_on_T [score_A_on_T] 299 = some Success
    ∧ ScoreCommentConsensus.ValidateLimit_tx_block_loop ⟨ScoreCommentConsensus_base, 100⟩
        env_registered score_A_on_T [score_A_on_T2_same_time, score_A_on_T] 299
      = some (false, SocialConsensusResult_CommentScoreLimit)
    ∧ ScoreCommentConsensus.ValidateLimit_tx_block_loop
        ⟨ScoreCommentConsensus_checkpoint_430000, 430000⟩
        env_registered score_A_on_T [score_A_on_T2_same_time, score_A_on_T] 299
      = some (false, SocialConsensusResult_CommentScoreLimit)
    ∧ ScoreCommentConsensus.ValidateLimit_tx_block_loop
        ⟨ScoreCommentConsensus_checkpoint_514184, 514184⟩
        env_registered score_A_on_T [score_A_on_T2_same_time, score_A_on_T] 299
      = some (false, SocialConsensusResult_CommentScoreLimit) := by
  decide

/-- C20 (amended). Under the comment-score rule sets in force below height 1124000, another
comment-score transaction of the same actor in the candidate block adds to the rate-limit
count if and only if its timestamp is earlier than or equal to the timestamp of the validated
transaction: a sibling with an equal timestamp is counted, a later one is not. -/
theorem C20_block_sibling_counted_iff_not_later (h : Int) (h0 : 0 ≤ h) (h1 : h < 1124000)
    (c : ScoreCommentConsensus) (hInst : ScoreCommentConsensusFactory.Instance h = some c)
    (env : Env) (tx b : Transaction) (rest : PocketBlock) (count : Int) (A T : String)
    (hA : tx.GetAddress = some A) (hT : tx.GetCommentTxHash = some T)
    (hbtype : b.GetType = ACTION_SCORE_COMMENT) (hbhash : b.GetHash ≠ tx.GetHash)
    (hbA : b.GetAddress = some A) (hbT : b.GetHash ≠ T) :
    (c.CheckBlockLimitTime tx b = true ↔ b.GetTime ≤ tx.GetTime)
    ∧ c.ValidateLimit_tx_block_loop env tx (b :: rest) count
        = c.ValidateLimit_tx_block_loop env tx rest
            (if b.GetTime ≤ tx.GetTime then toInt32 (count + 1) else count) := by
  have hcls := ScoreCommentConsensusFactory.Instance_below_1124000 h h0 h1 c hInst
  have htime : c.CheckBlockLimitTime tx b = decide (b.GetTime ≤ tx.GetTime) := by
    unfold ScoreCommentConsensus.CheckBlockLimitTime
    rcases hcls with hc | hc | hc <;> rw [hc]
  constructor
  · rw [htime]
    exact decide_eq_true_iff
  · rw [ScoreCommentConsensus.ValidateLimit_tx_block_loop_sibling c env tx b rest count A T hA
      hT hbtype hbhash hbA hbT, htime]
    by_cases hle : b.GetTime ≤ tx.GetTime
    · rw [if_pos hle, if_pos (decide_eq_true hle)]
    · rw [if_neg hle, if_neg (by simpa using hle)]

/-- C20 (amended) at height 514183 for the sibling with the same time: it is counted. -/
theorem C20_block_sibling_counted_iff_not_later_witness :
    (ScoreCommentConsensus.CheckBlockLimitTime ⟨ScoreCommentConsensus_checkpoint_430000, 514183⟩
        score_A_on_T score_A_on_T2_same_time = true
      ↔ score_A_on_T2_same_time.GetTime ≤ score_A_on_T.GetTime)
    ∧ ScoreCommentConsensus.ValidateLimit_tx_block_loop
        ⟨ScoreCommentConsensus_checkpoint_430000, 514183⟩ env_registered score_A_on_T
        (score_A_on_T2_same_time :: [score_A_on_T]) 299
      = ScoreCommentConsensus.ValidateLimit_tx_block_loop
        ⟨ScoreCommentConsensus_checkpoint_430000, 514183⟩ env_registered score_A_on_T
        [score_A_on_T]
        (if score_A_on_T2_same_time.GetTime ≤ score_A_on_T.GetTime then toInt32 (299 + 1)
          else 299) :=
  C20_block_sibling_counted_iff_not_later 514183 (by decide) (by decide)
    ⟨ScoreCommentConsensus_checkpoint_430000, 514183⟩
    (ScoreCommentConsensusFactory.Instance_eq 514183 (by decide))
    env_registered score_A_on_T score_A_on_T2_same_time [score_A_on_T] 299 "A" "T"
    (by decide) (by decide) (by decide) (by decide) (by decide) (by decide)

/-! ## Reputation -/

/-- The clause `order by Height desc limit 1` selects nothing only from no row. -/
theorem orderByHeightDescLimit1_eq_none (l : List RatingsRow) :
    ConsensusRepository.orderByHeightDescLimit1 l = none ↔ l = [] := by
  cases l with
  | nil => simp [ConsensusRepository.orderByHeightDescLimit1]
  | cons r rest =>
    simp only [ConsensusRepository.orderByHeightDescLimit1, reduceCtorEq, iff_false]
    cases ConsensusRepository.orderByHeightDescLimit1 rest with
    | none => simp
    | some best => by_cases h : best.Height > r.Height <;> simp [h]

/-- The clause `order by Height desc limit 1` selects a row of the list of greatest height. -/
theorem orderByHeightDescLimit1_eq_some (l : List RatingsRow) (r : RatingsRow)
    (h : ConsensusRepository.orderByHeightDescLimit1 l = some r) :
    r ∈ l ∧ ∀ r2 ∈ l, r2.Height ≤ r.Height := by
  induction l generalizing r with
  | nil => simp [ConsensusRepository.orderByHeightDescLimit1] at h
  | cons a rest ih =>
    unfold ConsensusRepository.orderByHeightDescLimit1 at h
    cases hrest : ConsensusRepository.orderByHeightDescLimit1 rest with
    | none =>
      rw [hrest] at h
      have hnil := (orderByHeightDescLimit1_eq_none rest).mp hrest
      have har : a = r := Option.some.inj h
      subst har
      subst hnil
      simp
    | some best =>
      rw [hrest] at h
      simp only at h
      obtain ⟨hbm, hbmax⟩ := ih best hrest
      by_cases hgt : best.Height > a.Height
      · rw [if_pos hgt] at h
        have hbr : best = r := Option.some.inj h
        subst hbr
        refine ⟨List.mem_cons_of_mem _ hbm, ?_⟩
        intro r2 hr2
        rcases List.mem_cons.mp hr2 with h2 | h2
        · rw [h2]
          omega
        · exact hbmax r2 h2
      · rw [if_neg hgt] at h
        have har : a = r := Option.some.inj h
        subst har
        refine ⟨List.mem_cons_self _ _, ?_⟩
        intro r2 hr2
        rcases List.mem_cons.mp hr2 with h2 | h2
        · rw [h2]
        · have := hbmax r2 h2
          omega

/-- The result of both `GetUserReputation` queries for the subject `id`: 0 when no account
rating row of that subject exists, else the value of such a row of greatest height. -/
theorem GetUserReputation_result_spec (db : ConsensusRepository) (id : Int) :
    ((∀ r ∈ db.Ratings, ¬ (r.Type_ = RATING_ACCOUNT ∧ r.Id = id)) →
      ConsensusRepository.GetUserReputation_result db (some id) = 0)
    ∧ ((∃ r ∈ db.Ratings, r.Type_ = RATING_ACCOUNT ∧ r.Id = id) →
      ∃ r ∈ db.Ratings, r.Type_ = RATING_ACCOUNT ∧ r.Id = id
        ∧ (∀ r2 ∈ db.Ratings, r2.Type_ = RATING_ACCOUNT → r2.Id = id → r2.Height ≤ r.Height)
        ∧ ConsensusRepository.GetUserReputation_result db (some id) = ratingValue r) := by
  have hmem : ∀ r, r ∈ db.Ratings.filter
      (ConsensusRepository.GetUserReputation_where RATING_ACCOUNT (some id))
      ↔ r ∈ db.Ratings ∧ r.Type_ = RATING_ACCOUNT ∧ r.Id = id := by
    intro r
    rw [List.mem_filter]
    simp [ConsensusRepository.GetUserReputation_where]
  constructor
  · intro hno
    have hnil : db.Ratings.filter
        (ConsensusRepository.GetUserReputation_where RATING_ACCOUNT (some id)) = [] := by
      apply List.eq_nil_iff_forall_not_mem.mpr
      intro r hr
      exact hno r ((hmem r).mp hr).1 ((hmem r).mp hr).2
    unfold ConsensusRepository.GetUserReputation_result
    rw [hnil]
    rfl
  · rintro ⟨r0, hr0, ht0, hi0⟩
    cases hsel : ConsensusRepository.orderByHeightDescLimit1 (db.Ratings.filter
        (ConsensusRepository.GetUserReputation_where RATING_ACCOUNT (some id))) with
    | none =>
      have hnil := (orderByHeightDescLimit1_eq_none _).mp hsel
      have : r0 ∈ db.Ratings.filter
          (ConsensusRepository.GetUserReputation_where RATING_ACCOUNT (some id)) :=
        (hmem r0).mpr ⟨hr0, ht0, hi0⟩
      rw [hnil] at this
      exact absurd this (List.not_mem_nil _)
    | some r =>
      obtain ⟨hrm, hmax⟩ := orderByHeightDescLimit1_eq_some _ r hsel
      obtain ⟨hr, ht, hi⟩ := (hmem r).mp hrm
      refine ⟨r, hr, ht, hi, ?_, ?_⟩
      · intro r2 hr2 ht2 hi2
        exact hmax r2 ((hmem r2).mpr ⟨hr2, ht2, hi2⟩)
      · unfold ConsensusRepository.GetUserReputation_result ratingValue
        rw [hsel]
        cases hv : r.Value <;> simp [TryGetColumnInt, sqlite3_column_int, hv]

/-- C18. `GetUserReputation`, by id and by address, returns the value of the `RATING_ACCOUNT`
rating row with the greatest height for the account's id (the column read as an `int`, 0 if
it is null), and returns 0 when no such row exists; in the address form the id is that of the
confirmed last user record of the address, and the result is 0 when the address has no such
record. -/
theorem C18_GetUserReputation (db : ConsensusRepository) (address : String)
    (addressId : Int) :
    ((∀ r ∈ db.Ratings, ¬ (r.Type_ = RATING_ACCOUNT ∧ r.Id = addressId)) →
      ConsensusRepository.GetUserReputation_addressId db addressId = 0)
    ∧ ((∃ r ∈ db.Ratings, r.Type_ = RATING_ACCOUNT ∧ r.Id = addressId) →
      ∃ r ∈ db.Ratings, r.Type_ = RATING_ACCOUNT ∧ r.Id = addressId
        ∧ (∀ r2 ∈ db.Ratings, r2.Type_ = RATING_ACCOUNT → r2.Id = addressId →
            r2.Height ≤ r.Height)
        ∧ ConsensusRepository.GetUserReputation_addressId db addressId = ratingValue r)
    ∧ (∀ u id, db.vUsers.find? (ConsensusRepository.GetUserReputation_user_where address)
          = some u → u.Id = some id →
        ConsensusRepository.GetUserReputation_address db address
          = ConsensusRepository.GetUserReputation_addressId db id)
    ∧ ((∀ u ∈ db.vUsers, ¬ (u.Height.isSome = true ∧ u.Last = some 1
          ∧ u.AddressHash = some address)) →
        ConsensusRepository.GetUserReputation_address db address = 0) := by
  refine ⟨(GetUserReputation_result_spec db addressId).1,
    (GetUserReputation_result_spec db addressId).2, ?_, ?_⟩
  · intro u id hfind hid
    unfold ConsensusRepository.GetUserReputation_address
      ConsensusRepository.GetUserReputation_addressId
      ConsensusRepository.GetUserReputation_user_id
    rw [hfind]
    simp only [hid]
  · intro hno
    have hfind : db.vUsers.find? (ConsensusRepository.GetUserReputation_user_where address)
        = none := by
      rw [List.find?_eq_none]
      intro u hu hp
      apply hno u hu
      simpa [ConsensusRepository.GetUserReputation_user_where, and_assoc] using hp
    unfold ConsensusRepository.GetUserReputation_address
      ConsensusRepository.GetUserReputation_user_id
      ConsensusRepository.GetUserReputation_result
    rw [hfind]
    have hnil : db.Ratings.filter
        (ConsensusRepository.GetUserReputation_where RATING_ACCOUNT none) = [] := by
      apply List.eq_nil_iff_forall_not_mem.mpr
      intro r hr
      rw [List.mem_filter] at hr
      simp [ConsensusRepository.GetUserReputation_where] at hr
    rw [hnil]
    rfl

/-- C18 at a store where the account ratings of id 7, the id of `"A"`, are 10 at height 5 and
25 at height 9: both forms return 25; an id and an address without rating return 0. -/
theorem C18_GetUserReputation_witness :
    ConsensusRepository.GetUserReputation_addressId db_ratings 7 = 25
    ∧ ConsensusRepository.GetUserReputation_address db_ratings "A" = 25
    ∧ ConsensusRepository.GetUserReputation_addressId db_ratings 9 = 0
    ∧ ConsensusRepository.GetUserReputation_address db_ratings "B" = 0 := by
  have h := C18_GetUserReputation db_ratings "A" 7
  have h9 := (C18_GetUserReputation db_ratings "B" 9).1 (by decide)
  have hB := (C18_GetUserReputation db_ratings "B" 9).2.2.2 (by decide)
  have hA := h.2.2.1 { AddressHash := some "A", Height := some 5, Last := some 1, Id := some 7 }
    7 (by decide) (by decide)
  obtain ⟨r, hr, ht, hi, hmax, hval⟩ := h.2.1
    ⟨{ Type_ := 0, Id := 7, Height := 9, Value := some 25 }, by decide, by decide, by decide⟩
  have h7 : ConsensusRepository.GetUserReputation_addressId db_ratings 7 = 25 := by decide
  exact ⟨h7, hA.trans h7, h9, hB⟩

/-! ## The hash input of a post -/

theorem intercalate_go_append (x acc sep : String) (l : List String) :
    String.intercalate.go (x ++ acc) sep l = x ++ String.intercalate.go acc sep l := by
  induction l generalizing acc with
  | nil => rfl
  | cons a rest ih =>
    simp only [String.intercalate.go]
    rw [String.append_assoc, String.append_assoc, ← String.append_assoc acc sep a]
    exact ih _

/-- The loop of `Post::BuildHash`, started after the first element, joins with commas. -/
theorem Post.BuildHash_loop_succ (strs : List String) (i : Nat) (data : String) :
    Post.BuildHash_loop (strs.map UniValueItem.str) (i + 1) data
      = some (String.intercalate.go data "," strs) := by
  induction strs generalizing i data with
  | nil => rfl
  | cons a rest ih =>
    simp only [List.map_cons, Post.BuildHash_loop, UniValueItem.get_str, ne_eq,
      Nat.add_one_ne_zero, not_false_eq_true, if_true, String.intercalate.go]
    exact ih _ _

/-- The loop of `Post::BuildHash` appends the elements joined by commas. -/
theorem Post.BuildHash_loop_zero (strs : List String) (data : String) :
    Post.BuildHash_loop (strs.map UniValueItem.str) 0 data
      = some (data ++ ",".intercalate strs) := by
  cases strs with
  | nil =>
    simp [Post.BuildHash_loop, String.intercalate]
  | cons a rest =>
    simp only [List.map_cons, Post.BuildHash_loop, UniValueItem.get_str, ne_eq,
      not_true_eq_false, if_false, String.intercalate]
    rw [Post.BuildHash_loop_succ, String.append_empty, intercalate_go_append]

/-- A block of `Post::BuildHash` appends the list of the field, joined by commas. -/
theorem Post.BuildHash_array_eq (read : String → List UniValueItem) (field : Option String)
    (data : String) (strs : List String)
    (h : listOfField read field = strs.map UniValueItem.str) :
    Post.BuildHash_array read field data = some (data ++ ",".intercalate strs) := by
  have hloop : Post.BuildHash_array read field data
      = Post.BuildHash_loop (listOfField read field) 0 data := by
    unfold Post.BuildHash_array listOfField
    cases field with
    | none => rfl
    | some s => cases hs : s.isEmpty <;> simp [hs, Post.BuildHash_loop]
  rw [hloop, h, Post.BuildHash_loop_zero]

/-- C19. `Post::BuildHash` hashes exactly the concatenation, in this order, of the url
(payload `String7`), the caption (`String2`), the message (`String3`), the tags joined by
`","`, the images joined by `","`, the root hash only when it differs from the hash of the
post itself (an edit), and the relay hash; an absent field and an absent or empty tag or
image list contribute the empty string. The post carries a payload, and the elements of the
two parsed lists are strings. -/
theorem C19_BuildHash_concatenation (GenerateHash : String → String)
    (read : String → List UniValueItem) (tx : Transaction) (p : Payload)
    (tags images : List String)
    (hp : tx.m_payload = some p)
    (htags : listOfField read p.GetString4 = tags.map UniValueItem.str)
    (himages : listOfField read p.GetString5 = images.map UniValueItem.str) :
    Post.BuildHash_data read tx
        = some (postHashInput (fieldOrEmpty p.GetString7) (fieldOrEmpty p.GetString2)
            (fieldOrEmpty p.GetString3) tags images
            (match Post.GetRootTxHash tx with
             | some root => if root ≠ tx.GetHash then root else ""
             | none => "")
            (fieldOrEmpty (Post.GetRelayTxHash tx)))
    ∧ Post.BuildHash GenerateHash read tx
        = some (GenerateHash (postHashInput (fieldOrEmpty p.GetString7)
            (fieldOrEmpty p.GetString2) (fieldOrEmpty p.GetString3) tags images
            (match Post.GetRootTxHash tx with
             | some root => if root ≠ tx.GetHash then root else ""
             | none => "")
            (fieldOrEmpty (Post.GetRelayTxHash tx))))
    ∧ fieldOrEmpty none = ""
    ∧ listOfField read none = []
    ∧ listOfField read (some "") = []
    ∧ ",".intercalate ([] : List String) = "" := by
  have hdata : Post.BuildHash_data read tx
      = some (postHashInput (fieldOrEmpty p.GetString7) (fieldOrEmpty p.GetString2)
          (fieldOrEmpty p.GetString3) tags images
          (match Post.GetRootTxHash tx with
           | some root => if root ≠ tx.GetHash then root else ""
           | none => "")
          (fieldOrEmpty (Post.GetRelayTxHash tx))) := by
    unfold Post.BuildHash_data postHashInput
    rw [hp]
    simp only [Option.bind_eq_bind, Option.some_bind,
      Post.BuildHash_array_eq read p.GetString4 _ tags htags,
      Post.BuildHash_array_eq read p.GetString5 _ images himages, Option.pure_def,
      Option.some.injEq]
    have hf : ∀ f : Option String, (match f with | some s => s | none => "") = fieldOrEmpty f :=
      fun f => rfl
    rw [hf, hf, hf, hf, String.empty_append]
    cases hroot : Post.GetRootTxHash tx with
    | none => simp
    | some root => by_cases hne : root = tx.GetHash <;> simp [hne]
  refine ⟨hdata, ?_, rfl, rfl, rfl, rfl⟩
  unfold Post.BuildHash
  rw [hdata]
  rfl

/-- C19 at an edit with two tags, one image and no relay: the hash input is
`"ucmx,yi1p1"`. -/
theorem C19_BuildHash_concatenation_witness :
    Post.BuildHash_data read_sample post_edit = some "ucmx,yi1p1" := by
  have h := (C19_BuildHash_concatenation id read_sample post_edit
    { m_string1 := some "en", m_string2 := some "c", m_string3 := some "m",
      m_string4 := some "TAGS", m_string5 := some "IMAGES", m_string7 := some "u" }
    ["x", "y"] ["i1"] (by decide) (by decide) (by decide)).1
  exact h.trans (by decide)

/-! ## Storage failures -/

/-- With a storage engine that does not fail and a connection with no open transaction, the
run of `ExistsScore` returns the answer of the query and leaves the connection as it was. -/
theorem ExistsScore_run_of_no_failure (db : ConsensusRepository) (address contentHash : String)
    (type : PocketTxType) (mempool : Bool) :
    ConsensusRepository.ExistsScore_run {} {} db address contentHash type mempool
      = ({}, CallResult.returned (ConsensusRepository.ExistsScore db address contentHash type mempool))
    := by
  unfold ConsensusRepository.ExistsScore_run ConsensusRepository.ExistsScore_sql
    ConsensusRepository.ExistsScore_step ConsensusRepository.ExistsScore TryTransactionStep
  cases h : (db.vScores.find?
      (ConsensusRepository.ExistsScore_where address contentHash type mempool)).isSome <;>
    simp [SQLiteDatabase.BeginTransaction, SQLiteDatabase.CommitTransaction, SQLITE_ROW,
      SQLITE_DONE, TryGetColumnInt]

/-- A store transaction that cannot begin reaches the caller of `TryTransactionStep` as an
exception, whatever the body would have answered. -/
theorem TryTransactionStep_of_begin_failure {α : Type} (answers : StorageAnswers)
    (db : SQLiteDatabase) (sql : CallResult α)
    (h : (SQLiteDatabase.BeginTransaction answers db).1 = false) :
    ∃ ex, (TryTransactionStep answers db sql).2 = CallResult.thrown ex := by
  unfold TryTransactionStep
  rcases hb : SQLiteDatabase.BeginTransaction answers db with ⟨ok, db2⟩
  rw [hb] at h
  simp only at h
  subst h
  exact ⟨_, rfl⟩

/-- A commit that fails reaches the caller of `TryTransactionStep` as an exception, after
`AbortTransaction` has run on the open transaction. -/
theorem TryTransactionStep_of_commit_failure {α : Type} (answers : StorageAnswers) (a : α)
    (hbegin : answers.beginOk = true) (hcommit : answers.commitOk = false) :
    TryTransactionStep answers {} (CallResult.returned a)
      = ((SQLiteDatabase.AbortTransaction answers
            { m_db := true, autocommit := false, m_connection_mutex := 0 }).2,
         CallResult.thrown "TryTransactionStep: can't commit transaction\n") := by
  unfold TryTransactionStep
  simp [SQLiteDatabase.BeginTransaction, SQLiteDatabase.CommitTransaction, hbegin, hcommit]

/-- C17, evaluated on the code: the store holds a comment-score of `"A"` on `"T"` and the
query `ExistsScore` finds it when the storage does not fail; when `sqlite3_step` fails with
`SQLITE_BUSY`, the run of `ExistsScore` returns the ordinary answer `false` to its caller
instead of an exception (the store transaction is committed, not aborted). A transaction
that cannot begin and a commit that fails do reach the caller as exceptions. -/
theorem C17_step_failure_answers_false :
    ConsensusRepository.ExistsScore env_score_in_mempool.ConsensusRepoInst "A" "T"
        ACTION_SCORE_COMMENT true = true
    ∧ ConsensusRepository.ExistsScore_run {} {} env_score_in_mempool.ConsensusRepoInst "A" "T"
        ACTION_SCORE_COMMENT true = ({}, CallResult.returned true)
    ∧ ConsensusRepository.ExistsScore_run { stepFailure := some SQLITE_BUSY } {}
        env_score_in_mempool.ConsensusRepoInst "A" "T" ACTION_SCORE_COMMENT true
      = ({}, CallResult.returned false)
    ∧ (ConsensusRepository.ExistsScore_run { beginOk := false } {}
        env_score_in_mempool.ConsensusRepoInst "A" "T" ACTION_SCORE_COMMENT true).2
      = CallResult.thrown "TryTransactionStep: can't begin transaction\n"
    ∧ (ConsensusRepository.ExistsScore_run { commitOk := false } {}
        env_score_in_mempool.ConsensusRepoInst "A" "T" ACTION_SCORE_COMMENT true).2
      = CallResult.thrown "TryTransactionStep: can't commit transaction\n" := by
  decide

/-! ## Monotonicity of the chain counters -/

theorem length_filter_le_length_filter_map (P : ViewRow → Bool) (f : ViewRow → ViewRow)
    (l : List ViewRow) (h : ∀ r ∈ l, P r = true → P (f r) = true) :
    (l.filter P).length ≤ ((l.map f).filter P).length := by
  induction l with
  | nil => simp
  | cons a l ih =>
    have ih1 := ih (fun r hr => h r (List.mem_cons_of_mem a hr))
    have ha := h a (List.mem_cons_self a l)
    rw [List.map_cons]
    by_cases hPa : P a = true
    · rw [List.filter_cons_of_pos hPa, List.filter_cons_of_pos (ha hPa)]
      simp only [List.length_cons]
      omega
    · rw [List.filter_cons_of_neg hPa]
      by_cases hPf : P (f a) = true
      · rw [List.filter_cons_of_pos hPf]
        simp only [List.length_cons]
        omega
      · rw [List.filter_cons_of_neg hPf]
        exact ih1

/-- A confirmed row of a view is left as it is by the confirmation of a version that opens a
new root. -/
theorem confirmRow_of_confirmed (view : List ViewRow) (txHash : String) (height : Int)
    (hnew : opensNewRoot view txHash) (r : ViewRow) (hr : r ∈ view)
    (hc : r.Height.isSome = true) :
    ConsensusRepository.confirmRow (ConsensusRepository.rootInView view txHash) txHash height r
      = r := by
  have hn := hnew r hr
  unfold ConsensusRepository.confirmRow
  by_cases h1 : r.Hash = some txHash
  · rw [hn (Or.inl h1)] at hc
    simp at hc
  · rw [if_neg h1]
    by_cases h2 : (ConsensusRepository.rootInView view txHash).isSome
        ∧ r.RootTxHash = ConsensusRepository.rootInView view txHash
    · rw [hn (Or.inr h2)] at hc
      simp at hc
    · rw [if_neg]
      intro h3
      exact h2 ⟨h3.1, h3.2.1⟩

/-- A counter whose clause asks for a confirmed row does not decrease when a version that
opens a new root is confirmed. -/
theorem GetCount_confirmInView_mono (P : ViewRow → Bool) (view : List ViewRow)
    (txHash : String) (height : Int)
    (hP : ∀ r, P r = true → r.Height.isSome = true)
    (hnew : opensNewRoot view txHash) (hsize : view.length < 2147483648) :
    ConsensusRepository.GetCount (view.filter P)
      ≤ ConsensusRepository.GetCount
          ((ConsensusRepository.confirmInView view txHash height).filter P) := by
  have hlen : (ConsensusRepository.confirmInView view txHash height).length = view.length := by
    unfold ConsensusRepository.confirmInView
    exact List.length_map _ _
  rw [GetCount_eq _ (lt_of_le_of_lt (List.length_filter_le _ _) hsize),
    GetCount_eq _ (lt_of_le_of_lt (List.length_filter_le _ _) (hlen ▸ hsize))]
  have := length_filter_le_length_filter_map P
    (ConsensusRepository.confirmRow (ConsensusRepository.rootInView view txHash) txHash height)
    view (fun r hr hPr => by
      rw [confirmRow_of_confirmed view txHash height hnew r hr (hP r hPr)]
      exact hPr)
  unfold ConsensusRepository.confirmInView
  exact_mod_cast this

/-- C14, the claim as stated fails: in the store `db_comment_with_edit` the actor `"A"` has one
counted comment, `"c1"`; confirming their edit `"c2"` of it at height 11 moves the
last-version flag to the edit, whose type is not 204, and both `CountChainCommentTime` and
`CountChainCommentHeight` fall from 1 to 0 for the window start 0. -/
theorem C14_counterexample :
    ConsensusRepository.CountChainCommentTime db_comment_with_edit "A" 0 = 1
    ∧ ConsensusRepository.CountChainCommentTime
        (ConsensusRepository.confirm db_comment_with_edit "c2" 11) "A" 0 = 0
    ∧ ConsensusRepository.CountChainCommentHeight db_comment_with_edit "A" 0 = 1
    ∧ ConsensusRepository.CountChainCommentHeight
        (ConsensusRepository.confirm db_comment_with_edit "c2" 11) "A" 0 = 0 := by
  decide

/-- C14, amended: for every actor and window start, confirming a version that opens a new
root (in each view its own row and the rows of its root are unconfirmed before) never
decreases the count of `CountChainCommentTime`, `CountChainCommentHeight`,
`CountChainScoreCommentTime`, `CountChainScoreCommentHeight`, `CountChainPostTime` and
`CountChainPostHeight`, the views holding fewer than 2^31 rows. -/
theorem C14_new_root_never_decreases_count (db : ConsensusRepository) (txHash : String)
    (height : Int) (address : String) (start : Int)
    (hComments : opensNewRoot db.vComments txHash)
    (hScores : opensNewRoot db.vScoreComments txHash)
    (hPosts : opensNewRoot db.vPosts txHash)
    (hsize : db.vComments.length < 2147483648 ∧ db.vScoreComments.length < 2147483648
      ∧ db.vPosts.length < 2147483648) :
    ConsensusRepository.CountChainCommentTime db address start
      ≤ ConsensusRepository.CountChainCommentTime
          (ConsensusRepository.confirm db txHash height) address start
    ∧ ConsensusRepository.CountChainCommentHeight db address start
      ≤ ConsensusRepository.CountChainCommentHeight
          (ConsensusRepository.confirm db txHash height) address start
    ∧ ConsensusRepository.CountChainScoreCommentTime db address start
      ≤ ConsensusRepository.CountChainScoreCommentTime
          (ConsensusRepository.confirm db txHash height) address start
    ∧ ConsensusRepository.CountChainScoreCommentHeight db address start
      ≤ ConsensusRepository.CountChainScoreCommentHeight
          (ConsensusRepository.confirm db txHash height) address start
    ∧ ConsensusRepository.CountChainPostTime db address start
      ≤ ConsensusRepository.CountChainPostTime
          (ConsensusRepository.confirm db txHash height) address start
    ∧ ConsensusRepository.CountChainPostHeight db address start
      ≤ ConsensusRepository.CountChainPostHeight
          (ConsensusRepository.confirm db txHash height) address start := by
  refine ⟨?_, ?_, ?_, ?_, ?_, ?_⟩
  · exact GetCount_confirmInView_mono _ db.vComments txHash height
      (fun r hr => by
        simp only [ConsensusRepository.CountChainCommentTime_where, Bool.and_eq_true] at hr
        exact hr.1.1.1.1) hComments hsize.1
  · exact GetCount_confirmInView_mono _ db.vComments txHash height
      (fun r hr => by
        simp only [ConsensusRepository.CountChainCommentHeight_where, Bool.and_eq_true] at hr
        exact hr.1.1.1.1) hComments hsize.1
  · exact GetCount_confirmInView_mono _ db.vScoreComments txHash height
      (fun r hr => by
        simp only [ConsensusRepository.CountChainScoreCommentTime_where,
          Bool.and_eq_true] at hr
        cases hh : r.Height <;> simp_all) hScores hsize.2.1
  · exact GetCount_confirmInView_mono _ db.vScoreComments txHash height
      (fun r hr => by
        simp only [ConsensusRepository.CountChainScoreCommentHeight_where,
          Bool.and_eq_true] at hr
        cases hh : r.Height <;> simp_all) hScores hsize.2.1
  · exact GetCount_confirmInView_mono _ db.vPosts txHash height
      (fun r hr => by
        simp only [ConsensusRepository.CountChainPostTime_where, Bool.and_eq_true] at hr
        exact hr.1.1.1) hPosts hsize.2.2
  · exact GetCount_confirmInView_mono _ db.vPosts txHash height
      (fun r hr => by
        simp only [ConsensusRepository.CountChainPostHeight_where, Bool.and_eq_true] at hr
        exact hr.1.1.1) hPosts hsize.2.2

/-- The amended C14 at the store `db_two_comments`: the second comment `"c3"` of `"A"` opens
a root of its own, and its confirmation at height 11 does not lower any of the six
counts. -/
theorem C14_new_root_never_decreases_count_witness :
    ConsensusRepository.CountChainCommentTime db_two_comments "A" 0
      ≤ ConsensusRepository.CountChainCommentTime
          (ConsensusRepository.confirm db_two_comments "c3" 11) "A" 0
    ∧ ConsensusRepository.CountChainCommentHeight db_two_comments "A" 0
      ≤ ConsensusRepository.CountChainCommentHeight
          (ConsensusRepository.confirm db_two_comments "c3" 11) "A" 0
    ∧ ConsensusRepository.CountChainScoreCommentTime db_two_comments "A" 0
      ≤ ConsensusRepository.CountChainScoreCommentTime
          (ConsensusRepository.confirm db_two_comments "c3" 11) "A" 0
    ∧ ConsensusRepository.CountChainScoreCommentHeight db_two_comments "A" 0
      ≤ ConsensusRepository.CountChainScoreCommentHeight
          (ConsensusRepository.confirm db_two_comments "c3" 11) "A" 0
    ∧ ConsensusRepository.CountChainPostTime db_two_comments "A" 0
      ≤ ConsensusRepository.CountChainPostTime
          (ConsensusRepository.confirm db_two_comments "c3" 11) "A" 0
    ∧ ConsensusRepository.CountChainPostHeight db_two_comments "A" 0
      ≤ ConsensusRepository.CountChainPostHeight
          (ConsensusRepository.confirm db_two_comments "c3" 11) "A" 0 :=
  C14_new_root_never_decreases_count db_two_comments "c3" 11 "A" 0
    (by unfold opensNewRoot; decide) (by unfold opensNewRoot; decide)
    (by unfold opensNewRoot; decide) (by decide)

/-! ## The chain indexer, row by row -/

theorem IndexRow_Hash (root : Option String) (blockHash : String) (height : Int)
    (t : TransactionIndexingInfo) (r : VersionRow) :
    (IndexRow root blockHash height t r).Hash = r.Hash := by
  unfold IndexRow ChainRepository.SetLast_row ChainRepository.ClearOldLast_row
    ChainRepository.UpdateTransactionHeight_row
  split_ifs <;> rfl

theorem IndexRow_RootHash (root : Option String) (blockHash : String) (height : Int)
    (t : TransactionIndexingInfo) (r : VersionRow) :
    (IndexRow root blockHash height t r).RootHash = r.RootHash := by
  unfold IndexRow ChainRepository.SetLast_row ChainRepository.ClearOldLast_row
    ChainRepository.UpdateTransactionHeight_row
  split_ifs <;> rfl

/-- The root of a version is not changed by a row-wise update that keeps the hash and the
root of every row. -/
theorem rootOf_map (f : VersionRow → VersionRow) (hH : ∀ r, (f r).Hash = r.Hash)
    (hR : ∀ r, (f r).RootHash = r.RootHash) (rows : List VersionRow) (txHash : String) :
    ChainRepository.rootOf (rows.map f) txHash = ChainRepository.rootOf rows txHash := by
  unfold ChainRepository.rootOf
  induction rows with
  | nil => rfl
  | cons a rows ih =>
    rw [List.map_cons, List.find?_cons, List.find?_cons, hH a]
    cases h : (a.Hash == txHash)
    · exact ih
    · exact hR a

/-- In a store keyed by the hash, the root of the version `r.Hash` is the root of `r`. -/
theorem rootOf_of_mem (rows : List VersionRow) (hKey : (rows.map (fun r => r.Hash)).Nodup)
    (r : VersionRow) (hr : r ∈ rows) :
    ChainRepository.rootOf rows r.Hash = r.RootHash := by
  unfold ChainRepository.rootOf
  induction rows with
  | nil => cases hr
  | cons a rows ih =>
    rw [List.map_cons, List.nodup_cons] at hKey
    rw [List.find?_cons]
    rcases List.mem_cons.mp hr with rfl | hr1
    · simp
    · have hne : a.Hash ≠ r.Hash := by
        intro h
        exact hKey.1 (h ▸ List.mem_map_of_mem (fun r => r.Hash) hr1)
      have : (a.Hash == r.Hash) = false := by simpa using hne
      rw [this]
      exact ih hKey.2 hr1

theorem IndexTransaction_Transactions (repo : ChainRepository) (blockHash : String)
    (height : Int) (s : ChainState) (t : TransactionIndexingInfo) :
    (ChainRepository.IndexTransaction repo blockHash height s t).Transactions
      = s.Transactions.map
          (IndexRow (ChainRepository.rootOf s.Transactions t.Hash) blockHash height t) := by
  have hroot : ChainRepository.rootOf
      (ChainRepository.UpdateTransactionHeight blockHash t.BlockNumber height t.Hash
        s.Transactions) t.Hash = ChainRepository.rootOf s.Transactions t.Hash := by
    unfold ChainRepository.UpdateTransactionHeight
    apply rootOf_map
    · intro r
      unfold ChainRepository.UpdateTransactionHeight_row
      split_ifs <;> rfl
    · intro r
      unfold ChainRepository.UpdateTransactionHeight_row
      split_ifs <;> rfl
  unfold ChainRepository.IndexTransaction
  simp only
  by_cases hv : ChainRepository.versioned t = true
  · rw [if_pos hv]
    unfold ChainRepository.IndexLast ChainRepository.SetLast ChainRepository.ClearOldLast
    rw [hroot]
    unfold ChainRepository.UpdateTransactionHeight
    rw [List.map_map, List.map_map]
    apply List.map_congr_left
    intro r _
    simp only [Function.comp, IndexRow, if_pos hv]
  · rw [if_neg hv]
    unfold ChainRepository.UpdateTransactionHeight
    apply List.map_congr_left
    intro r _
    simp only [IndexRow, if_neg hv]

theorem IndexTransaction_TxOutputs (repo : ChainRepository) (blockHash : String)
    (height : Int) (s : ChainState) (t : TransactionIndexingInfo) :
    (ChainRepository.IndexTransaction repo blockHash height s t).TxOutputs
      = s.TxOutputs.map (ChainRepository.UpdateTransactionOutputs_row repo t height) := rfl

theorem rootOf_IndexTransaction (repo : ChainRepository) (blockHash : String)
    (height : Int) (s : ChainState) (t : TransactionIndexingInfo) (txHash : String) :
    ChainRepository.rootOf
        (ChainRepository.IndexTransaction repo blockHash height s t).Transactions txHash
      = ChainRepository.rootOf s.Transactions txHash := by
  rw [IndexTransaction_Transactions]
  exact rootOf_map _ (IndexRow_Hash _ _ _ _) (IndexRow_RootHash _ _ _ _) _ _

theorem IndexSteps_Transactions (repo : ChainRepository) (steps : List IndexStep)
    (s : ChainState) :
    (IndexSteps repo steps s).Transactions
      = s.Transactions.map (IndexRows (ChainRepository.rootOf s.Transactions) steps) := by
  induction steps generalizing s with
  | nil =>
    unfold IndexSteps IndexRows
    simp
  | cons st steps ih =>
    have h1 : IndexSteps repo (st :: steps) s
        = IndexSteps repo steps
            (ChainRepository.IndexTransaction repo st.1 st.2.1 s st.2.2) := rfl
    rw [h1, ih, IndexTransaction_Transactions, List.map_map]
    have hroots : ChainRepository.rootOf
        (s.Transactions.map
          (IndexRow (ChainRepository.rootOf s.Transactions st.2.2.Hash) st.1 st.2.1 st.2.2))
        = ChainRepository.rootOf s.Transactions := by
      funext txHash
      exact rootOf_map _ (IndexRow_Hash _ _ _ _) (IndexRow_RootHash _ _ _ _) _ _
    rw [hroots]
    apply List.map_congr_left
    intro r _
    rfl

theorem IndexSteps_TxOutputs (repo : ChainRepository) (steps : List IndexStep)
    (s : ChainState) :
    (IndexSteps repo steps s).TxOutputs = s.TxOutputs.map (MarkRows repo steps) := by
  induction steps generalizing s with
  | nil =>
    unfold IndexSteps MarkRows
    simp
  | cons st steps ih =>
    have h1 : IndexSteps repo (st :: steps) s
        = IndexSteps repo steps
            (ChainRepository.IndexTransaction repo st.1 st.2.1 s st.2.2) := rfl
    rw [h1, ih, IndexTransaction_TxOutputs, List.map_map]
    apply List.map_congr_left
    intro r _
    rfl

theorem IndexBlock_eq_IndexSteps (repo : ChainRepository) (blockHash : String) (height : Int)
    (txs : List TransactionIndexingInfo) (s : ChainState) :
    ChainRepository.IndexBlock repo blockHash height txs s
      = IndexSteps repo (txs.map (fun t => (blockHash, height, t))) s := by
  unfold ChainRepository.IndexBlock IndexSteps
  rw [List.foldl_map]

theorem IndexSteps_append (repo : ChainRepository) (s1 s2 : List IndexStep) (s : ChainState) :
    IndexSteps repo (s1 ++ s2) s = IndexSteps repo s2 (IndexSteps repo s1 s) := by
  unfold IndexSteps
  rw [List.foldl_append]

theorem IndexBlocks_eq_IndexSteps (repo : ChainRepository)
    (blocks : List ChainRepository.IndexedBlock) (s : ChainState) :
    ChainRepository.IndexBlocks repo blocks s = IndexSteps repo (indexSteps blocks) s := by
  induction blocks generalizing s with
  | nil => rfl
  | cons b blocks ih =>
    have h1 : ChainRepository.IndexBlocks repo (b :: blocks) s
        = ChainRepository.IndexBlocks repo blocks
            (ChainRepository.IndexBlock repo b.blockHash b.height b.txs s) := rfl
    have h2 : indexSteps (b :: blocks)
        = b.txs.map (fun t => (b.blockHash, b.height, t)) ++ indexSteps blocks := by
      unfold indexSteps
      rw [List.flatMap_cons]
    rw [h1, ih, h2, IndexSteps_append, IndexBlock_eq_IndexSteps]

theorem IndexRows_nil (roots : String → Option String) (r : VersionRow) :
    IndexRows roots [] r = r := rfl

theorem IndexRows_cons (roots : String → Option String) (st : IndexStep)
    (steps : List IndexStep) (r : VersionRow) :
    IndexRows roots (st :: steps) r
      = IndexRows roots steps (IndexRow (roots st.2.2.Hash) st.1 st.2.1 st.2.2 r) := rfl

theorem IndexRows_append (roots : String → Option String) (s1 s2 : List IndexStep)
    (r : VersionRow) :
    IndexRows roots (s1 ++ s2) r = IndexRows roots s2 (IndexRows roots s1 r) := by
  unfold IndexRows
  rw [List.foldl_append]

theorem IndexRows_Hash (roots : String → Option String) (steps : List IndexStep)
    (r : VersionRow) : (IndexRows roots steps r).Hash = r.Hash := by
  induction steps generalizing r with
  | nil => rfl
  | cons st steps ih => rw [IndexRows_cons, ih, IndexRow_Hash]

theorem IndexRows_RootHash (roots : String → Option String) (steps : List IndexStep)
    (r : VersionRow) : (IndexRows roots steps r).RootHash = r.RootHash := by
  induction steps generalizing r with
  | nil => rfl
  | cons st steps ih => rw [IndexRows_cons, ih, IndexRow_RootHash]

/-- A step leaves a row alone when the row is neither the indexed version nor a version of
its root. -/
theorem IndexRow_of_other (root : Option String) (blockHash : String) (height : Int)
    (t : TransactionIndexingInfo) (r : VersionRow) (hne : r.Hash ≠ t.Hash)
    (hroot : r.RootHash ≠ root) : IndexRow root blockHash height t r = r := by
  unfold IndexRow ChainRepository.SetLast_row ChainRepository.ClearOldLast_row
    ChainRepository.UpdateTransactionHeight_row
  simp [hne, hroot]

/-- A step leaves an unconfirmed row alone when the row is not the indexed version. -/
theorem IndexRow_of_unconfirmed (root : Option String) (blockHash : String) (height : Int)
    (t : TransactionIndexingInfo) (r : VersionRow) (hne : r.Hash ≠ t.Hash)
    (hh : r.Height = none) : IndexRow root blockHash height t r = r := by
  unfold IndexRow ChainRepository.SetLast_row ChainRepository.ClearOldLast_row
    ChainRepository.UpdateTransactionHeight_row
  simp [hne, hh]

/-- A versioned step confirms the indexed version and gives it the flag. -/
theorem IndexRow_of_self (root : Option String) (blockHash : String) (height : Int)
    (t : TransactionIndexingInfo) (r : VersionRow) (he : r.Hash = t.Hash)
    (hv : ChainRepository.versioned t = true) :
    IndexRow root blockHash height t r
      = { r with Height := some height, BlockHash := some blockHash,
                 BlockNum := some t.BlockNumber, IsLast := true } := by
  unfold IndexRow ChainRepository.SetLast_row ChainRepository.ClearOldLast_row
    ChainRepository.UpdateTransactionHeight_row
  simp [he, hv]

/-- A step that is not versioned confirms the indexed version and leaves its flag. -/
theorem IndexRow_of_self_plain (root : Option String) (blockHash : String) (height : Int)
    (t : TransactionIndexingInfo) (r : VersionRow) (he : r.Hash = t.Hash)
    (hv : ChainRepository.versioned t = false) :
    IndexRow root blockHash height t r
      = { r with Height := some height, BlockHash := some blockHash,
                 BlockNum := some t.BlockNumber } := by
  unfold IndexRow ChainRepository.UpdateTransactionHeight_row
  simp [he, hv]

/-- A versioned step takes the flag from the other confirmed versions of its root. -/
theorem IndexRow_of_sibling (R : String) (blockHash : String) (height : Int)
    (t : TransactionIndexingInfo) (r : VersionRow) (hne : r.Hash ≠ t.Hash)
    (hroot : r.RootHash = some R) (hv : ChainRepository.versioned t = true) :
    IndexRow (some R) blockHash height t r
      = if r.Height.isSome then { r with IsLast := false } else r := by
  unfold IndexRow ChainRepository.SetLast_row ChainRepository.ClearOldLast_row
    ChainRepository.UpdateTransactionHeight_row
  by_cases hh : r.Height.isSome = true <;> simp [hne, hroot, hv, hh]

theorem any_congr_of_mem (p q : VersionRow → Bool) (l : List VersionRow)
    (h : ∀ r ∈ l, p r = q r) : l.any p = l.any q := by
  induction l with
  | nil => rfl
  | cons a l ih =>
    rw [List.any_cons, List.any_cons, h a (List.mem_cons_self _ _),
      ih (fun r hr => h r (List.mem_cons_of_mem _ hr))]

theorem countP_hash_eq_one (rows : List VersionRow)
    (hKey : (rows.map (fun r => r.Hash)).Nodup) (x : VersionRow) (hx : x ∈ rows) :
    rows.countP (fun r => r.Hash == x.Hash) = 1 := by
  induction rows with
  | nil => cases hx
  | cons a rows ih =>
    rw [List.map_cons, List.nodup_cons] at hKey
    rcases List.mem_cons.mp hx with rfl | hx1
    · rw [List.countP_cons_of_pos _ _ (by simp)]
      have : rows.countP (fun r => r.Hash == x.Hash) = 0 := by
        rw [List.countP_eq_zero]
        intro r hr hrx
        apply hKey.1
        have : r.Hash = x.Hash := by simpa using hrx
        rw [← this]
        exact List.mem_map_of_mem (fun r => r.Hash) hr
      omega
    · have hne : a.Hash ≠ x.Hash := by
        intro h
        exact hKey.1 (h ▸ List.mem_map_of_mem (fun r => r.Hash) hx1)
      rw [List.countP_cons_of_neg _ _ (by simpa using hne)]
      exact ih hKey.2 hx1

/-- A version with a root has a row. -/
theorem exists_row_of_rootOf (rows : List VersionRow) (txHash : String) (R : String)
    (h : ChainRepository.rootOf rows txHash = some R) :
    ∃ x ∈ rows, x.Hash = txHash ∧ x.RootHash = some R := by
  unfold ChainRepository.rootOf at h
  cases hf : rows.find? (fun r => r.Hash == txHash) with
  | none => rw [hf] at h; cases h
  | some x =>
    rw [hf] at h
    refine ⟨x, List.mem_of_find?_eq_some hf, ?_, h⟩
    have := List.find?_some hf
    simpa using this

/-- One step of the indexer keeps the last pointers in order. -/
theorem LastPointerOk_IndexRow (rows : List VersionRow)
    (hKey : (rows.map (fun r => r.Hash)).Nodup) (hInv : LastPointerOk rows)
    (blockHash : String) (height : Int) (t : TransactionIndexingInfo)
    (hV : (ChainRepository.rootOf rows t.Hash).isSome → ChainRepository.versioned t = true) :
    LastPointerOk
      (rows.map (IndexRow (ChainRepository.rootOf rows t.Hash) blockHash height t)) := by
  intro R
  rw [List.countP_map, List.any_map]
  by_cases hR : ChainRepository.rootOf rows t.Hash = some R
  · -- the step touches the root `R`
    have hv := hV (by rw [hR]; rfl)
    obtain ⟨x, hx, hxh, hxr⟩ := exists_row_of_rootOf rows t.Hash R hR
    rw [hR]
    have hlast : ∀ r ∈ rows,
        (lastOf R ∘ IndexRow (some R) blockHash height t) r = (r.Hash == x.Hash) := by
      intro r hr
      simp only [Function.comp]
      by_cases he : r.Hash = t.Hash
      · have hrr : r.RootHash = some R := by
          rw [← rootOf_of_mem rows hKey r hr, he, hR]
        rw [IndexRow_of_self _ _ _ _ _ he hv]
        simp [lastOf, hrr, he, hxh]
      · have hne : (r.Hash == x.Hash) = false := by simpa [hxh] using he
        rw [hne]
        by_cases hrr : r.RootHash = some R
        · rw [IndexRow_of_sibling R _ _ _ _ he hrr hv]
          cases hh : r.Height <;> simp [lastOf, hh]
        · rw [IndexRow_of_other _ _ _ _ _ he hrr]
          have hb : (r.RootHash == some R) = false := by simpa using hrr
          simp [lastOf, hb]
    have hany : rows.any (confirmedOf R ∘ IndexRow (some R) blockHash height t) = true := by
      rw [List.any_eq_true]
      refine ⟨x, hx, ?_⟩
      simp only [Function.comp]
      rw [IndexRow_of_self _ _ _ _ _ hxh hv]
      simp [confirmedOf, hxr]
    rw [hany, if_pos rfl, List.countP_congr (fun r hr => by rw [hlast r hr])]
    exact countP_hash_eq_one rows hKey x hx
  · -- the rows of the root `R` are left alone
    have hsame : ∀ r ∈ rows, r.RootHash = some R →
        IndexRow (ChainRepository.rootOf rows t.Hash) blockHash height t r = r := by
      intro r hr hrr
      apply IndexRow_of_other
      · intro he
        apply hR
        rw [← he, rootOf_of_mem rows hKey r hr, hrr]
      · rw [hrr]
        exact fun h => hR h.symm
    have h1 : ∀ r ∈ rows,
        (lastOf R ∘ IndexRow (ChainRepository.rootOf rows t.Hash) blockHash height t) r
          = lastOf R r := by
      intro r hr
      simp only [Function.comp]
      by_cases hrr : r.RootHash = some R
      · rw [hsame r hr hrr]
      · have hb : (r.RootHash == some R) = false := by simpa using hrr
        simp [lastOf, IndexRow_RootHash, hb]
    have h2 : ∀ r ∈ rows,
        (confirmedOf R ∘ IndexRow (ChainRepository.rootOf rows t.Hash) blockHash height t) r
          = confirmedOf R r := by
      intro r hr
      simp only [Function.comp]
      by_cases hrr : r.RootHash = some R
      · rw [hsame r hr hrr]
      · have hb : (r.RootHash == some R) = false := by simpa using hrr
        simp [confirmedOf, IndexRow_RootHash, hb]
    rw [List.countP_congr (fun r hr => by rw [h1 r hr]), hInv R, any_congr_of_mem _ _ _ h2]

/-- The indexer keeps the last pointers in order. -/
theorem LastPointerOk_IndexSteps (repo : ChainRepository) (steps : List IndexStep)
    (s : ChainState) (hKey : (s.Transactions.map (fun r => r.Hash)).Nodup)
    (hInv : LastPointerOk s.Transactions)
    (hV : ∀ st ∈ steps, (ChainRepository.rootOf s.Transactions st.2.2.Hash).isSome →
      ChainRepository.versioned st.2.2 = true) :
    LastPointerOk (IndexSteps repo steps s).Transactions := by
  induction steps generalizing s with
  | nil => exact hInv
  | cons st steps ih =>
    have h1 : IndexSteps repo (st :: steps) s
        = IndexSteps repo steps
            (ChainRepository.IndexTransaction repo st.1 st.2.1 s st.2.2) := rfl
    rw [h1]
    apply ih
    · rw [IndexTransaction_Transactions, List.map_map]
      have : ((fun r : VersionRow => r.Hash)
          ∘ IndexRow (ChainRepository.rootOf s.Transactions st.2.2.Hash) st.1 st.2.1 st.2.2)
          = fun r => r.Hash := by
        funext r
        exact IndexRow_Hash _ _ _ _ _
      rw [this]
      exact hKey
    · rw [IndexTransaction_Transactions]
      exact LastPointerOk_IndexRow _ hKey hInv _ _ _ (hV st (List.mem_cons_self _ _))
    · intro u hu
      rw [rootOf_IndexTransaction]
      exact hV u (List.mem_cons_of_mem _ hu)

/-- After the steps, the confirmed version of a root holding the flag is the version indexed
by the last step that touches the root. -/
theorem lastOf_IndexRows (rows : List VersionRow)
    (hKey : (rows.map (fun r => r.Hash)).Nodup) (s1 s2 : List IndexStep) (st : IndexStep)
    (R : String) (hR : ChainRepository.rootOf rows st.2.2.Hash = some R)
    (hv : ChainRepository.versioned st.2.2 = true)
    (hlater : ∀ u ∈ s2, ChainRepository.rootOf rows u.2.2.Hash ≠ some R)
    (r : VersionRow) (hr : r ∈ rows) :
    lastOf R (IndexRows (ChainRepository.rootOf rows) (s1 ++ st :: s2) r) = true
      ↔ r.Hash = st.2.2.Hash := by
  rw [IndexRows_append, IndexRows_cons, hR]
  by_cases hrR : r.RootHash = some R
  · have hrest : ∀ (l : List IndexStep) (b : VersionRow), b.Hash = r.Hash →
        b.RootHash = some R → (∀ u ∈ l, ChainRepository.rootOf rows u.2.2.Hash ≠ some R) →
        IndexRows (ChainRepository.rootOf rows) l b = b := by
      intro l
      induction l with
      | nil => intro b _ _ _; rfl
      | cons u l ih =>
        intro b hb hbr hl
        have hu := hl u (List.mem_cons_self _ _)
        have hstep :
            IndexRow (ChainRepository.rootOf rows u.2.2.Hash) u.1 u.2.1 u.2.2 b = b := by
          apply IndexRow_of_other
          · intro he
            apply hu
            rw [← he, hb, rootOf_of_mem rows hKey r hr, hrR]
          · rw [hbr]
            exact fun h => hu h.symm
        rw [IndexRows_cons, hstep]
        exact ih b hb hbr (fun w hw => hl w (List.mem_cons_of_mem _ hw))
    have haH : (IndexRows (ChainRepository.rootOf rows) s1 r).Hash = r.Hash :=
      IndexRows_Hash _ _ _
    have haR : (IndexRows (ChainRepository.rootOf rows) s1 r).RootHash = some R := by
      rw [IndexRows_RootHash, hrR]
    rw [hrest s2 _ (by rw [IndexRow_Hash, haH]) (by rw [IndexRow_RootHash, haR]) hlater]
    by_cases he : r.Hash = st.2.2.Hash
    · rw [IndexRow_of_self _ _ _ _ _ (haH.trans he) hv]
      simp [lastOf, haR, he]
    · rw [IndexRow_of_sibling R _ _ _ _ (by rw [haH]; exact he) haR hv]
      cases hh : (IndexRows (ChainRepository.rootOf rows) s1 r).Height <;>
        simp [lastOf, hh, he]
  · have hb : ((IndexRows (ChainRepository.rootOf rows) s2
        (IndexRow (some R) st.1 st.2.1 st.2.2
          (IndexRows (ChainRepository.rootOf rows) s1 r))).RootHash == some R) = false := by
      rw [IndexRows_RootHash, IndexRow_RootHash, IndexRows_RootHash]
      simpa using hrR
    have hne : r.Hash ≠ st.2.2.Hash := by
      intro he
      apply hrR
      rw [← rootOf_of_mem rows hKey r hr, he, hR]
    simp [lastOf, hb, hne]

/-! ## The last pointer after `IndexBlock` -/

/-- The last-version step is taken for the whole entity family, the server ping and the
complaint included, and for no other category. -/
theorem versioned_iff_ofEntityFamily (t : TransactionIndexingInfo) :
    ChainRepository.versioned t = true ↔ ofEntityFamily t := by
  simp only [ChainRepository.versioned, ofEntityFamily, TransactionIndexingInfo.IsAccount,
    TransactionIndexingInfo.IsContent, TransactionIndexingInfo.IsComment,
    TransactionIndexingInfo.IsBlocking, TransactionIndexingInfo.IsSubscribe,
    TransactionIndexingInfo.IsActionScore, ACCOUNT_USER, ACCOUNT_VIDEO_SERVER,
    ACCOUNT_MESSAGE_SERVER, ACCOUNT_SETTING, CONTENT_POST, CONTENT_VIDEO, CONTENT_TRANSLATE,
    CONTENT_SERVERPING, CONTENT_COMMENT, CONTENT_COMMENT_EDIT, CONTENT_COMMENT_DELETE,
    CONTENT_DELETE, ACTION_SCORE_CONTENT, ACTION_SCORE_COMMENT, ACTION_SUBSCRIBE,
    ACTION_SUBSCRIBE_PRIVATE, ACTION_SUBSCRIBE_CANCEL, ACTION_BLOCKING, ACTION_BLOCKING_CANCEL,
    ACTION_COMPLAIN, Bool.or_eq_true, beq_iff_eq]
  delta PocketTxType
  omega

/-- C15: in a store keyed by the transaction hash whose last pointers are in order and which
keeps a root for the entity family only (every indexed transaction whose row has a root is of
a category from 100 to 103, 200 to 207 or 300 to 307, complaints and server pings included),
after `IndexBlock` exactly one confirmed row of every root `R` holds `IsLast`, and none when
`R` has no confirmed version; and for a transaction `t` of the block with root `R` that no
later transaction of the block touches, the confirmed `IsLast` row of `R` is the row of `t`,
so a root touched twice ends with the later version as its only `IsLast` row. -/
theorem C15_IndexBlock_last_pointer (repo : ChainRepository) (blockHash : String)
    (height : Int) (txs : List TransactionIndexingInfo) (s : ChainState)
    (hKey : (s.Transactions.map (fun r => r.Hash)).Nodup)
    (hInv : LastPointerOk s.Transactions)
    (hV : ∀ t ∈ txs, (ChainRepository.rootOf s.Transactions t.Hash).isSome →
      ofEntityFamily t) :
    LastPointerOk (ChainRepository.IndexBlock repo blockHash height txs s).Transactions
    ∧ ∀ (earlier later : List TransactionIndexingInfo) (t : TransactionIndexingInfo)
        (R : String), txs = earlier ++ t :: later →
        ChainRepository.rootOf s.Transactions t.Hash = some R →
        (∀ u ∈ later, ChainRepository.rootOf s.Transactions u.Hash ≠ some R) →
        ∀ r ∈ (ChainRepository.IndexBlock repo blockHash height txs s).Transactions,
          (lastOf R r = true ↔ r.Hash = t.Hash) := by
  rw [IndexBlock_eq_IndexSteps]
  constructor
  · apply LastPointerOk_IndexSteps repo _ s hKey hInv
    intro st hst
    obtain ⟨t, ht, rfl⟩ := List.mem_map.mp hst
    exact fun hroot => (versioned_iff_ofEntityFamily t).mpr (hV t ht hroot)
  · intro earlier later t R htxs hR hlater r hr
    rw [IndexSteps_Transactions] at hr
    obtain ⟨r0, hr0, rfl⟩ := List.mem_map.mp hr
    rw [htxs, List.map_append, List.map_cons, IndexRows_Hash]
    apply lastOf_IndexRows s.Transactions hKey _ _ (blockHash, height, t) R hR
    · apply (versioned_iff_ofEntityFamily t).mpr
      apply hV t _ (by rw [hR]; rfl)
      rw [htxs]
      exact List.mem_append_right _ (List.mem_cons_self _ _)
    · intro u hu
      obtain ⟨w, hw, rfl⟩ := List.mem_map.mp hu
      exact hlater w hw
    · exact hr0

/-- C15 at the store `chain_post_with_edits`: the block `block_two_edits` confirms at
height 9 two edits of the post `"p1"` and, between them, the complaint `"k1"`; afterwards the
last pointers are in order, the confirmed `IsLast` row of the root `"p1"` is the later edit
`"p3"` and the one of the root `"k1"` is the complaint. -/
theorem C15_IndexBlock_last_pointer_witness :
    LastPointerOk chain_post_with_edits.Transactions
    ∧ LastPointerOk
        (ChainRepository.IndexBlock repo_sample "b9" 9 block_two_edits
          chain_post_with_edits).Transactions
    ∧ (∀ r ∈ (ChainRepository.IndexBlock repo_sample "b9" 9 block_two_edits
          chain_post_with_edits).Transactions, (lastOf "p1" r = true ↔ r.Hash = "p3"))
    ∧ (∀ r ∈ (ChainRepository.IndexBlock repo_sample "b9" 9 block_two_edits
          chain_post_with_edits).Transactions, (lastOf "k1" r = true ↔ r.Hash = "k1"))
    ∧ (ChainRepository.IndexBlock repo_sample "b9" 9 block_two_edits
          chain_post_with_edits).Transactions
        = [{ Hash := "p1", RootHash := some "p1", Height := some 5, BlockHash := some "b5",
             BlockNum := some 0, IsLast := false },
           { Hash := "p2", RootHash := some "p1", Height := some 9, BlockHash := some "b9",
             BlockNum := some 0, IsLast := false },
           { Hash := "p3", RootHash := some "p1", Height := some 9, BlockHash := some "b9",
             BlockNum := some 2, IsLast := true },
           { Hash := "k1", RootHash := some "k1", Height := some 9, BlockHash := some "b9",
             BlockNum := some 1, IsLast := true }] := by
  have hInv : LastPointerOk chain_post_with_edits.Transactions := by
    intro R
    by_cases hR : R = "p1"
    · subst hR
      decide
    · have hb : (some "p1" == some R) = false := by
        simpa using fun h : "p1" = R => hR h.symm
      simp [chain_post_with_edits, lastOf, confirmedOf, hb]
  have h := C15_IndexBlock_last_pointer repo_sample "b9" 9 block_two_edits
    chain_post_with_edits (by decide) hInv (by unfold ofEntityFamily; decide)
  exact ⟨hInv, h.1,
    h.2 [{ Hash := "p2", BlockNumber := 0, Type_ := CONTENT_POST },
         { Hash := "k1", BlockNumber := 1, Type_ := ACTION_COMPLAIN }] []
      { Hash := "p3", BlockNumber := 2, Type_ := CONTENT_POST } "p1" rfl (by decide)
      (by intro u hu; cases hu),
    h.2 [{ Hash := "p2", BlockNumber := 0, Type_ := CONTENT_POST }]
      [{ Hash := "p3", BlockNumber := 2, Type_ := CONTENT_POST }]
      { Hash := "k1", BlockNumber := 1, Type_ := ACTION_COMPLAIN } "k1" rfl (by decide)
      (by decide),
    by decide⟩

/-! ## Rollback and indexing again -/

/-- What a step does to a row that is not the indexed version: only the flag can change. -/
theorem IndexRow_fields_of_ne (root : Option String) (blockHash : String) (height : Int)
    (t : TransactionIndexingInfo) (r : VersionRow) (hne : r.Hash ≠ t.Hash) :
    (IndexRow root blockHash height t r).Height = r.Height
    ∧ (IndexRow root blockHash height t r).BlockHash = r.BlockHash
    ∧ (IndexRow root blockHash height t r).BlockNum = r.BlockNum
    ∧ (IndexRow root blockHash height t r).IsLast
        = (r.IsLast && !(r.Height.isSome
            && (ChainRepository.versioned t && root.isSome && (root == r.RootHash)))) := by
  unfold IndexRow ChainRepository.SetLast_row ChainRepository.ClearOldLast_row
    ChainRepository.UpdateTransactionHeight_row
  by_cases hv : ChainRepository.versioned t = true
  · by_cases hc : root.isSome = true ∧ r.RootHash = root ∧ r.Height.isSome = true
    · have h3 : (root == r.RootHash) = true := by simp [hc.2.1]
      simp [hne, hv, hc.1, hc.2.1, hc.2.2]
    · simp only [if_neg hne, if_pos hv]
      have hc2 : ¬ (r.Hash ≠ t.Hash ∧ root.isSome = true ∧ r.RootHash = root
          ∧ r.Height.isSome = true) := fun h => hc h.2
      rw [if_neg hc2, if_neg hne]
      refine ⟨rfl, rfl, rfl, ?_⟩
      by_cases h1 : root.isSome = true
      · by_cases h2 : r.RootHash = root
        · have h3 : r.Height.isSome = false := by
            simpa using fun h => hc ⟨h1, h2, h⟩
          simp [h3]
        · have : (root == r.RootHash) = false := by
            simpa using fun h : root = r.RootHash => h2 h.symm
          simp [this]
      · have : root.isSome = false := by simpa using h1
        simp [this]
  · have hv1 : ChainRepository.versioned t = false := by simpa using hv
    simp [hne, hv1]

/-- The rows the steps do not index keep their height and block position; they lose the
flag when they are confirmed and a versioned step touches their root. -/
theorem IndexRows_fields_of_absent (roots : String → Option String) (steps : List IndexStep)
    (r : VersionRow) (habs : ∀ st ∈ steps, r.Hash ≠ st.2.2.Hash) :
    (IndexRows roots steps r).Height = r.Height
    ∧ (IndexRows roots steps r).BlockHash = r.BlockHash
    ∧ (IndexRows roots steps r).BlockNum = r.BlockNum
    ∧ (IndexRows roots steps r).IsLast
        = (r.IsLast && !(r.Height.isSome && touches roots steps r.RootHash)) := by
  induction steps generalizing r with
  | nil =>
    refine ⟨rfl, rfl, rfl, ?_⟩
    simp [IndexRows_nil, touches]
  | cons st steps ih =>
    have hne := habs st (List.mem_cons_self _ _)
    obtain ⟨h1, h2, h3, h4⟩ :=
      IndexRow_fields_of_ne (roots st.2.2.Hash) st.1 st.2.1 st.2.2 r hne
    have hH := IndexRow_Hash (roots st.2.2.Hash) st.1 st.2.1 st.2.2 r
    have hR := IndexRow_RootHash (roots st.2.2.Hash) st.1 st.2.1 st.2.2 r
    obtain ⟨i1, i2, i3, i4⟩ := ih (IndexRow (roots st.2.2.Hash) st.1 st.2.1 st.2.2 r)
      (fun u hu => by rw [hH]; exact habs u (List.mem_cons_of_mem _ hu))
    rw [IndexRows_cons]
    refine ⟨i1.trans h1, i2.trans h2, i3.trans h3, ?_⟩
    rw [i4, h4, h1, hR]
    have ht : touches roots (st :: steps) r.RootHash
        = ((ChainRepository.versioned st.2.2 && (roots st.2.2.Hash).isSome
            && (roots st.2.2.Hash == r.RootHash)) || touches roots steps r.RootHash) := by
      unfold touches
      rw [List.any_cons]
    rw [ht]
    cases r.IsLast <;> cases r.Height.isSome <;> cases ChainRepository.versioned st.2.2 <;>
      cases (roots st.2.2.Hash).isSome <;> cases (roots st.2.2.Hash == r.RootHash) <;>
      cases touches roots steps r.RootHash <;> rfl

/-- The steps give the same row to two mempool rows of the same version. -/
theorem IndexRows_congr_of_present (roots : String → Option String) (steps : List IndexStep)
    (r r2 : VersionRow) (hH : r.Hash = r2.Hash) (hR : r.RootHash = r2.RootHash)
    (h1 : r.Height = none) (h2 : r2.Height = none) (l1 : r.IsLast = false)
    (l2 : r2.IsLast = false) (hex : ∃ st ∈ steps, st.2.2.Hash = r.Hash) :
    IndexRows roots steps r = IndexRows roots steps r2 := by
  induction steps with
  | nil =>
    obtain ⟨st, hst, _⟩ := hex
    cases hst
  | cons st steps ih =>
    rw [IndexRows_cons, IndexRows_cons]
    by_cases he : r.Hash = st.2.2.Hash
    · have he2 : r2.Hash = st.2.2.Hash := hH ▸ he
      have : IndexRow (roots st.2.2.Hash) st.1 st.2.1 st.2.2 r
          = IndexRow (roots st.2.2.Hash) st.1 st.2.1 st.2.2 r2 := by
        cases hv : ChainRepository.versioned st.2.2
        · rw [IndexRow_of_self_plain _ _ _ _ _ he hv, IndexRow_of_self_plain _ _ _ _ _ he2 hv]
          apply VersionRow.ext <;> simp [hH, hR, l1, l2]
        · rw [IndexRow_of_self _ _ _ _ _ he hv, IndexRow_of_self _ _ _ _ _ he2 hv]
          apply VersionRow.ext <;> simp [hH, hR]
      rw [this]
    · have he2 : r2.Hash ≠ st.2.2.Hash := hH ▸ he
      rw [IndexRow_of_unconfirmed _ _ _ _ _ he h1, IndexRow_of_unconfirmed _ _ _ _ _ he2 h2]
      apply ih
      obtain ⟨u, hu, hue⟩ := hex
      rcases List.mem_cons.mp hu with rfl | hu1
      · exact absurd hue.symm he
      · exact ⟨u, hu1, hue⟩

/-- A row the steps index, or a row at or above the target, is at or above the target after
steps at or above the target. -/
theorem unconfirmedBy_IndexRows (roots : String → Option String) (target : Int)
    (steps : List IndexStep) (hS : ∀ st ∈ steps, target ≤ st.2.1) (r : VersionRow)
    (h : (∃ st ∈ steps, st.2.2.Hash = r.Hash)
      ∨ ChainRepository.unconfirmedBy target r = true) :
    ChainRepository.unconfirmedBy target (IndexRows roots steps r) = true := by
  induction steps generalizing r with
  | nil =>
    rcases h with ⟨st, hst, _⟩ | h
    · cases hst
    · exact h
  | cons st steps ih =>
    rw [IndexRows_cons]
    apply ih (fun u hu => hS u (List.mem_cons_of_mem _ hu))
    by_cases he : r.Hash = st.2.2.Hash
    · right
      have hle := hS st (List.mem_cons_self _ _)
      cases hv : ChainRepository.versioned st.2.2
      · rw [IndexRow_of_self_plain _ _ _ _ _ he hv]
        simpa [ChainRepository.unconfirmedBy] using hle
      · rw [IndexRow_of_self _ _ _ _ _ he hv]
        simpa [ChainRepository.unconfirmedBy] using hle
    · rcases h with ⟨u, hu, hue⟩ | h
      · left
        rcases List.mem_cons.mp hu with rfl | hu1
        · exact absurd hue.symm he
        · exact ⟨u, hu1, by rw [IndexRow_Hash]; exact hue⟩
      · right
        unfold ChainRepository.unconfirmedBy
        rw [(IndexRow_fields_of_ne _ _ _ _ _ he).1]
        exact h

theorem RestoreOldLast_row_Hash (repo : ChainRepository) (height : Int)
    (rows : List VersionRow) (r : VersionRow) :
    (ChainRepository.RestoreOldLast_row repo height rows r).Hash = r.Hash := by
  unfold ChainRepository.RestoreOldLast_row
  split_ifs <;> rfl

theorem RestoreOldLast_row_RootHash (repo : ChainRepository) (height : Int)
    (rows : List VersionRow) (r : VersionRow) :
    (ChainRepository.RestoreOldLast_row repo height rows r).RootHash = r.RootHash := by
  unfold ChainRepository.RestoreOldLast_row
  split_ifs <;> rfl

theorem RestoreOldLast_row_Height (repo : ChainRepository) (height : Int)
    (rows : List VersionRow) (r : VersionRow) :
    (ChainRepository.RestoreOldLast_row repo height rows r).Height = r.Height := by
  unfold ChainRepository.RestoreOldLast_row
  split_ifs <;> rfl

theorem RollbackHeight_row_Hash (height : Int) (r : VersionRow) :
    (ChainRepository.RollbackHeight_row height r).Hash = r.Hash := by
  unfold ChainRepository.RollbackHeight_row
  split_ifs <;> rfl

theorem RollbackHeight_row_RootHash (height : Int) (r : VersionRow) :
    (ChainRepository.RollbackHeight_row height r).RootHash = r.RootHash := by
  unfold ChainRepository.RollbackHeight_row
  split_ifs <;> rfl

/-- A row at or above the target is not restored, and the rollback returns it to the mempool
state. -/
theorem Rollback_row_of_unconfirmed (repo : ChainRepository) (target : Int)
    (rows : List VersionRow) (p : VersionRow)
    (hp : ChainRepository.unconfirmedBy target p = true) :
    ChainRepository.RollbackHeight_row target
        (ChainRepository.RestoreOldLast_row repo target rows p)
      = { p with Height := none, BlockHash := none, BlockNum := none, IsLast := false } := by
  have hnot : ChainRepository.confirmedBelow target p = false := by
    unfold ChainRepository.unconfirmedBy at hp
    unfold ChainRepository.confirmedBelow
    cases hh : p.Height with
    | none => rfl
    | some h =>
      rw [hh] at hp
      simp only [decide_eq_true_eq] at hp
      simp only [decide_eq_false_iff_not]
      omega
  have h1 : ChainRepository.RestoreOldLast_row repo target rows p = p := by
    unfold ChainRepository.RestoreOldLast_row
    rw [if_neg]
    rw [hnot]
    simp
  rw [h1]
  unfold ChainRepository.RollbackHeight_row
  rw [if_pos hp]

/-- A row that is not at or above the target keeps everything but, possibly, the flag, which
can only be set, and only when a row at or above the target shares its root. -/
theorem Rollback_row_of_kept (repo : ChainRepository) (target : Int)
    (rows : List VersionRow) (p : VersionRow)
    (hp : ChainRepository.unconfirmedBy target p = false) :
    ChainRepository.RollbackHeight_row target
        (ChainRepository.RestoreOldLast_row repo target rows p) = p
    ∨ (ChainRepository.RollbackHeight_row target
          (ChainRepository.RestoreOldLast_row repo target rows p) = { p with IsLast := true }
        ∧ p.Height.isSome = true
        ∧ ∃ u ∈ rows, ChainRepository.unconfirmedBy target u = true
            ∧ u.RootHash.isSome = true ∧ u.RootHash = p.RootHash) := by
  have hkeep : ∀ q : VersionRow, q.Height = p.Height →
      ChainRepository.RollbackHeight_row target q = q := by
    intro q hq
    unfold ChainRepository.RollbackHeight_row
    rw [if_neg]
    unfold ChainRepository.unconfirmedBy
    rw [hq]
    unfold ChainRepository.unconfirmedBy at hp
    rw [hp]
    simp
  rw [hkeep _ (RestoreOldLast_row_Height repo target rows p)]
  unfold ChainRepository.RestoreOldLast_row
  split_ifs with hc
  · right
    refine ⟨rfl, ?_, ?_⟩
    · have := hc.1
      unfold ChainRepository.confirmedBelow at this
      cases hh : p.Height with
      | none => rw [hh] at this; cases this
      | some h => rfl
    · obtain ⟨u, hu, hcu⟩ := List.any_eq_true.mp hc.2.1
      simp only [Bool.and_eq_true, beq_iff_eq] at hcu
      exact ⟨u, hu, hcu.1.1, hcu.1.2, hcu.2⟩
  · left
    rfl

/-- Rolling back to the target and running the steps again gives every row what the steps
gave it. -/
theorem IndexRows_Rollback_IndexRows (repo : ChainRepository) (rows : List VersionRow)
    (target : Int) (steps : List IndexStep)
    (hKey : (rows.map (fun r => r.Hash)).Nodup)
    (hBelow : ∀ r ∈ rows, ∀ h, r.Height = some h → h < target)
    (hS : ∀ st ∈ steps, target ≤ st.2.1)
    (hMem : ∀ st ∈ steps, ∀ r ∈ rows, r.Hash = st.2.2.Hash →
      r.Height = none ∧ r.IsLast = false)
    (hV : ∀ st ∈ steps, (ChainRepository.rootOf rows st.2.2.Hash).isSome →
      ChainRepository.versioned st.2.2 = true)
    (r : VersionRow) (hr : r ∈ rows) :
    IndexRows (ChainRepository.rootOf rows) steps
        (ChainRepository.RollbackHeight_row target
          (ChainRepository.RestoreOldLast_row repo target
            (rows.map (IndexRows (ChainRepository.rootOf rows) steps))
            (IndexRows (ChainRepository.rootOf rows) steps r)))
      = IndexRows (ChainRepository.rootOf rows) steps r := by
  have hnotUn : ∀ x ∈ rows, ChainRepository.unconfirmedBy target x = false := by
    intro x hx
    unfold ChainRepository.unconfirmedBy
    cases hh : x.Height with
    | none => rfl
    | some h =>
      have := hBelow x hx h hh
      simp only [decide_eq_false_iff_not]
      omega
  by_cases hex : ∃ st ∈ steps, st.2.2.Hash = r.Hash
  · -- the steps index the row
    obtain ⟨st, hst, hste⟩ := hex
    have hm := hMem st hst r hr hste.symm
    have hun := unconfirmedBy_IndexRows (ChainRepository.rootOf rows) target steps hS r
      (Or.inl ⟨st, hst, hste⟩)
    rw [Rollback_row_of_unconfirmed repo target _ _ hun]
    apply IndexRows_congr_of_present
    · exact IndexRows_Hash _ _ _
    · exact IndexRows_RootHash _ _ _
    · rfl
    · exact hm.1
    · rfl
    · exact hm.2
    · exact ⟨st, hst, by rw [hste]; exact (IndexRows_Hash _ _ _).symm⟩
  · -- the steps do not index the row
    have habs : ∀ st ∈ steps, r.Hash ≠ st.2.2.Hash :=
      fun st hst he => hex ⟨st, hst, he.symm⟩
    obtain ⟨f1, f2, f3, f4⟩ :=
      IndexRows_fields_of_absent (ChainRepository.rootOf rows) steps r habs
    have fH := IndexRows_Hash (ChainRepository.rootOf rows) steps r
    have fR := IndexRows_RootHash (ChainRepository.rootOf rows) steps r
    have hpun : ChainRepository.unconfirmedBy target
        (IndexRows (ChainRepository.rootOf rows) steps r) = false := by
      have := hnotUn r hr
      unfold ChainRepository.unconfirmedBy at this ⊢
      rw [f1]
      exact this
    have hfix : ∀ q : VersionRow, q.Hash = r.Hash → q.RootHash = r.RootHash →
        q.Height = r.Height → q.BlockHash = r.BlockHash → q.BlockNum = r.BlockNum →
        (q.IsLast && !(r.Height.isSome && touches (ChainRepository.rootOf rows) steps
            r.RootHash))
          = (IndexRows (ChainRepository.rootOf rows) steps r).IsLast →
        IndexRows (ChainRepository.rootOf rows) steps q
          = IndexRows (ChainRepository.rootOf rows) steps r := by
      intro q qH qR qh qb qn ql
      obtain ⟨g1, g2, g3, g4⟩ :=
        IndexRows_fields_of_absent (ChainRepository.rootOf rows) steps q
          (fun st hst => by rw [qH]; exact habs st hst)
      apply VersionRow.ext
      · rw [IndexRows_Hash, IndexRows_Hash, qH]
      · rw [IndexRows_RootHash, IndexRows_RootHash, qR]
      · rw [g1, f1, qh]
      · rw [g2, f2, qb]
      · rw [g3, f3, qn]
      · rw [g4, qh, qR, ql]
    rcases Rollback_row_of_kept repo target
        (rows.map (IndexRows (ChainRepository.rootOf rows) steps))
        (IndexRows (ChainRepository.rootOf rows) steps r) hpun with h | ⟨h, hsome, u, hu, huun, hus, hur⟩
    · rw [h]
      apply hfix _ fH fR f1 f2 f3
      rw [f4]
      cases r.IsLast <;> cases (r.Height.isSome && touches (ChainRepository.rootOf rows) steps
        r.RootHash) <;> rfl
    · rw [h]
      -- a row at or above the target shares the root: a versioned step touches the root
      obtain ⟨u0, hu0, rfl⟩ := List.mem_map.mp hu
      have huex : ∃ st ∈ steps, st.2.2.Hash = u0.Hash := by
        by_contra hno
        have hab : ∀ st ∈ steps, u0.Hash ≠ st.2.2.Hash :=
          fun st hst he => hno ⟨st, hst, he.symm⟩
        have hh := (IndexRows_fields_of_absent (ChainRepository.rootOf rows) steps u0 hab).1
        have := hnotUn u0 hu0
        unfold ChainRepository.unconfirmedBy at this huun
        rw [hh, this] at huun
        cases huun
      obtain ⟨st, hst, hste⟩ := huex
      have hroot : ChainRepository.rootOf rows st.2.2.Hash = r.RootHash := by
        rw [hste, rootOf_of_mem rows hKey u0 hu0, ← fR, ← hur, IndexRows_RootHash]
      have hrs : r.RootHash.isSome = true := by
        rw [← fR, ← hur]
        exact hus
      have htouch : touches (ChainRepository.rootOf rows) steps r.RootHash = true := by
        unfold touches
        rw [List.any_eq_true]
        refine ⟨st, hst, ?_⟩
        have hv := hV st hst (by rw [hroot]; exact hrs)
        simp [hv, hroot, hrs]
      have hrsome : r.Height.isSome = true := by rw [← f1]; exact hsome
      refine hfix _ ?_ ?_ ?_ ?_ ?_ ?_
      · exact fH
      · exact fR
      · exact f1
      · exact f2
      · exact f3
      · rw [f4, hrsome, htouch]
        simp

theorem MarkRows_nil (repo : ChainRepository) (o : TxOutput) : MarkRows repo [] o = o := rfl

theorem MarkRows_cons (repo : ChainRepository) (st : IndexStep) (steps : List IndexStep)
    (o : TxOutput) :
    MarkRows repo (st :: steps) o
      = MarkRows repo steps
          (ChainRepository.UpdateTransactionOutputs_row repo st.2.2 st.2.1 o) := rfl

theorem UpdateTransactionOutputs_row_of_spends (repo : ChainRepository) (st : IndexStep)
    (o : TxOutput) (h : spends repo st o = true) :
    ChainRepository.UpdateTransactionOutputs_row repo st.2.2 st.2.1 o
      = { o with SpentHeight := some st.2.1 } := by
  unfold ChainRepository.UpdateTransactionOutputs_row
  unfold spends at h
  rw [if_pos h]

theorem UpdateTransactionOutputs_row_of_not_spends (repo : ChainRepository) (st : IndexStep)
    (o : TxOutput) (h : spends repo st o = false) :
    ChainRepository.UpdateTransactionOutputs_row repo st.2.2 st.2.1 o = o := by
  unfold ChainRepository.UpdateTransactionOutputs_row
  unfold spends at h
  rw [if_neg (by rw [h]; simp)]

/-- Whether a step spends an output depends on the columns that name the output only. -/
theorem spends_congr (repo : ChainRepository) (st : IndexStep) (o o2 : TxOutput)
    (h1 : o.TxHash = o2.TxHash) (h2 : o.Number = o2.Number)
    (h3 : o.AddressHash = o2.AddressHash) : spends repo st o = spends repo st o2 := by
  unfold spends
  rw [h1, h2, h3]

theorem MarkRows_names (repo : ChainRepository) (steps : List IndexStep) (o : TxOutput) :
    (MarkRows repo steps o).TxHash = o.TxHash ∧ (MarkRows repo steps o).Number = o.Number
    ∧ (MarkRows repo steps o).AddressHash = o.AddressHash
    ∧ (MarkRows repo steps o).Value = o.Value := by
  induction steps generalizing o with
  | nil => exact ⟨rfl, rfl, rfl, rfl⟩
  | cons st steps ih =>
    rw [MarkRows_cons]
    obtain ⟨i1, i2, i3, i4⟩ :=
      ih (ChainRepository.UpdateTransactionOutputs_row repo st.2.2 st.2.1 o)
    have : (ChainRepository.UpdateTransactionOutputs_row repo st.2.2 st.2.1 o).TxHash = o.TxHash
        ∧ (ChainRepository.UpdateTransactionOutputs_row repo st.2.2 st.2.1 o).Number = o.Number
        ∧ (ChainRepository.UpdateTransactionOutputs_row repo st.2.2 st.2.1 o).AddressHash
            = o.AddressHash
        ∧ (ChainRepository.UpdateTransactionOutputs_row repo st.2.2 st.2.1 o).Value
            = o.Value := by
      unfold ChainRepository.UpdateTransactionOutputs_row
      split_ifs <;> exact ⟨rfl, rfl, rfl, rfl⟩
    exact ⟨i1.trans this.1, i2.trans this.2.1, i3.trans this.2.2.1, i4.trans this.2.2.2⟩

theorem MarkRows_of_unspent (repo : ChainRepository) (steps : List IndexStep) (o : TxOutput)
    (h : ∀ st ∈ steps, spends repo st o = false) : MarkRows repo steps o = o := by
  induction steps with
  | nil => rfl
  | cons st steps ih =>
    rw [MarkRows_cons,
      UpdateTransactionOutputs_row_of_not_spends repo st o (h st (List.mem_cons_self _ _))]
    exact ih (fun u hu => h u (List.mem_cons_of_mem _ hu))

/-- The steps give the same mark to two outputs with the same name when one of the steps
spends them. -/
theorem MarkRows_congr_of_spent (repo : ChainRepository) (steps : List IndexStep)
    (o o2 : TxOutput) (h1 : o.TxHash = o2.TxHash) (h2 : o.Number = o2.Number)
    (h3 : o.AddressHash = o2.AddressHash) (h4 : o.Value = o2.Value)
    (hex : ∃ st ∈ steps, spends repo st o = true) :
    MarkRows repo steps o = MarkRows repo steps o2 := by
  induction steps with
  | nil =>
    obtain ⟨st, hst, _⟩ := hex
    cases hst
  | cons st steps ih =>
    rw [MarkRows_cons, MarkRows_cons]
    cases hs : spends repo st o
    · have hs2 : spends repo st o2 = false := by
        rw [← spends_congr repo st o o2 h1 h2 h3]
        exact hs
      rw [UpdateTransactionOutputs_row_of_not_spends repo st o hs,
        UpdateTransactionOutputs_row_of_not_spends repo st o2 hs2]
      apply ih
      obtain ⟨u, hu, hue⟩ := hex
      rcases List.mem_cons.mp hu with rfl | hu1
      · rw [hs] at hue
        cases hue
      · exact ⟨u, hu1, hue⟩
    · have hs2 : spends repo st o2 = true := by
        rw [← spends_congr repo st o o2 h1 h2 h3]
        exact hs
      rw [UpdateTransactionOutputs_row_of_spends repo st o hs,
        UpdateTransactionOutputs_row_of_spends repo st o2 hs2]
      have : ({ o with SpentHeight := some st.2.1 } : TxOutput)
          = { o2 with SpentHeight := some st.2.1 } := by
        apply TxOutput.ext <;> simp [h1, h2, h3, h4]
      rw [this]

/-- An output the steps spend, or one spent at or above the target, is spent at or above the
target after steps at or above the target. -/
theorem spentFrom_MarkRows (repo : ChainRepository) (target : Int) (steps : List IndexStep)
    (hS : ∀ st ∈ steps, target ≤ st.2.1) (o : TxOutput)
    (h : (∃ st ∈ steps, spends repo st o = true) ∨ spentFrom target o = true) :
    spentFrom target (MarkRows repo steps o) = true := by
  induction steps generalizing o with
  | nil =>
    rcases h with ⟨st, hst, _⟩ | h
    · cases hst
    · exact h
  | cons st steps ih =>
    rw [MarkRows_cons]
    apply ih (fun u hu => hS u (List.mem_cons_of_mem _ hu))
    cases hs : spends repo st o
    · rw [UpdateTransactionOutputs_row_of_not_spends repo st o hs]
      rcases h with ⟨u, hu, hue⟩ | h
      · left
        rcases List.mem_cons.mp hu with rfl | hu1
        · rw [hs] at hue
          cases hue
        · exact ⟨u, hu1, hue⟩
      · exact Or.inr h
    · right
      rw [UpdateTransactionOutputs_row_of_spends repo st o hs]
      have hle := hS st (List.mem_cons_self _ _)
      simpa [spentFrom] using hle

/-- Rolling back to the target and running the steps again gives every output the mark the
steps gave it. -/
theorem MarkRows_Rollback_MarkRows (repo : ChainRepository) (target : Int)
    (steps : List IndexStep) (hS : ∀ st ∈ steps, target ≤ st.2.1) (o : TxOutput)
    (ho : ∀ h, o.SpentHeight = some h → h < target) :
    MarkRows repo steps (ChainRepository.RollbackOutputs_row target (MarkRows repo steps o))
      = MarkRows repo steps o := by
  obtain ⟨n1, n2, n3, n4⟩ := MarkRows_names repo steps o
  by_cases hex : ∃ st ∈ steps, spends repo st o = true
  · have hsp := spentFrom_MarkRows repo target steps hS o (Or.inl hex)
    have hrb : ∀ p : TxOutput, spentFrom target p = true →
        ChainRepository.RollbackOutputs_row target p = { p with SpentHeight := none } := by
      intro p hp
      unfold ChainRepository.RollbackOutputs_row
      unfold spentFrom at hp
      cases hh : p.SpentHeight with
      | none => rw [hh] at hp; cases hp
      | some h =>
        rw [hh] at hp
        simp only [decide_eq_true_eq] at hp
        simp only [if_pos hp]
    rw [hrb _ hsp]
    symm
    refine MarkRows_congr_of_spent repo steps o _ ?_ ?_ ?_ ?_ hex
    · exact n1.symm
    · exact n2.symm
    · exact n3.symm
    · exact n4.symm
  · have hno : ∀ st ∈ steps, spends repo st o = false := by
      intro st hst
      cases hs : spends repo st o
      · rfl
      · exact absurd ⟨st, hst, hs⟩ hex
    rw [MarkRows_of_unspent repo steps o hno]
    have hrb : ChainRepository.RollbackOutputs_row target o = o := by
      unfold ChainRepository.RollbackOutputs_row
      cases hh : o.SpentHeight with
      | none => rfl
      | some h =>
        have := ho h hh
        simp only
        rw [if_neg (by omega)]
    rw [hrb, MarkRows_of_unspent repo steps o hno]

/-- Rolling back to the target and running the steps again reproduces the rows and the
outputs, for a store below the target whose indexed transactions are in the mempool
state. -/
theorem IndexSteps_Rollback_IndexSteps (repo : ChainRepository) (mid : ChainState)
    (target : Int) (steps : List IndexStep)
    (hKey : (mid.Transactions.map (fun r => r.Hash)).Nodup)
    (hBelow : belowHeight mid target)
    (hS : ∀ st ∈ steps, target ≤ st.2.1)
    (hMem : ∀ st ∈ steps, ∀ r ∈ mid.Transactions, r.Hash = st.2.2.Hash →
      r.Height = none ∧ r.IsLast = false)
    (hV : ∀ st ∈ steps, (ChainRepository.rootOf mid.Transactions st.2.2.Hash).isSome →
      ChainRepository.versioned st.2.2 = true) :
    (IndexSteps repo steps
        (ChainRepository.Rollback repo target (IndexSteps repo steps mid))).Transactions
      = (IndexSteps repo steps mid).Transactions
    ∧ (IndexSteps repo steps
        (ChainRepository.Rollback repo target (IndexSteps repo steps mid))).TxOutputs
      = (IndexSteps repo steps mid).TxOutputs := by
  constructor
  · rw [IndexSteps_Transactions repo steps (ChainRepository.Rollback repo target _)]
    have hrb : (ChainRepository.Rollback repo target (IndexSteps repo steps mid)).Transactions
        = (IndexSteps repo steps mid).Transactions.map
            (fun p => ChainRepository.RollbackHeight_row target
              (ChainRepository.RestoreOldLast_row repo target
                (IndexSteps repo steps mid).Transactions p)) := by
      unfold ChainRepository.Rollback ChainRepository.RollbackHeight
        ChainRepository.RestoreOldLast
      simp only [List.map_map]
      rfl
    have hroots : ChainRepository.rootOf
        (ChainRepository.Rollback repo target (IndexSteps repo steps mid)).Transactions
        = ChainRepository.rootOf mid.Transactions := by
      funext txHash
      rw [hrb, rootOf_map _
        (fun r => by rw [RollbackHeight_row_Hash, RestoreOldLast_row_Hash])
        (fun r => by rw [RollbackHeight_row_RootHash, RestoreOldLast_row_RootHash]),
        IndexSteps_Transactions,
        rootOf_map _ (IndexRows_Hash _ _) (IndexRows_RootHash _ _)]
    rw [hroots, hrb, IndexSteps_Transactions repo steps mid, List.map_map, List.map_map]
    apply List.map_congr_left
    intro r hr
    exact IndexRows_Rollback_IndexRows repo mid.Transactions target steps hKey hBelow.1 hS
      hMem hV r hr
  · rw [IndexSteps_TxOutputs repo steps (ChainRepository.Rollback repo target _)]
    have hrb : (ChainRepository.Rollback repo target (IndexSteps repo steps mid)).TxOutputs
        = (IndexSteps repo steps mid).TxOutputs.map
            (ChainRepository.RollbackOutputs_row target) := rfl
    rw [hrb, IndexSteps_TxOutputs repo steps mid, List.map_map, List.map_map]
    apply List.map_congr_left
    intro o ho
    exact MarkRows_Rollback_MarkRows repo target steps hS o (hBelow.2 o ho)

theorem mem_indexSteps (blocks : List ChainRepository.IndexedBlock) (st : IndexStep) :
    st ∈ indexSteps blocks
      ↔ ∃ b ∈ blocks, ∃ t ∈ b.txs, st = (b.blockHash, b.height, t) := by
  unfold indexSteps
  rw [List.mem_flatMap]
  constructor
  · rintro ⟨b, hb, hst⟩
    obtain ⟨t, ht, rfl⟩ := List.mem_map.mp hst
    exact ⟨b, hb, t, ht, rfl⟩
  · rintro ⟨b, hb, t, ht, rfl⟩
    exact ⟨b, hb, List.mem_map.mpr ⟨t, ht, rfl⟩⟩

theorem indexSteps_append (b1 b2 : List ChainRepository.IndexedBlock) :
    indexSteps (b1 ++ b2) = indexSteps b1 ++ indexSteps b2 := by
  unfold indexSteps
  rw [List.flatMap_append]

/-- After a step a row has the height it had or the height of the step. -/
theorem IndexRow_Height (root : Option String) (blockHash : String) (height : Int)
    (t : TransactionIndexingInfo) (r : VersionRow) :
    (IndexRow root blockHash height t r).Height = r.Height
    ∨ (IndexRow root blockHash height t r).Height = some height := by
  by_cases he : r.Hash = t.Hash
  · right
    cases hv : ChainRepository.versioned t
    · rw [IndexRow_of_self_plain _ _ _ _ _ he hv]
    · rw [IndexRow_of_self _ _ _ _ _ he hv]
  · left
    exact (IndexRow_fields_of_ne _ _ _ _ _ he).1

theorem IndexRows_Height (roots : String → Option String) (steps : List IndexStep)
    (r : VersionRow) (h : Int) (hh : (IndexRows roots steps r).Height = some h) :
    r.Height = some h ∨ ∃ st ∈ steps, st.2.1 = h := by
  induction steps generalizing r with
  | nil => exact Or.inl hh
  | cons st steps ih =>
    rw [IndexRows_cons] at hh
    rcases ih _ hh with h1 | ⟨u, hu, hue⟩
    · rcases IndexRow_Height (roots st.2.2.Hash) st.1 st.2.1 st.2.2 r with h2 | h2
      · left
        rw [← h2]
        exact h1
      · right
        refine ⟨st, List.mem_cons_self _ _, ?_⟩
        rw [h2] at h1
        exact Option.some.inj h1
    · exact Or.inr ⟨u, List.mem_cons_of_mem _ hu, hue⟩

theorem MarkRows_SpentHeight (repo : ChainRepository) (steps : List IndexStep) (o : TxOutput)
    (h : Int) (hh : (MarkRows repo steps o).SpentHeight = some h) :
    o.SpentHeight = some h ∨ ∃ st ∈ steps, st.2.1 = h := by
  induction steps generalizing o with
  | nil => exact Or.inl hh
  | cons st steps ih =>
    rw [MarkRows_cons] at hh
    rcases ih _ hh with h1 | ⟨u, hu, hue⟩
    · cases hs : spends repo st o
      · rw [UpdateTransactionOutputs_row_of_not_spends repo st o hs] at h1
        exact Or.inl h1
      · rw [UpdateTransactionOutputs_row_of_spends repo st o hs] at h1
        right
        exact ⟨st, List.mem_cons_self _ _, Option.some.inj h1⟩
    · exact Or.inr ⟨u, List.mem_cons_of_mem _ hu, hue⟩

/-- Steps below the target keep a store below the target. -/
theorem belowHeight_IndexSteps (repo : ChainRepository) (steps : List IndexStep)
    (s : ChainState) (target : Int) (hs : belowHeight s target)
    (hS : ∀ st ∈ steps, st.2.1 < target) : belowHeight (IndexSteps repo steps s) target := by
  constructor
  · intro r hr h hh
    rw [IndexSteps_Transactions] at hr
    obtain ⟨r0, hr0, rfl⟩ := List.mem_map.mp hr
    rcases IndexRows_Height _ _ _ _ hh with h1 | ⟨st, hst, rfl⟩
    · exact hs.1 r0 hr0 h h1
    · exact hS st hst
  · intro o ho h hh
    rw [IndexSteps_TxOutputs] at ho
    obtain ⟨o0, ho0, rfl⟩ := List.mem_map.mp ho
    rcases MarkRows_SpentHeight _ _ _ _ hh with h1 | ⟨st, hst, rfl⟩
    · exact hs.2 o0 ho0 h h1
    · exact hS st hst

theorem map_Hash_IndexSteps (repo : ChainRepository) (steps : List IndexStep)
    (s : ChainState) :
    (IndexSteps repo steps s).Transactions.map (fun r => r.Hash)
      = s.Transactions.map (fun r => r.Hash) := by
  rw [IndexSteps_Transactions, List.map_map]
  apply List.map_congr_left
  intro r _
  exact IndexRows_Hash _ _ _

theorem rootOf_IndexSteps (repo : ChainRepository) (steps : List IndexStep) (s : ChainState)
    (txHash : String) :
    ChainRepository.rootOf (IndexSteps repo steps s).Transactions txHash
      = ChainRepository.rootOf s.Transactions txHash := by
  rw [IndexSteps_Transactions]
  exact rootOf_map _ (IndexRows_Hash _ _) (IndexRows_RootHash _ _) _ _

/-! ## Rollback inverts indexing -/

/-- C16: let the blocks `before ++ Bk :: rest` be indexed in order of strictly increasing
height over a store keyed by the transaction hash whose confirmed rows and spent outputs lie
below the height of `Bk`, every transaction being confirmed once, those of `Bk :: rest` being
in the mempool state before (no height, no `IsLast`) and being of the entity family
(categories 100 to 103, 200 to 207 and 300 to 307, complaints and server pings included) when
their row has a root. Then `Rollback(height(Bk))` followed by `IndexBlock`
of `Bk :: rest` in order gives back the rows (height, block position and `IsLast` flag) and
the outputs (spent marks) of the state before the rollback, whatever prior version the
restore step picks. -/
theorem C16_rollback_then_reindex (repo : ChainRepository) (s0 : ChainState)
    (before : List ChainRepository.IndexedBlock) (Bk : ChainRepository.IndexedBlock)
    (rest : List ChainRepository.IndexedBlock)
    (hOrder : (before ++ Bk :: rest).Pairwise (fun a b => a.height < b.height))
    (hKey : (s0.Transactions.map (fun r => r.Hash)).Nodup)
    (hBelow : belowHeight s0 Bk.height)
    (hOnce : ((before ++ Bk :: rest).flatMap
      (fun b => b.txs.map (fun t => t.Hash))).Nodup)
    (hMempool : inMempool s0 (Bk :: rest))
    (hVersioned : rootsVersioned s0 (Bk :: rest)) :
    (ChainRepository.IndexBlocks repo (Bk :: rest)
        (ChainRepository.Rollback repo Bk.height
          (ChainRepository.IndexBlocks repo (before ++ Bk :: rest) s0))).Transactions
      = (ChainRepository.IndexBlocks repo (before ++ Bk :: rest) s0).Transactions
    ∧ (ChainRepository.IndexBlocks repo (Bk :: rest)
        (ChainRepository.Rollback repo Bk.height
          (ChainRepository.IndexBlocks repo (before ++ Bk :: rest) s0))).TxOutputs
      = (ChainRepository.IndexBlocks repo (before ++ Bk :: rest) s0).TxOutputs := by
  rw [List.pairwise_append, List.pairwise_cons] at hOrder
  obtain ⟨_, ⟨hBkRest, _⟩, hBeforeAfter⟩ := hOrder
  rw [List.flatMap_append, List.nodup_append] at hOnce
  obtain ⟨_, _, hDisj⟩ := hOnce
  rw [IndexBlocks_eq_IndexSteps, IndexBlocks_eq_IndexSteps, indexSteps_append,
    IndexSteps_append]
  apply IndexSteps_Rollback_IndexSteps
  · rw [map_Hash_IndexSteps]
    exact hKey
  · apply belowHeight_IndexSteps repo _ s0 _ hBelow
    intro st hst
    obtain ⟨b, hb, t, _, rfl⟩ := (mem_indexSteps _ _).mp hst
    exact hBeforeAfter b hb Bk (List.mem_cons_self _ _)
  · intro st hst
    obtain ⟨b, hb, t, _, rfl⟩ := (mem_indexSteps _ _).mp hst
    rcases List.mem_cons.mp hb with rfl | hb1
    · exact le_refl _
    · exact le_of_lt (hBkRest b hb1)
  · intro st hst r hr hre
    obtain ⟨b, hb, t, ht, rfl⟩ := (mem_indexSteps _ _).mp hst
    rw [IndexSteps_Transactions] at hr
    obtain ⟨r0, hr0, rfl⟩ := List.mem_map.mp hr
    rw [IndexRows_Hash] at hre
    have hm := hMempool b hb t ht r0 hr0 hre
    have habs : ∀ u ∈ indexSteps before, r0.Hash ≠ u.2.2.Hash := by
      intro u hu he
      obtain ⟨b2, hb2, t2, ht2, rfl⟩ := (mem_indexSteps _ _).mp hu
      have h1 : t2.Hash ∈ before.flatMap (fun b => b.txs.map (fun t => t.Hash)) :=
        List.mem_flatMap.mpr ⟨b2, hb2, List.mem_map.mpr ⟨t2, ht2, rfl⟩⟩
      have h2 : t.Hash ∈ (Bk :: rest).flatMap (fun b => b.txs.map (fun t => t.Hash)) :=
        List.mem_flatMap.mpr ⟨b, hb, List.mem_map.mpr ⟨t, ht, rfl⟩⟩
      have h3 : t2.Hash = t.Hash := he.symm.trans hre
      exact hDisj h1 (h3 ▸ h2)
    obtain ⟨f1, _, _, f4⟩ :=
      IndexRows_fields_of_absent (ChainRepository.rootOf s0.Transactions)
        (indexSteps before) r0 habs
    exact ⟨f1.trans hm.1, by rw [f4, hm.2]; rfl⟩
  · intro st hst hroot
    obtain ⟨b, hb, t, ht, rfl⟩ := (mem_indexSteps _ _).mp hst
    rw [rootOf_IndexSteps] at hroot
    exact (versioned_iff_ofEntityFamily t).mpr (hVersioned b hb t ht hroot)

/-- C16 at the store `chain_before_blocks` with the blocks of height 10, 11 and 12, the last
one confirming a complaint, and `k = 2`: rolling back to height 11 and indexing the blocks of
height 11 and 12 again gives back the rows and the outputs of the state before the rollback,
where the edit `"p3"` and the complaint `"k1"` are the last versions of their roots. In
between, the rollback has returned the rows of height 11 and 12 to the mempool state, given
the flag back to the post `"p1"` and un-marked the output spent at height 11. -/
theorem C16_rollback_then_reindex_witness :
    (ChainRepository.IndexBlocks repo_sample [block_11, block_12]
        (ChainRepository.Rollback repo_sample 11
          (ChainRepository.IndexBlocks repo_sample [block_10, block_11, block_12]
            chain_before_blocks))).Transactions
      = (ChainRepository.IndexBlocks repo_sample [block_10, block_11, block_12]
          chain_before_blocks).Transactions
    ∧ (ChainRepository.IndexBlocks repo_sample [block_11, block_12]
        (ChainRepository.Rollback repo_sample 11
          (ChainRepository.IndexBlocks repo_sample [block_10, block_11, block_12]
            chain_before_blocks))).TxOutputs
      = (ChainRepository.IndexBlocks repo_sample [block_10, block_11, block_12]
          chain_before_blocks).TxOutputs
    ∧ (ChainRepository.IndexBlocks repo_sample [block_10, block_11, block_12]
          chain_before_blocks).Transactions
        = [{ Hash := "g", Height := some 5, BlockHash := some "b5", BlockNum := some 0 },
           { Hash := "p1", RootHash := some "p1", Height := some 10, BlockHash := some "b10",
             BlockNum := some 0, IsLast := false },
           { Hash := "p2", RootHash := some "p1", Height := some 11, BlockHash := some "b11",
             BlockNum := some 1, IsLast := false },
           { Hash := "p3", RootHash := some "p1", Height := some 12, BlockHash := some "b12",
             BlockNum := some 0, IsLast := true },
           { Hash := "m1", Height := some 11, BlockHash := some "b11", BlockNum := some 0 },
           { Hash := "k1", RootHash := some "k1", Height := some 12, BlockHash := some "b12",
             BlockNum := some 1, IsLast := true }]
    ∧ (ChainRepository.Rollback repo_sample 11
          (ChainRepository.IndexBlocks repo_sample [block_10, block_11, block_12]
            chain_before_blocks)).Transactions
        = [{ Hash := "g", Height := some 5, BlockHash := some "b5", BlockNum := some 0 },
           { Hash := "p1", RootHash := some "p1", Height := some 10, BlockHash := some "b10",
             BlockNum := some 0, IsLast := true },
           { Hash := "p2", RootHash := some "p1" },
           { Hash := "p3", RootHash := some "p1" },
           { Hash := "m1" },
           { Hash := "k1", RootHash := some "k1" }]
    ∧ (ChainRepository.Rollback repo_sample 11
          (ChainRepository.IndexBlocks repo_sample [block_10, block_11, block_12]
            chain_before_blocks)).TxOutputs
        = [{ TxHash := "g", Number := 0, AddressHash := "A", Value := 5,
             SpentHeight := some 10 },
           { TxHash := "g", Number := 1, AddressHash := "A", Value := 7 }] := by
  have h := C16_rollback_then_reindex repo_sample chain_before_blocks [block_10] block_11
    [block_12] (by decide) (by decide)
    (by
      constructor
      · intro r hr h hh
        simp only [chain_before_blocks, List.mem_cons, List.mem_singleton,
          List.not_mem_nil, or_false] at hr
        rcases hr with rfl | rfl | rfl | rfl | rfl | rfl <;> simp at hh
        subst hh
        decide
      · intro o ho h hh
        simp only [chain_before_blocks, List.mem_cons, List.mem_singleton,
          List.not_mem_nil, or_false] at ho
        rcases ho with rfl | rfl <;> simp at hh)
    (by decide) (by unfold inMempool; decide)
    (by unfold rootsVersioned ofEntityFamily; decide)
  exact ⟨h.1, h.2, by decide, by decide, by decide⟩

/-! ## The classification of `TransactionIndexingInfo` -/

/-- C29: the six classification predicates of `TransactionIndexingInfo` are pairwise
disjoint over every value of the type, and the types `NOT_SUPPORTED`, `TX_DEFAULT`,
`TX_COINBASE`, `TX_COINSTAKE`, `CONTENT_SERVERPING` (203) and `ACTION_COMPLAIN` (307) satisfy
none of them. -/
theorem C29_classification_disjoint (i : TransactionIndexingInfo) :
    ¬ (i.IsAccount = true ∧ i.IsContent = true)
    ∧ ¬ (i.IsAccount = true ∧ i.IsComment = true)
    ∧ ¬ (i.IsAccount = true ∧ i.IsBlocking = true)
    ∧ ¬ (i.IsAccount = true ∧ i.IsSubscribe = true)
    ∧ ¬ (i.IsAccount = true ∧ i.IsActionScore = true)
    ∧ ¬ (i.IsContent = true ∧ i.IsComment = true)
    ∧ ¬ (i.IsContent = true ∧ i.IsBlocking = true)
    ∧ ¬ (i.IsContent = true ∧ i.IsSubscribe = true)
    ∧ ¬ (i.IsContent = true ∧ i.IsActionScore = true)
    ∧ ¬ (i.IsComment = true ∧ i.IsBlocking = true)
    ∧ ¬ (i.IsComment = true ∧ i.IsSubscribe = true)
    ∧ ¬ (i.IsComment = true ∧ i.IsActionScore = true)
    ∧ ¬ (i.IsBlocking = true ∧ i.IsSubscribe = true)
    ∧ ¬ (i.IsBlocking = true ∧ i.IsActionScore = true)
    ∧ ¬ (i.IsSubscribe = true ∧ i.IsActionScore = true)
    ∧ (i.Type_ ∈ [NOT_SUPPORTED, TX_DEFAULT, TX_COINBASE, TX_COINSTAKE, CONTENT_SERVERPING,
          ACTION_COMPLAIN] →
        i.IsAccount = false ∧ i.IsContent = false ∧ i.IsComment = false
        ∧ i.IsBlocking = false ∧ i.IsSubscribe = false ∧ i.IsActionScore = false) := by
  simp only [TransactionIndexingInfo.IsAccount, TransactionIndexingInfo.IsContent,
    TransactionIndexingInfo.IsComment, TransactionIndexingInfo.IsBlocking,
    TransactionIndexingInfo.IsSubscribe, TransactionIndexingInfo.IsActionScore,
    NOT_SUPPORTED, TX_DEFAULT, TX_COINBASE, TX_COINSTAKE, ACCOUNT_USER, ACCOUNT_VIDEO_SERVER,
    ACCOUNT_MESSAGE_SERVER, ACCOUNT_SETTING, CONTENT_POST, CONTENT_VIDEO, CONTENT_TRANSLATE,
    CONTENT_SERVERPING, CONTENT_COMMENT, CONTENT_COMMENT_EDIT, CONTENT_COMMENT_DELETE,
    CONTENT_DELETE, ACTION_SCORE_CONTENT, ACTION_SCORE_COMMENT, ACTION_SUBSCRIBE,
    ACTION_SUBSCRIBE_PRIVATE, ACTION_SUBSCRIBE_CANCEL, ACTION_BLOCKING, ACTION_BLOCKING_CANCEL,
    ACTION_COMPLAIN, Bool.or_eq_true, Bool.or_eq_false_iff, beq_iff_eq, beq_eq_false_iff_ne,
    List.mem_cons, List.mem_singleton, List.not_mem_nil, or_false]
  delta PocketTxType
  refine ⟨?_, ?_, ?_, ?_, ?_, ?_, ?_, ?_, ?_, ?_, ?_, ?_, ?_, ?_, ?_, ?_⟩ <;> omega

/-- C29 at the complaint: a transaction of type 307 is an account, content, comment,
blocking, subscribe or score mutation for none of the six predicates. -/
theorem C29_classification_disjoint_witness :
    TransactionIndexingInfo.IsAccount
        { Hash := "x", BlockNumber := 0, Type_ := ACTION_COMPLAIN } = false
    ∧ TransactionIndexingInfo.IsContent
        { Hash := "x", BlockNumber := 0, Type_ := ACTION_COMPLAIN } = false
    ∧ TransactionIndexingInfo.IsComment
        { Hash := "x", BlockNumber := 0, Type_ := ACTION_COMPLAIN } = false
    ∧ TransactionIndexingInfo.IsBlocking
        { Hash := "x", BlockNumber := 0, Type_ := ACTION_COMPLAIN } = false
    ∧ TransactionIndexingInfo.IsSubscribe
        { Hash := "x", BlockNumber := 0, Type_ := ACTION_COMPLAIN } = false
    ∧ TransactionIndexingInfo.IsActionScore
        { Hash := "x", BlockNumber := 0, Type_ := ACTION_COMPLAIN } = false :=
  (C29_classification_disjoint { Hash := "x", BlockNumber := 0, Type_ := ACTION_COMPLAIN }).2.2.2.2.2.2.2.2.2.2.2.2.2.2.2
    (by decide)

/-! ## Monotonicity of the limit step -/

/-- The limit step accepts exactly below the limit of the account mode. -/
theorem ScoreCommentConsensus.ValidateLimit_tx_count_eq_Success_iff (c : ScoreCommentConsensus)
    (env : Env) (tx : Transaction) (count : Int) :
    c.ValidateLimit_tx_count env tx count = some Success
      ↔ ∃ A, tx.GetAddress = some A
          ∧ count < c.GetScoresLimit (env.GetAccountMode c.Height A) := by
  unfold ScoreCommentConsensus.ValidateLimit_tx_count
  cases hA : tx.GetAddress with
  | none => simp
  | some A =>
    simp only [Option.bind_eq_bind, Option.some_bind, ge_iff_le, Option.some.injEq,
      exists_eq_left']
    by_cases hlim : c.GetScoresLimit (env.GetAccountMode c.Height A) ≤ count
    · rw [if_pos hlim]
      constructor
      · intro h
        have := Option.some.inj h
        simp [Success] at this
      · intro h
        omega
    · rw [if_neg hlim]
      constructor
      · intro _
        omega
      · intro _
        rfl

/-- C26: the limit step `ValidateLimit(tx, count)` is monotone. If it accepts at `count` it
accepts at every `count2 ≤ count` in the same state; and if it accepts at `count` in a state
where the actor is a Trial account, it accepts at `count` in a state where the actor is a
Full account. -/
theorem C26_ValidateLimit_tx_count_monotone (c : ScoreCommentConsensus) (tx : Transaction)
    (count : Int) :
    (∀ (env : Env) (count2 : Int), count2 ≤ count →
      c.ValidateLimit_tx_count env tx count = some Success →
      c.ValidateLimit_tx_count env tx count2 = some Success)
    ∧ (∀ (envTrial envFull : Env) (A : String), tx.GetAddress = some A →
      envTrial.GetAccountMode c.Height A = AccountMode_Trial →
      envFull.GetAccountMode c.Height A = AccountMode_Full →
      c.ValidateLimit_tx_count envTrial tx count = some Success →
      c.ValidateLimit_tx_count envFull tx count = some Success) := by
  constructor
  · intro env count2 hle h
    rw [ScoreCommentConsensus.ValidateLimit_tx_count_eq_Success_iff] at h ⊢
    obtain ⟨A, hA, hlt⟩ := h
    exact ⟨A, hA, lt_of_le_of_lt hle hlt⟩
  · intro envTrial envFull A hA hT hF h
    rw [ScoreCommentConsensus.ValidateLimit_tx_count_eq_Success_iff] at h ⊢
    obtain ⟨A2, hA2, hlt⟩ := h
    have hAA : A2 = A := Option.some.inj (hA2.symm.trans hA)
    subst hAA
    refine ⟨A2, hA, ?_⟩
    rw [hT] at hlt
    rw [hF]
    simp only [ScoreCommentConsensus.GetScoresLimit,
      ScoreCommentConsensus.GetFullAccountScoresLimit,
      ScoreCommentConsensus.GetTrialAccountScoresLimit] at hlt ⊢
    simp at hlt ⊢
    omega

/-- C26 for the comment-score of `"A"` under the rule set of height 1180000: accepted at the
count 299 as a Trial account, it is accepted at 120 as a Trial account and at 299 as a Full
account. -/
theorem C26_ValidateLimit_tx_count_monotone_witness :
    ScoreCommentConsensus.ValidateLimit_tx_count
        ⟨ScoreCommentConsensus_checkpoint_1180000, 1180000⟩ env_all_trial score_A_on_T 120
      = some Success
    ∧ ScoreCommentConsensus.ValidateLimit_tx_count
        ⟨ScoreCommentConsensus_checkpoint_1180000, 1180000⟩ env_all_full score_A_on_T 299
      = some Success :=
  ⟨(C26_ValidateLimit_tx_count_monotone ⟨ScoreCommentConsensus_checkpoint_1180000, 1180000⟩
      score_A_on_T 299).1 env_all_trial 120 (by decide) (by decide),
   (C26_ValidateLimit_tx_count_monotone ⟨ScoreCommentConsensus_checkpoint_1180000, 1180000⟩
      score_A_on_T 299).2 env_all_trial env_all_full "A" (by decide) (by decide) (by decide)
      (by decide)⟩

/-! ## The hash input of a post is not injective -/

/-- C28: the posts `post_caption_ab` (caption `"ab"`, message `""`) and
`post_caption_a_message_b` (caption `"a"`, message `"b"`) differ in their payload and in
nothing else, and `Post::BuildHash` builds the same hash input `"ab"` for both, whatever the
array parser; so they get the same payload hash from every hash function. -/
theorem C28_BuildHash_not_injective :
    post_caption_ab.m_payload ≠ post_caption_a_message_b.m_payload
    ∧ post_caption_ab.m_hash = post_caption_a_message_b.m_hash
    ∧ post_caption_ab.m_type = post_caption_a_message_b.m_type
    ∧ post_caption_ab.m_time = post_caption_a_message_b.m_time
    ∧ post_caption_ab.m_string1 = post_caption_a_message_b.m_string1
    ∧ post_caption_ab.m_string2 = post_caption_a_message_b.m_string2
    ∧ post_caption_ab.m_string3 = post_caption_a_message_b.m_string3
    ∧ (∀ read : String → List UniValueItem,
        Post.BuildHash_data read post_caption_ab = some "ab"
        ∧ Post.BuildHash_data read post_caption_a_message_b = some "ab")
    ∧ (∀ (GenerateHash : String → String) (read : String → List UniValueItem),
        Post.BuildHash GenerateHash read post_caption_ab
          = Post.BuildHash GenerateHash read post_caption_a_message_b) := by
  have hdata : ∀ read : String → List UniValueItem,
      Post.BuildHash_data read post_caption_ab = some "ab"
      ∧ Post.BuildHash_data read post_caption_a_message_b = some "ab" := by
    intro read
    constructor
    · simp [Post.BuildHash_data, Post.BuildHash_array, Post.GetRootTxHash,
        Post.GetRelayTxHash, post_caption_ab, Payload.GetString7, Payload.GetString2,
        Payload.GetString3, Payload.GetString4, Payload.GetString5, Transaction.GetHash]
    · simp [Post.BuildHash_data, Post.BuildHash_array, Post.GetRootTxHash,
        Post.GetRelayTxHash, post_caption_a_message_b, Payload.GetString7,
        Payload.GetString2, Payload.GetString3, Payload.GetString4, Payload.GetString5,
        Transaction.GetHash]
  refine ⟨by decide, rfl, rfl, rfl, rfl, rfl, rfl, hdata, ?_⟩
  intro GenerateHash read
  unfold Post.BuildHash
  rw [(hdata read).1, (hdata read).2]

/-! ## `ExistsUserRegistrations`, exactly -/

/-- The distinct addresses `ExistsUserRegistrations` counts are as many as the distinct
listed addresses that have a registration row. -/
theorem ExistsUserRegistrations_count (db : ConsensusRepository) (addresses : List String)
    (mempool : Bool) :
    ((db.vUsers.filter
        (ConsensusRepository.ExistsUserRegistrations_where addresses mempool)).filterMap
      (fun u => u.AddressHash)).dedup.length
    = (addresses.dedup.filter (fun a => HasRegistration db a mempool)).length := by
  apply List.Perm.length_eq
  rw [List.perm_ext_iff_of_nodup (List.nodup_dedup _) ((List.nodup_dedup _).filter _)]
  intro a
  rw [ExistsUserRegistrations_mem_selected, List.mem_filter, List.mem_dedup]

/-- C27: for a list shorter than `2^31`, `ExistsUserRegistrations` returns true exactly when
the list is non-empty and the number of distinct addresses of the list that have a
registration row (a confirmed one when `mempool` is false) equals the length of the list; it
returns false for the empty list and for every list that names an address twice. -/
theorem C27_ExistsUserRegistrations_iff (db : ConsensusRepository) (addresses : List String)
    (mempool : Bool) (hlen : addresses.length < 2147483648) :
    (ConsensusRepository.ExistsUserRegistrations db addresses mempool = true
      ↔ addresses ≠ []
        ∧ (addresses.dedup.filter (fun a => HasRegistration db a mempool)).length
            = addresses.length)
    ∧ ConsensusRepository.ExistsUserRegistrations db [] mempool = false
    ∧ (¬ addresses.Nodup →
        ConsensusRepository.ExistsUserRegistrations db addresses mempool = false) := by
  have hle : (addresses.dedup.filter (fun a => HasRegistration db a mempool)).length
      ≤ addresses.dedup.length := List.length_filter_le _ _
  have hle2 : addresses.dedup.length ≤ addresses.length :=
    (List.dedup_sublist addresses).length_le
  have hiff : ConsensusRepository.ExistsUserRegistrations db addresses mempool = true
      ↔ addresses ≠ []
        ∧ (addresses.dedup.filter (fun a => HasRegistration db a mempool)).length
            = addresses.length := by
    unfold ConsensusRepository.ExistsUserRegistrations
    cases addresses with
    | nil => simp
    | cons a l =>
      simp only [List.isEmpty_cons, Bool.false_eq_true, if_false, TryGetColumnInt,
        sqlite3_column_int, ne_eq, not_false_eq_true, true_and, reduceCtorEq]
      rw [ExistsUserRegistrations_count, toInt32_of_range _ (by omega) (by omega),
        toInt32_of_range _ (by omega) (by omega)]
      simp only [beq_iff_eq]
      exact Nat.cast_inj
  refine ⟨hiff, rfl, ?_⟩
  intro hdup
  have hlt : addresses.dedup.length < addresses.length := by
    rcases Nat.lt_or_ge addresses.dedup.length addresses.length with h | h
    · exact h
    · exfalso
      apply hdup
      have heq := (List.dedup_sublist addresses).eq_of_length_le h
      rw [← heq]
      exact List.nodup_dedup _
  cases hres : ConsensusRepository.ExistsUserRegistrations db addresses mempool
  · rfl
  · have := (hiff.mp hres).2
    omega

/-- C27 at the store `db_A_confirmed_B_mempool`: the list `"A"`, `"A"` names a registered
address twice and is answered false, in both modes. -/
theorem C27_ExistsUserRegistrations_iff_witness :
    ConsensusRepository.ExistsUserRegistrations db_A_confirmed_B_mempool ["A", "A"] false
      = false
    ∧ ConsensusRepository.ExistsUserRegistrations db_A_confirmed_B_mempool ["A", "A"] true
      = false :=
  ⟨(C27_ExistsUserRegistrations_iff db_A_confirmed_B_mempool ["A", "A"] false
      (by decide)).2.2 (by decide),
   (C27_ExistsUserRegistrations_iff db_A_confirmed_B_mempool ["A", "A"] true
      (by decide)).2.2 (by decide)⟩

/-! ## The window of the chain count -/

/-- C23: for the comment-score `tx` of the actor `A` and the rule set `Instance` builds at
the evaluation height `h`, the view `vScoreComments` holding fewer than `2^31` rows, the
confirmed-chain count `GetChainCount` is, for `h < 1180000`, the number of confirmed
last-version comment-score rows of `A` with `Time ≥ tx.Time - 86400`, and, for
`h ≥ 1180000`, the number of those with `Height ≥ h - 1440`. -/
theorem C23_chain_count_window (h : Int) (h0 : 0 ≤ h) (c : ScoreCommentConsensus)
    (hInst : ScoreCommentConsensusFactory.Instance h = some c) (env : Env) (tx : Transaction)
    (A : String) (hA : tx.GetAddress = some A)
    (hrows : env.ConsensusRepoInst.vScoreComments.length < 2147483648) :
    (h < 1180000 →
      c.GetChainCount env tx = some ((env.ConsensusRepoInst.vScoreComments.filter
        (ConsensusRepository.CountChainScoreCommentTime_where A (tx.GetTime - 86400))).length
          : Int))
    ∧ (1180000 ≤ h →
      c.GetChainCount env tx = some ((env.ConsensusRepoInst.vScoreComments.filter
        (ConsensusRepository.CountChainScoreCommentHeight_where A (h - 1440))).length : Int))
    ∧ (∀ (r : ViewRow) (time : Int),
        ConsensusRepository.CountChainScoreCommentTime_where A time r = true
          ↔ confirmedLastScoreOf A r ∧ ∃ t, r.Time = some t ∧ time ≤ t)
    ∧ (∀ (r : ViewRow) (height : Int),
        ConsensusRepository.CountChainScoreCommentHeight_where A height r = true
          ↔ confirmedLastScoreOf A r ∧ ∃ k, r.Height = some k ∧ height ≤ k) := by
  rw [ScoreCommentConsensusFactory.Instance_eq h h0] at hInst
  have hc := (Option.some.inj hInst).symm
  have hcount := ScoreCommentConsensus.GetChainCount_eq c env tx A hA hrows
  refine ⟨?_, ?_, ?_, ?_⟩
  · intro hlt
    rw [hcount]
    have hne : c.cls ≠ ScoreCommentConsensus_checkpoint_1180000 := by
      rw [hc]
      simp only
      split_ifs <;> simp
    unfold chainWindowRows
    cases hcls : c.cls <;> first | rfl | exact absurd hcls hne
  · intro hge
    rw [hcount]
    have hcls : c.cls = ScoreCommentConsensus_checkpoint_1180000 := by
      rw [hc]
      simp only
      rw [if_neg (by omega), if_neg (by omega), if_neg (by omega), if_neg (by omega)]
    have hH : c.Height = h := by rw [hc]
    unfold chainWindowRows
    rw [hcls]
    simp only [hH]
  · intro r time
    unfold ConsensusRepository.CountChainScoreCommentTime_where confirmedLastScoreOf
    cases hh : r.Height <;> cases ht : r.Time <;> simp
    tauto
  · intro r height
    unfold ConsensusRepository.CountChainScoreCommentHeight_where confirmedLastScoreOf
    cases hh : r.Height <;> simp
    tauto

/-- C23 at the store `env_scores_in_and_out_of_window`: at the evaluation height 1179999 the
three rows of the time window are counted, at the evaluation height 1180000 the two rows of
the height window. -/
theorem C23_chain_count_window_witness :
    ScoreCommentConsensus.GetChainCount ⟨ScoreCommentConsensus_checkpoint_1124000, 1179999⟩
        env_scores_in_and_out_of_window score_A_on_T = some 3
    ∧ ScoreCommentConsensus.GetChainCount ⟨ScoreCommentConsensus_checkpoint_1180000, 1180000⟩
        env_scores_in_and_out_of_window score_A_on_T = some 2 :=
  ⟨((C23_chain_count_window 1179999 (by decide)
        ⟨ScoreCommentConsensus_checkpoint_1124000, 1179999⟩
        (ScoreCommentConsensusFactory.Instance_eq 1179999 (by decide))
        env_scores_in_and_out_of_window score_A_on_T "A" (by decide) (by decide)).1
      (by decide)).trans (by decide),
   ((C23_chain_count_window 1180000 (by decide)
        ⟨ScoreCommentConsensus_checkpoint_1180000, 1180000⟩
        (ScoreCommentConsensusFactory.Instance_eq 1180000 (by decide))
        env_scores_in_and_out_of_window score_A_on_T "A" (by decide) (by decide)).2.1
      (by decide)).trans (by decide)⟩

/-! ## The blocking check and its checkpoints -/

/-- Function `ValidateBlocking` rejects exactly in checkpoint 430000, when the first confirmed
last-version blocking row from the comment's author toward the actor is read as
`ACTION_BLOCKING`. -/
theorem ScoreCommentConsensus.ValidateBlocking_eq_Blocking_iff (c : ScoreCommentConsensus)
    (env : Env) (B : String) (tx : Transaction) (A : String) (hA : tx.GetAddress = some A) :
    c.ValidateBlocking env B tx = some (false, SocialConsensusResult_Blocking)
      ↔ c.cls = ScoreCommentConsensus_checkpoint_430000
        ∧ ∃ row t, env.ConsensusRepoInst.vBlockings.find?
              (ConsensusRepository.GetLastBlockingType_where B A) = some row
            ∧ row.Type_ = some t ∧ sqlite3_column_int t = ACTION_BLOCKING := by
  unfold ScoreCommentConsensus.ValidateBlocking
  cases hcls : c.cls <;>
    simp only [hA, Option.bind_eq_bind, Option.some_bind, Option.pure_def, Success,
      Option.some.injEq, Prod.mk.injEq, Bool.true_eq_false, false_and, reduceCtorEq,
      and_false, iff_false, not_false_eq_true, true_and]
  unfold ConsensusRepository.GetLastBlockingType
  cases hf : env.ConsensusRepoInst.vBlockings.find?
      (ConsensusRepository.GetLastBlockingType_where B A) with
  | none => simp [NOT_SUPPORTED, ACTION_BLOCKING]
  | some row =>
    cases ht : row.Type_ with
    | none => simp [TryGetColumnInt, ht, NOT_SUPPORTED, ACTION_BLOCKING]
    | some t => simp [TryGetColumnInt, ht]

/-- The first element a search finds, told without the searched predicate: the list splits
at it, it meets the condition and no element before it does. -/
theorem find?_eq_some_iff_first {α : Type} (p : α → Bool) (P : α → Prop)
    (hp : ∀ a, p a = true ↔ P a) (l : List α) (b : α) :
    l.find? p = some b ↔ ∃ pre post, l = pre ++ b :: post ∧ P b ∧ ∀ a ∈ pre, ¬ P a := by
  rw [List.find?_eq_some]
  constructor
  · rintro ⟨hb, pre, post, hl, hpre⟩
    refine ⟨pre, post, hl, (hp b).mp hb, ?_⟩
    intro a ha hPa
    have h1 := hpre a ha
    rw [(hp a).mpr hPa] at h1
    exact absurd h1 (by decide)
  · rintro ⟨pre, post, hl, hb, hpre⟩
    refine ⟨(hp b).mpr hb, pre, post, hl, ?_⟩
    intro a ha
    cases hpa : p a with
    | false => rfl
    | true => exact absurd ((hp a).mp hpa) (hpre a ha)

/-- The `WHERE` clause of `GetLastContent` selects the confirmed last versions of the root. -/
theorem GetLastContent_where_iff (T : String) (r : TransactionsRow) :
    ConsensusRepository.GetLastContent_where T r = true ↔ lastContentOf T r := by
  unfold ConsensusRepository.GetLastContent_where lastContentOf
  cases hh : r.Height <;>
    simp only [Bool.and_eq_true, beq_iff_eq, decide_eq_true_eq, List.mem_cons,
      List.mem_singleton, List.not_mem_nil, or_false, Option.isSome_none, Option.isSome_some,
      Bool.false_eq_true, and_false, false_and, ne_eq, not_true_eq_false, reduceCtorEq,
      not_false_eq_true, true_and, and_true]
  constructor
  · rintro ⟨⟨h1, h2⟩, h3⟩
    exact ⟨h1, h2, by omega, by omega⟩
  · rintro ⟨h1, h2, h3, h4⟩
    exact ⟨⟨h1, h2⟩, by omega⟩

/-- The `WHERE` clause of `GetLastBlockingType` selects the confirmed last-version blocking
records from `B` toward `A`. -/
theorem GetLastBlockingType_where_iff (B A : String) (r : ViewRow) :
    ConsensusRepository.GetLastBlockingType_where B A r = true ↔ lastBlockingOf B A r := by
  unfold ConsensusRepository.GetLastBlockingType_where lastBlockingOf
  cases hh : r.Height <;> simp [and_assoc]

/-- Function `GetLastContent` returns the transaction built from the first confirmed last
version of the root in `Transactions`. -/
theorem GetLastContent_eq_some_iff (db : ConsensusRepository) (T : String)
    (lastContent : Transaction) :
    ConsensusRepository.GetLastContent db T = some lastContent
      ↔ ∃ (content : TransactionsRow) (earlier later : List TransactionsRow),
          db.Transactions = earlier ++ content :: later
          ∧ lastContentOf T content ∧ (∀ r ∈ earlier, ¬ lastContentOf T r)
          ∧ lastContent = { m_type := content.Type_, m_hash := content.Hash,
                            m_time := content.Time, m_string1 := content.String1,
                            m_string2 := content.String2, m_int1 := content.Int1 } := by
  unfold ConsensusRepository.GetLastContent
  constructor
  · intro hres
    cases hf : db.Transactions.find? (ConsensusRepository.GetLastContent_where T) with
    | none => simp [hf] at hres
    | some row =>
      obtain ⟨pre, post, hl, hb, hpre⟩ :=
        (find?_eq_some_iff_first _ _ (GetLastContent_where_iff T) _ _).mp hf
      simp only [hf, CreateTransactionFromListRow, Option.some.injEq] at hres
      exact ⟨row, pre, post, hl, hb, hpre, hres.symm⟩
  · rintro ⟨content, pre, post, hl, hb, hpre, rfl⟩
    have hf := (find?_eq_some_iff_first _ _ (GetLastContent_where_iff T) _ _).mpr
      ⟨pre, post, hl, hb, hpre⟩
    simp only [hf, CreateTransactionFromListRow]

/-- Function `ValidateModel` returns `Blocking` exactly in checkpoint 430000, for a standing
target of another author whose first selected blocking row toward the actor is read as
`ACTION_BLOCKING`. -/
theorem ScoreCommentConsensus.ValidateModel_eq_Blocking_iff (h : Int) (h0 : 0 ≤ h)
    (c : ScoreCommentConsensus) (hInst : ScoreCommentConsensusFactory.Instance h = some c)
    (env : Env) (tx : Transaction) :
    (c.ValidateModel env tx = some (false, SocialConsensusResult_Blocking)
      ↔ (430000 ≤ h ∧ h < 514184)
        ∧ ∃ (A T B : String) (lastContent : Transaction) (row : ViewRow) (t : Int),
            tx.GetAddress = some A ∧ tx.GetCommentTxHash = some T
            ∧ ConsensusRepository.GetLastContent env.ConsensusRepoInst T = some lastContent
            ∧ lastContent.GetType ≠ CONTENT_COMMENT_DELETE
            ∧ lastContent.GetString1 = some B ∧ A ≠ B
            ∧ env.ConsensusRepoInst.vBlockings.find?
                (ConsensusRepository.GetLastBlockingType_where B A) = some row
            ∧ row.Type_ = some t ∧ sqlite3_column_int t = ACTION_BLOCKING)
    ∧ ((h < 430000 ∨ 514184 ≤ h) → ∀ blockings : List ViewRow,
        c.ValidateModel (env.withBlockings blockings) tx = c.ValidateModel env tx) := by
  rw [ScoreCommentConsensusFactory.Instance_eq h h0] at hInst
  have hc := (Option.some.inj hInst).symm
  have hcls : c.cls = ScoreCommentConsensus_checkpoint_430000 ↔ (430000 ≤ h ∧ h < 514184) := by
    rw [hc]
    simp only
    split_ifs <;> simp <;> omega
  constructor
  · constructor
    · intro hres
      cases hT : tx.GetCommentTxHash with
      | none =>
        unfold ScoreCommentConsensus.ValidateModel at hres
        simp [hT] at hres
      | some T =>
        cases hlast : ConsensusRepository.GetLastContent env.ConsensusRepoInst T with
        | none =>
          rw [ScoreCommentConsensus.ValidateModel_of_none c env tx T hT hlast] at hres
          simp at hres
        | some lastContent =>
          by_cases hdel : lastContent.GetType = CONTENT_COMMENT_DELETE
          · rw [ScoreCommentConsensus.ValidateModel_of_delete c env tx T lastContent hT hlast
              hdel] at hres
            simp at hres
          · cases hA : tx.GetAddress with
            | none =>
              unfold ScoreCommentConsensus.ValidateModel at hres
              simp [hT, hlast, hdel, hA] at hres
            | some A =>
              cases hB : lastContent.GetString1 with
              | none =>
                unfold ScoreCommentConsensus.ValidateModel at hres
                simp [hT, hlast, hdel, hA, hB] at hres
              | some B =>
                by_cases hAB : A = B
                · rw [ScoreCommentConsensus.ValidateModel_of_self c env tx A T lastContent hA
                    hT hlast hdel (hAB ▸ hB)] at hres
                  simp at hres
                · by_cases hblock : c.ValidateBlocking env B tx
                      = some (false, SocialConsensusResult_Blocking)
                  · obtain ⟨hk, row, t, hrow, hty, hval⟩ :=
                      (ScoreCommentConsensus.ValidateBlocking_eq_Blocking_iff c env B tx A
                        hA).mp hblock
                    exact ⟨hcls.mp hk, A, T, B, lastContent, row, t, rfl, rfl, hlast, hdel, hB,
                      hAB, hrow, hty, hval⟩
                  · rw [ScoreCommentConsensus.ValidateModel_of_other c env tx A B T
                      lastContent hA hT hlast hdel hB hAB hblock] at hres
                    split_ifs at hres <;> simp [Success] at hres
    · rintro ⟨hh, A, T, B, lastContent, row, t, hA, hT, hlast, hdel, hB, hAB, hrow, hty, hval⟩
      have hblock := (ScoreCommentConsensus.ValidateBlocking_eq_Blocking_iff c env B tx A
        hA).mpr ⟨hcls.mpr hh, row, t, hrow, hty, hval⟩
      unfold ScoreCommentConsensus.ValidateModel
      simp [hT, hlast, hdel, hA, hB, hAB, hblock]
  · intro hh blockings
    have hne : c.cls ≠ ScoreCommentConsensus_checkpoint_430000 := by
      intro hk
      have := hcls.mp hk
      omega
    unfold ScoreCommentConsensus.ValidateModel ScoreCommentConsensus.ValidateBlocking
    cases hk : c.cls <;> first | exact absurd hk hne | rfl

/-- C22: for the rule set `Instance` builds at the evaluation height `h`, `ValidateModel`
returns `Blocking` exactly when `430000 ≤ h < 514184` and, `A` being the actor and `T` the
scored comment: the target exists, `content` being the first row of `Transactions` that is a
confirmed last version of the root `T` (second string slot `T`, `Last = 1`, a height, a type
from 200 to 206); it is not a delete version (type 206); its author `B`, the first string
slot, is not `A`; and the last confirmed blocking record from `B` toward `A`, the first row
of `vBlockings` with the address `B`, the target address `A`, a height and `Last = 1`, has a
type read as `ACTION_BLOCKING`. For `h < 430000` and for `h ≥ 514184` the result of
`ValidateModel` is the same for every content of the blocking records. -/
theorem C22_Blocking_only_under_checkpoint_430000 (h : Int) (h0 : 0 ≤ h)
    (c : ScoreCommentConsensus) (hInst : ScoreCommentConsensusFactory.Instance h = some c)
    (env : Env) (tx : Transaction) :
    (c.ValidateModel env tx = some (false, SocialConsensusResult_Blocking)
      ↔ (430000 ≤ h ∧ h < 514184)
        ∧ ∃ (A T B : String) (content : TransactionsRow)
            (earlier later : List TransactionsRow) (blocking : ViewRow)
            (before after : List ViewRow) (t : Int),
            tx.GetAddress = some A ∧ tx.GetCommentTxHash = some T
            ∧ env.ConsensusRepoInst.Transactions = earlier ++ content :: later
            ∧ (content.String2 = some T ∧ content.Last = 1 ∧ content.Height ≠ none
                ∧ 200 ≤ content.Type_ ∧ content.Type_ ≤ 206)
            ∧ (∀ r ∈ earlier, ¬ lastContentOf T r)
            ∧ content.Type_ ≠ CONTENT_COMMENT_DELETE
            ∧ content.String1 = some B ∧ A ≠ B
            ∧ env.ConsensusRepoInst.vBlockings = before ++ blocking :: after
            ∧ (blocking.AddressHash = some B ∧ blocking.AddressToHash = some A
                ∧ blocking.Height ≠ none ∧ blocking.Last = some 1)
            ∧ (∀ r ∈ before, ¬ lastBlockingOf B A r)
            ∧ blocking.Type_ = some t ∧ sqlite3_column_int t = ACTION_BLOCKING)
    ∧ ((h < 430000 ∨ 514184 ≤ h) → ∀ blockings : List ViewRow,
        c.ValidateModel (env.withBlockings blockings) tx = c.ValidateModel env tx) := by
  obtain ⟨hiff, hrest⟩ := ScoreCommentConsensus.ValidateModel_eq_Blocking_iff h h0 c hInst env tx
  refine ⟨hiff.trans ?_, hrest⟩
  constructor
  · rintro ⟨hh, A, T, B, lastContent, row, t, hA, hT, hlast, hdel, hB, hAB, hrow, hty, hval⟩
    obtain ⟨content, earlier, later, hl, hc, hpre, rfl⟩ :=
      (GetLastContent_eq_some_iff _ _ _).mp hlast
    obtain ⟨before, after, hl2, hb, hpre2⟩ :=
      (find?_eq_some_iff_first _ _ (GetLastBlockingType_where_iff B A) _ _).mp hrow
    exact ⟨hh, A, T, B, content, earlier, later, row, before, after, t, hA, hT, hl, hc, hpre,
      hdel, hB, hAB, hl2, hb, hpre2, hty, hval⟩
  · rintro ⟨hh, A, T, B, content, earlier, later, row, before, after, t, hA, hT, hl, hc, hpre,
      hdel, hB, hAB, hl2, hb, hpre2, hty, hval⟩
    exact ⟨hh, A, T, B, _, row, t, hA, hT,
      (GetLastContent_eq_some_iff _ _ _).mpr ⟨content, earlier, later, hl, hc, hpre, rfl⟩,
      hdel, hB, hAB,
      (find?_eq_some_iff_first _ _ (GetLastBlockingType_where_iff B A) _ _).mpr
        ⟨before, after, hl2, hb, hpre2⟩, hty, hval⟩

/-- C22 at the store `env_B_blocks_A`, where the author `"B"` of the comment `"T"` blocks the
actor `"A"`: at the evaluation height 430000 the comment-score of `"A"` on `"T"` is rejected
with `Blocking`, the comment `"T"` being the second row of `Transactions` and the blocking
`"k1"` the second row of `vBlockings`; at the evaluation height 514184 the result is the one
obtained with no blocking record at all. -/
theorem C22_Blocking_only_under_checkpoint_430000_witness :
    ScoreCommentConsensus.ValidateModel ⟨ScoreCommentConsensus_checkpoint_430000, 430000⟩
        env_B_blocks_A score_A_on_T = some (false, SocialConsensusResult_Blocking)
    ∧ ScoreCommentConsensus.ValidateModel ⟨ScoreCommentConsensus_checkpoint_514184, 514184⟩
        (env_B_blocks_A.withBlockings []) score_A_on_T
      = ScoreCommentConsensus.ValidateModel ⟨ScoreCommentConsensus_checkpoint_514184, 514184⟩
        env_B_blocks_A score_A_on_T :=
  ⟨(C22_Blocking_only_under_checkpoint_430000 430000 (by decide)
      ⟨ScoreCommentConsensus_checkpoint_430000, 430000⟩
      (ScoreCommentConsensusFactory.Instance_eq 430000 (by decide))
      env_B_blocks_A score_A_on_T).1.mpr
      ⟨by decide, "A", "T", "B",
        { Type_ := 204, Hash := "T", Time := 900, Height := some 10, Last := 1,
          String1 := some "B", String2 := some "T" },
        [{ Type_ := 204, Hash := "U", Time := 890, Height := some 9, Last := 1,
           String1 := some "C", String2 := some "U" }], [],
        { Type_ := some 305, Hash := some "k1", Time := some 800, Height := some 8,
          Last := some 1, AddressHash := some "B", AddressToHash := some "A" },
        [{ Type_ := some 306, Hash := some "k0", Time := some 700, Height := some 7,
           Last := some 0, AddressHash := some "B", AddressToHash := some "A" }], [],
        305, by decide, by decide, by decide, by decide,
        by unfold lastContentOf; decide, by decide, by decide, by decide, by decide,
        by decide, by unfold lastBlockingOf; decide, by decide, by decide⟩,
   (C22_Blocking_only_under_checkpoint_430000 514184 (by decide)
      ⟨ScoreCommentConsensus_checkpoint_514184, 514184⟩
      (ScoreCommentConsensusFactory.Instance_eq 514184 (by decide))
      env_B_blocks_A score_A_on_T).2 (Or.inr (by decide)) []⟩

/-! ## The loop of `ValidateLimit(tx, block)` in closed form -/

theorem toInt32_toInt32_add (x y : Int) : toInt32 (toInt32 x + y) = toInt32 (x + y) := by
  unfold toInt32
  omega

theorem toInt32_range (x : Int) : -2147483648 ≤ toInt32 x ∧ toInt32 x < 2147483648 := by
  unfold toInt32
  omega

theorem toInt32_of_int_range (x : Int) (h0 : -2147483648 ≤ x) (h1 : x < 2147483648) :
    toInt32 x = x := by
  unfold toInt32
  omega

/-- An `int` count that does not overflow is raised by `n` after `n` increments. -/
theorem incrementInt32_eq (n : Nat) (count : Int) (h0 : -2147483648 ≤ count)
    (h1 : count + n < 2147483648) : incrementInt32 n count = count + n := by
  unfold incrementInt32
  induction n generalizing count with
  | zero => simp
  | succ n ih =>
    rw [Function.iterate_succ_apply]
    have hstep : toInt32 (count + 1) = count + 1 :=
      toInt32_of_int_range _ (by omega) (by push_cast at h1; omega)
    rw [hstep, ih (count + 1) (by omega) (by push_cast at h1 ⊢; omega)]
    push_cast
    ring

/-- The loop of `ValidateLimit(tx, block)` in closed form, for a block whose comment-scores
carry their address: a sibling whose hash is the scored comment ends it with
`DoubleCommentScore`; otherwise the count has been raised once for every sibling that
`CheckBlockLimitTime` admits, and `ValidateLimit(tx, count)` decides. -/
theorem ScoreCommentConsensus.ValidateLimit_tx_block_loop_eq (c : ScoreCommentConsensus)
    (env : Env) (tx : Transaction) (A T : String) (hA : tx.GetAddress = some A)
    (hT : tx.GetCommentTxHash = some T) (block : PocketBlock)
    (hwf : blockScoresHaveAddress tx block = true) (count : Int) :
    c.ValidateLimit_tx_block_loop env tx block count
      = if block.any (fun b => isSibling tx A b && b.GetHash == T) = true then
          some (false, SocialConsensusResult_DoubleCommentScore)
        else
          c.ValidateLimit_tx_count env tx
            (incrementInt32
              (block.countP (fun b => isSibling tx A b && c.CheckBlockLimitTime tx b)) count) := by
  induction block generalizing count with
  | nil =>
    rw [ScoreCommentConsensus.ValidateLimit_tx_block_loop]
    simp [incrementInt32]
  | cons b rest ih =>
    have hwfb : (b.GetType != ACTION_SCORE_COMMENT || b.GetHash == tx.GetHash
        || b.GetAddress.isSome) = true := by
      unfold blockScoresHaveAddress at hwf
      rw [List.all_cons, Bool.and_eq_true] at hwf
      exact hwf.1
    have hwfr : blockScoresHaveAddress tx rest = true := by
      unfold blockScoresHaveAddress at hwf ⊢
      rw [List.all_cons, Bool.and_eq_true] at hwf
      exact hwf.2
    rw [ScoreCommentConsensus.ValidateLimit_tx_block_loop, IsIn_singleton, List.any_cons,
      List.countP_cons]
    by_cases htype : b.GetType = ACTION_SCORE_COMMENT
    · by_cases hhash : b.GetHash = tx.GetHash
      · have hs : isSibling tx A b = false := by simp [isSibling, hhash]
        simp only [htype, hhash, hs, decide_True, Bool.not_true, Bool.false_eq_true, if_false,
          if_true, Bool.false_and, Bool.false_or, add_zero]
        exact ih hwfr count
      · have hsome : b.GetAddress.isSome = true := by simpa [htype, hhash] using hwfb
        obtain ⟨X, hX⟩ := Option.isSome_iff_exists.mp hsome
        by_cases hAX : A = X
        · subst hAX
          have hs : isSibling tx A b = true := by simp [isSibling, htype, hhash, hX]
          by_cases hbT : b.GetHash = T
          · subst hbT
            simp [htype, hhash, hA, hX, hT, hs]
          · have hbT2 : (b.GetHash == T) = false := by simpa using hbT
            simp only [htype, hhash, hA, hX, hT, hbT, hs, hbT2, decide_True, Bool.not_true,
              Bool.false_eq_true, if_false, if_true, Option.bind_eq_bind, Option.some_bind,
              Bool.true_and, Bool.and_false, Bool.false_or]
            rw [ih hwfr]
            by_cases hany : rest.any (fun b => isSibling tx A b && b.GetHash == T) = true
            · rw [if_pos hany, if_pos hany]
            · rw [if_neg hany, if_neg hany]
              by_cases hchk : c.CheckBlockLimitTime tx b = true
              · simp only [hchk, if_true]
                unfold incrementInt32
                rw [Function.iterate_succ_apply]
              · have hchk2 : c.CheckBlockLimitTime tx b = false := by simpa using hchk
                simp only [hchk2, Bool.false_eq_true, if_false, add_zero]
        · have hs : isSibling tx A b = false := by
            simp [isSibling, hX]
            intro _ _ h
            exact hAX h.symm
          simp only [htype, hhash, hA, hX, hs, hAX, decide_True, Bool.not_true,
            Bool.false_eq_true, if_false, Option.bind_eq_bind, Option.some_bind,
            Option.some.injEq, Bool.false_and, Bool.false_or, add_zero]
          exact ih hwfr count
    · have hs : isSibling tx A b = false := by simp [isSibling, htype]
      have hd : decide (ACTION_SCORE_COMMENT = b.GetType) = false := by
        simpa using fun h : ACTION_SCORE_COMMENT = b.GetType => htype h.symm
      simp only [hd, hs, Bool.not_false, if_true, Bool.false_and, Bool.false_or,
        Bool.false_eq_true, if_false, add_zero]
      exact ih hwfr count

/-! ## The block count from height 1124000 -/

/-- The rule sets `Instance` builds from height 1124000 are the checkpoints 1124000 and
1180000. -/
theorem ScoreCommentConsensusFactory.Instance_from_1124000 (h : Int) (h1 : 1124000 ≤ h)
    (c : ScoreCommentConsensus)
    (hInst : ScoreCommentConsensusFactory.Instance h = some c) :
    c.cls = ScoreCommentConsensus_checkpoint_1124000
      ∨ c.cls = ScoreCommentConsensus_checkpoint_1180000 := by
  rw [ScoreCommentConsensusFactory.Instance_eq h (by omega)] at hInst
  have hc := (Option.some.inj hInst).symm
  rw [hc]
  simp only
  rw [if_neg (by omega), if_neg (by omega), if_neg (by omega)]
  by_cases hb : h < 1180000
  · simp [hb]
  · simp [hb]

/-- C21: under the rule set `Instance` builds at a height `h ≥ 1124000`, for a block whose
other comment-scores carry their address and in which no sibling has the scored comment as
its hash, the loop of `ValidateLimit(tx, block)` hands to `ValidateLimit(tx, count)` the count it
started from plus the number of siblings (the block transactions of type
`ACTION_SCORE_COMMENT` with the actor's address and a hash other than that of `tx`), their
times playing no part, the `int` count not overflowing; a block transaction with the hash of
`tx`, of another type or of another actor leaves the count as it is. -/
theorem C21_block_count_from_1124000 (h : Int) (h1 : 1124000 ≤ h) (c : ScoreCommentConsensus)
    (hInst : ScoreCommentConsensusFactory.Instance h = some c) (env : Env) (tx : Transaction)
    (A T : String) (hA : tx.GetAddress = some A) (hT : tx.GetCommentTxHash = some T)
    (block : PocketBlock) (hwf : blockScoresHaveAddress tx block = true)
    (hnot : ∀ b ∈ block, isSibling tx A b = true → b.GetHash ≠ T)
    (count : Int) (hlow : -2147483648 ≤ count)
    (hfit : count + (block.filter (isSibling tx A)).length < 2147483648) :
    c.ValidateLimit_tx_block_loop env tx block count
      = c.ValidateLimit_tx_count env tx (count + (block.filter (isSibling tx A)).length)
    ∧ (∀ b : Transaction, isSibling tx A b = true
        ↔ b.GetType = ACTION_SCORE_COMMENT ∧ b.GetHash ≠ tx.GetHash ∧ b.GetAddress = some A)
    ∧ (∀ (b : Transaction) (rest : PocketBlock) (n : Int),
        (b.GetHash = tx.GetHash ∨ b.GetType ≠ ACTION_SCORE_COMMENT
          ∨ ∃ B, b.GetAddress = some B ∧ B ≠ A) →
        c.ValidateLimit_tx_block_loop env tx (b :: rest) n
          = c.ValidateLimit_tx_block_loop env tx rest n) := by
  have hcls := ScoreCommentConsensusFactory.Instance_from_1124000 h h1 c hInst
  have hchk : ∀ b, c.CheckBlockLimitTime tx b = true := by
    intro b
    unfold ScoreCommentConsensus.CheckBlockLimitTime
    rcases hcls with hk | hk <;> rw [hk]
  refine ⟨?_, ?_, ?_⟩
  · rw [ScoreCommentConsensus.ValidateLimit_tx_block_loop_eq c env tx A T hA hT block hwf count]
    have hany : ¬ (block.any (fun b => isSibling tx A b && b.GetHash == T) = true) := by
      rw [List.any_eq_true]
      rintro ⟨b, hb, hbb⟩
      rw [Bool.and_eq_true, beq_iff_eq] at hbb
      exact hnot b hb hbb.1 hbb.2
    rw [if_neg hany]
    have hcount : block.countP (fun b => isSibling tx A b && c.CheckBlockLimitTime tx b)
        = (block.filter (isSibling tx A)).length := by
      rw [List.countP_eq_length_filter]
      congr 1
      apply List.filter_congr
      intro b _
      rw [hchk b, Bool.and_true]
    rw [hcount, incrementInt32_eq _ _ hlow hfit]
  · intro b
    simp [isSibling, and_assoc]
  · intro b rest n hb
    rw [ScoreCommentConsensus.ValidateLimit_tx_block_loop, IsIn_singleton]
    by_cases htype : b.GetType = ACTION_SCORE_COMMENT
    · by_cases hhash : b.GetHash = tx.GetHash
      · simp [htype, hhash]
      · rcases hb with hb | hb | ⟨B, hB, hBA⟩
        · exact absurd hb hhash
        · exact absurd htype hb
        · have hAB : ¬ A = B := fun hx => hBA hx.symm
          simp [htype, hhash, hA, hB, hAB]
    · have hd : decide (ACTION_SCORE_COMMENT = b.GetType) = false := by
        simpa using fun hx : ACTION_SCORE_COMMENT = b.GetType => htype hx.symm
      simp [hd]

/-- C21 at height 1124000 for the block `block_with_two_siblings`: from the count 298 the
two siblings of the Trial actor `"A"`, one of them later than the validated transaction, take
the count to the limit of 300; the validated transaction itself, the comment-score of `"C"`
and the registration are not counted. -/
theorem C21_block_count_from_1124000_witness :
    ScoreCommentConsensus.ValidateLimit_tx_block_loop
        ⟨ScoreCommentConsensus_checkpoint_1124000, 1124000⟩ env_registered score_A_on_T
        block_with_two_siblings 298
      = ScoreCommentConsensus.ValidateLimit_tx_count
          ⟨ScoreCommentConsensus_checkpoint_1124000, 1124000⟩ env_registered score_A_on_T
          (298 + (block_with_two_siblings.filter (isSibling score_A_on_T "A")).length)
    ∧ (block_with_two_siblings.filter (isSibling score_A_on_T "A")).length = 2
    ∧ ScoreCommentConsensus.ValidateLimit_tx_block_loop
        ⟨ScoreCommentConsensus_checkpoint_1124000, 1124000⟩ env_registered score_A_on_T
        block_with_two_siblings 298
      = some (false, SocialConsensusResult_CommentScoreLimit) :=
  ⟨(C21_block_count_from_1124000 1124000 (by decide)
      ⟨ScoreCommentConsensus_checkpoint_1124000, 1124000⟩
      (ScoreCommentConsensusFactory.Instance_eq 1124000 (by decide))
      env_registered score_A_on_T "A" "T" (by decide) (by decide) block_with_two_siblings
      (by decide) (by decide) 298 (by decide) (by decide)).1,
   by decide, by decide⟩

/-! ## Block validation and the order of the block -/

theorem all_eq_of_perm (p : Transaction → Bool) (block block2 : PocketBlock)
    (hperm : block.Perm block2) : block.all p = block2.all p := by
  rw [Bool.eq_iff_iff, List.all_eq_true, List.all_eq_true]
  constructor
  · intro hx b hb
    exact hx b (hperm.mem_iff.mpr hb)
  · intro hx b hb
    exact hx b (hperm.mem_iff.mp hb)

theorem any_eq_of_perm (p : Transaction → Bool) (block block2 : PocketBlock)
    (hperm : block.Perm block2) : block.any p = block2.any p := by
  rw [Bool.eq_iff_iff, List.any_eq_true, List.any_eq_true]
  constructor
  · rintro ⟨b, hb, hp⟩
    exact ⟨b, hperm.mem_iff.mp hb, hp⟩
  · rintro ⟨b, hb, hp⟩
    exact ⟨b, hperm.mem_iff.mpr hb, hp⟩

/-- The addresses a block leaves to be looked up do not depend on the order of the block. -/
theorem notExempt_eq_of_perm (block block2 : PocketBlock) (hperm : block.Perm block2)
    (addresses : List String) : notExempt block addresses = notExempt block2 addresses := by
  unfold notExempt
  apply List.filter_congr
  intro a _
  have hmem : a ∈ blockRegistrations block ↔ a ∈ blockRegistrations block2 := by
    unfold blockRegistrations
    exact (hperm.filterMap _).mem_iff
  by_cases hx : a ∈ blockRegistrations block
  · simp [hx, hmem.mp hx]
  · have hx2 : a ∉ blockRegistrations block2 := fun hy => hx (hmem.mpr hy)
    simp [hx, hx2]

/-- The limit step of block validation does not depend on the order of the block. -/
theorem ScoreCommentConsensus.ValidateLimit_tx_block_eq_of_perm (c : ScoreCommentConsensus)
    (env : Env) (tx : Transaction) (A T : String) (hA : tx.GetAddress = some A)
    (hT : tx.GetCommentTxHash = some T) (block block2 : PocketBlock)
    (hperm : block.Perm block2) (hwf : blockScoresHaveAddress tx block = true) :
    c.ValidateLimit_tx_block env tx block = c.ValidateLimit_tx_block env tx block2 := by
  have hwf2 : blockScoresHaveAddress tx block2 = true := by
    unfold blockScoresHaveAddress at hwf ⊢
    rw [← all_eq_of_perm _ block block2 hperm]
    exact hwf
  unfold ScoreCommentConsensus.ValidateLimit_tx_block
  cases hcount : c.GetChainCount env tx with
  | none => rfl
  | some count =>
    simp only [Option.bind_eq_bind, Option.some_bind]
    rw [ScoreCommentConsensus.ValidateLimit_tx_block_loop_eq c env tx A T hA hT block hwf,
      ScoreCommentConsensus.ValidateLimit_tx_block_loop_eq c env tx A T hA hT block2 hwf2,
      any_eq_of_perm _ block block2 hperm, hperm.countP_eq]

/-- Block validation returns the same for a candidate block and for every permutation of it,
when the `ACCOUNT_USER` transactions and the other `ACTION_SCORE_COMMENT` transactions of the
block carry their address. -/
theorem ScoreCommentConsensus.Validate_tx_block_eq_of_perm (c : ScoreCommentConsensus)
    (env : Env)
    (tx : Transaction) (block block2 : PocketBlock) (hperm : block.Perm block2)
    (hwfU : blockUsersHaveAddress block = true)
    (hwfS : blockScoresHaveAddress tx block = true) :
    c.Validate_tx_block env tx block = c.Validate_tx_block env tx block2 := by
  have hwfU2 : blockUsersHaveAddress block2 = true := by
    unfold blockUsersHaveAddress at hwfU ⊢
    rw [← all_eq_of_perm _ block block2 hperm]
    exact hwfU
  unfold ScoreCommentConsensus.Validate_tx_block
  cases hA : tx.GetAddress with
  | none =>
    unfold SocialBaseConsensus.Validate_tx_block
    simp [ScoreCommentConsensus.toSocialBaseConsensus,
      ScoreCommentConsensus.GetAddressesForCheckRegistration, hA]
  | some A =>
    have haddr := ScoreCommentConsensus.GetAddressesForCheckRegistration_eq c tx A hA
    have hrest : c.toSocialBaseConsensus.Validate_tx_block_rest env tx block
        = c.toSocialBaseConsensus.Validate_tx_block_rest env tx block2 := by
      unfold SocialBaseConsensus.Validate_tx_block_rest
      cases hT : tx.GetCommentTxHash with
      | none =>
        have hm : c.toSocialBaseConsensus.ValidateModel env tx = none := by
          simp [ScoreCommentConsensus.toSocialBaseConsensus,
            ScoreCommentConsensus.ValidateModel, hT]
        rw [hm]
        rfl
      | some T =>
        have hl : c.toSocialBaseConsensus.ValidateLimit_tx_block env tx block
            = c.toSocialBaseConsensus.ValidateLimit_tx_block env tx block2 :=
          ScoreCommentConsensus.ValidateLimit_tx_block_eq_of_perm c env tx A T hA hT block
            block2 hperm hwfS
        rw [hl]
    rw [SocialBaseConsensus.Validate_tx_block_eq _ env tx block [A] haddr hwfU,
      SocialBaseConsensus.Validate_tx_block_eq _ env tx block2 [A] haddr hwfU2,
      notExempt_eq_of_perm block block2 hperm, hrest]

/-! ## `PocketFrontend::GetFile` -/

open PocketWeb PocketWeb.HTTPStatusCode

/-- The search finds the pattern where it starts at the front. -/
theorem string_find_from_of_isPrefixOf (pat s : List Char) (pos : Nat)
    (h : pat.isPrefixOf s = true) : string_find_from pat s pos = some pos := by
  cases s with
  | nil => simp [string_find_from, h]
  | cons ch s => simp [string_find_from, h]

/-- Function `std::string::find` answers a position exactly when the string contains the
pattern. -/
theorem string_find_from_isSome_iff (pat s : List Char) (pos : Nat) :
    (string_find_from pat s pos).isSome = true ↔ ∃ pre post, s = pre ++ pat ++ post := by
  induction s generalizing pos with
  | nil =>
    unfold string_find_from
    by_cases hp : pat.isPrefixOf [] = true
    · rw [if_pos hp]
      have hnil : pat = [] := by
        cases pat with
        | nil => rfl
        | cons a l => simp [List.isPrefixOf] at hp
      simp only [Option.isSome_some, true_iff]
      exact ⟨[], [], by simp [hnil]⟩
    · rw [if_neg hp]
      simp only [Option.isSome_none, Bool.false_eq_true, false_iff]
      rintro ⟨pre, post, hs⟩
      have h1 : pre ++ pat ++ post = [] := hs.symm
      simp only [List.append_eq_nil] at h1
      apply hp
      rw [h1.1.2]
      rfl
  | cons ch s ih =>
    unfold string_find_from
    by_cases hp : pat.isPrefixOf (ch :: s) = true
    · rw [if_pos hp]
      simp only [Option.isSome_some, true_iff]
      obtain ⟨t, ht⟩ := List.isPrefixOf_iff_prefix.mp hp
      exact ⟨[], t, by simp [ht]⟩
    · rw [if_neg hp, ih]
      constructor
      · rintro ⟨pre, post, hs⟩
        exact ⟨ch :: pre, post, by simp [hs]⟩
      · rintro ⟨pre, post, hs⟩
        cases pre with
        | nil =>
          exfalso
          apply hp
          rw [List.isPrefixOf_iff_prefix]
          exact ⟨post, by simpa using hs.symm⟩
        | cons a pre =>
          simp only [List.cons_append, List.cons.injEq] at hs
          exact ⟨pre, post, hs.2⟩

/-- The call `GetFile("/index.html", true)` ends without a call to itself, with one unit of
fuel. -/
theorem GetFile_index (disk : String → Option String) (fuel : Nat) (fe : PocketFrontend) :
    ∃ o, PocketFrontend.GetFile disk (fuel + 1) fe "/index.html" true = some o
      ∧ o.calls.countP isRecursiveCall = 0 := by
  have h1 : (string_find "/index.html" "..").isSome = false := by decide
  have h2 : ("/index.html" : String).isEmpty = false := by decide
  rw [PocketFrontend.GetFile]
  simp only [h1, h2, Bool.false_eq_true, if_false, Bool.not_true]
  split
  · exact ⟨_, rfl, by simp [isRecursiveCall]⟩
  · split
    · exact ⟨_, rfl, by simp [isRecursiveCall]⟩
    · exact ⟨_, rfl, by simp [isRecursiveCall]⟩

/-- The call `GetFile("/index.html", true)` gives the same outcome with every amount of
fuel. -/
theorem GetFile_index_fuel (disk : String → Option String) (fuel : Nat) (fe : PocketFrontend) :
    PocketFrontend.GetFile disk (fuel + 1) fe "/index.html" true
      = PocketFrontend.GetFile disk 1 fe "/index.html" true := by
  have h1 : (string_find "/index.html" "..").isSome = false := by decide
  have h2 : ("/index.html" : String).isEmpty = false := by decide
  rw [PocketFrontend.GetFile]
  conv_rhs => rw [PocketFrontend.GetFile]
  simp only [h1, h2, Bool.false_eq_true, if_false, Bool.not_true]

/-- Two units of fuel give `GetFile` the outcome every greater amount gives. -/
theorem GetFile_fuel (disk : String → Option String) (fuel : Nat) (fe : PocketFrontend)
    (path : String) (stopRecurse : Bool) :
    PocketFrontend.GetFile disk (fuel + 2) fe path stopRecurse
      = PocketFrontend.GetFile disk 2 fe path stopRecurse := by
  rw [show fuel + 2 = (fuel + 1) + 1 from rfl, PocketFrontend.GetFile]
  conv_rhs => rw [PocketFrontend.GetFile]
  simp only [GetFile_index_fuel disk fuel fe]

/-- With two units of fuel `GetFile` returns, having called itself at most once. -/
theorem GetFile_returns (disk : String → Option String) (fe : PocketFrontend)
    (path : String) (stopRecurse : Bool) :
    ∃ o, PocketFrontend.GetFile disk 2 fe path stopRecurse = some o
      ∧ o.calls.countP isRecursiveCall ≤ 1 := by
  obtain ⟨oi, hoi, hci⟩ := GetFile_index disk 0 fe
  rw [PocketFrontend.GetFile]
  simp only [hoi, PocketFrontend.Outcome.after]
  split
  · exact ⟨_, rfl, by simp⟩
  · split
    · exact ⟨_, rfl, by simp [isRecursiveCall, hci]⟩
    · split
      · exact ⟨_, rfl, by simp [isRecursiveCall]⟩
      · split
        · split
          · exact ⟨_, rfl, by simp [isRecursiveCall, hci]⟩
          · exact ⟨_, rfl, by simp [isRecursiveCall]⟩
        · exact ⟨_, rfl, by simp [isRecursiveCall]⟩

/-- C30: for every path that contains `".."`, `GetFile` returns `HTTP_BAD_REQUEST` with no
file for both values of `stopRecurse`, whatever the cache and the disk hold, with no call to
the cache or the disk and with the object unchanged; and for every path, two units of fuel
are enough for `GetFile` to return, having called itself at most once. -/
theorem C30_GetFile_dotdot_and_recursion (disk : String → Option String) (fuel : Nat)
    (fe : PocketFrontend) (path : String) (stopRecurse : Bool) :
    (containsDotDot path →
      PocketFrontend.GetFile disk (fuel + 1) fe path stopRecurse
        = some { status := HTTP_BAD_REQUEST, file := none, frontend := fe, calls := [] })
    ∧ (∃ o, PocketFrontend.GetFile disk (fuel + 2) fe path stopRecurse = some o
        ∧ o.calls.countP isRecursiveCall ≤ 1
        ∧ PocketFrontend.GetFile disk 2 fe path stopRecurse = some o) := by
  constructor
  · intro hdots
    have hfind : (string_find path "..").isSome = true := by
      unfold string_find
      rw [string_find_from_isSome_iff]
      exact hdots
    rw [PocketFrontend.GetFile]
    simp only [hfind, if_true]
  · obtain ⟨o, ho, hcount⟩ := GetFile_returns disk fe path stopRecurse
    exact ⟨o, by rw [GetFile_fuel, ho], hcount, ho⟩

/-- C30 at the path `"a/../b"` for the frontend `frontend_after_Init` and the disk
`disk_with_index`: the request is refused with `HTTP_BAD_REQUEST`, no file, no call and the
object unchanged. -/
theorem C30_GetFile_dotdot_and_recursion_witness :
    PocketFrontend.GetFile disk_with_index 1 frontend_after_Init "a/../b" false
      = some { status := HTTP_BAD_REQUEST, file := none, frontend := frontend_after_Init,
               calls := [] } :=
  (C30_GetFile_dotdot_and_recursion disk_with_index 0 frontend_after_Init "a/../b" false).1
    ⟨"a/".data, "/b".data, by decide⟩

/-! ## The connection lock across `TryTransactionStep` -/

/-- C24, evaluated on the code, from a connection with the lock free and no store
transaction open. A run that returns and a run whose body throws end with the lock free and
no transaction open. A run in which `BEGIN TRANSACTION` fails ends with the lock still held:
`BeginTransaction` has locked `m_connection_mutex`, and `AbortTransaction`, called by the
`catch` block, returns before its `unlock` because no transaction is open. A run in which
`COMMIT TRANSACTION` fails and leaves the transaction open ends with the lock released
twice, once by `CommitTransaction` and once by `AbortTransaction`. -/
theorem C24_lock_after_TryTransactionStep :
    TryTransactionStep {} {} (CallResult.returned true) = ({}, CallResult.returned true)
    ∧ TryTransactionStep {} {} (CallResult.thrown "step" : CallResult Bool)
      = ({}, CallResult.thrown "step")
    ∧ TryTransactionStep { beginOk := false } {} (CallResult.returned true)
      = ({ m_db := true, autocommit := true, m_connection_mutex := 1 },
         CallResult.thrown "TryTransactionStep: can't begin transaction\n")
    ∧ (SQLiteDatabase.BeginTransaction { beginOk := false } {}).2.m_connection_mutex = 1
    ∧ SQLiteDatabase.AbortTransaction { beginOk := false }
        (SQLiteDatabase.BeginTransaction { beginOk := false } {}).2
      = (false, { m_db := true, autocommit := true, m_connection_mutex := 1 })
    ∧ TryTransactionStep { commitOk := false } {} (CallResult.returned true)
      = ({ m_db := true, autocommit := true, m_connection_mutex := -1 },
         CallResult.thrown "TryTransactionStep: can't commit transaction\n") := by
  decide

/-! ## Block validation for every block -/

/-- A registration loop that has a result has met no `ACCOUNT_USER` transaction without an
address. -/
theorem SocialBaseConsensus.blockUsersHaveAddress_of_loop (block : PocketBlock)
    (addresses left : List String)
    (h : SocialBaseConsensus.Validate_tx_block_loop block addresses = some left) :
    blockUsersHaveAddress block = true := by
  induction block generalizing addresses with
  | nil => rfl
  | cons b rest ih =>
    unfold blockUsersHaveAddress
    rw [List.all_cons, Bool.and_eq_true]
    rw [SocialBaseConsensus.Validate_tx_block_loop, IsIn_singleton] at h
    by_cases htype : b.GetType = ACCOUNT_USER
    · cases hX : b.GetString1 with
      | none => simp [htype, hX] at h
      | some X =>
        simp only [htype, hX, decide_True, Bool.not_true, Bool.false_eq_true, if_false,
          Option.bind_eq_bind, Option.some_bind] at h
        refine ⟨by simp, ?_⟩
        split_ifs at h
        · exact ih _ h
        · exact ih _ h
    · have hd : decide (ACCOUNT_USER = b.GetType) = false := by
        simpa using fun hx : ACCOUNT_USER = b.GetType => htype hx.symm
      simp only [hd, Bool.not_false, if_true] at h
      refine ⟨by simp [htype], ?_⟩
      exact ih _ h

/-- A loop of `ValidateLimit(tx, block)` that has a result in a block where a sibling has the
scored comment as its hash has ended with `DoubleCommentScore`. -/
theorem ScoreCommentConsensus.ValidateLimit_tx_block_loop_of_duplicate
    (c : ScoreCommentConsensus) (env : Env) (tx : Transaction) (A T : String)
    (hA : tx.GetAddress = some A) (hT : tx.GetCommentTxHash = some T) (block : PocketBlock)
    (hdup : block.any (fun b => isSibling tx A b && b.GetHash == T) = true) (count : Int)
    (r : ConsensusResult) (h : c.ValidateLimit_tx_block_loop env tx block count = some r) :
    r = (false, SocialConsensusResult_DoubleCommentScore) := by
  induction block generalizing count with
  | nil => simp at hdup
  | cons b rest ih =>
    rw [List.any_cons, Bool.or_eq_true] at hdup
    rw [ScoreCommentConsensus.ValidateLimit_tx_block_loop, IsIn_singleton] at h
    by_cases htype : b.GetType = ACTION_SCORE_COMMENT
    · by_cases hhash : b.GetHash = tx.GetHash
      · have hs : isSibling tx A b = false := by simp [isSibling, hhash]
        simp only [htype, hhash, decide_True, Bool.not_true, Bool.false_eq_true, if_false,
          if_true] at h
        rcases hdup with hd | hd
        · simp [hs] at hd
        · exact ih hd count h
      · cases hX : b.GetAddress with
        | none => simp [htype, hhash, hA, hX] at h
        | some X =>
          by_cases hAX : A = X
          · subst hAX
            by_cases hbT : b.GetHash = T
            · subst hbT
              simp [htype, hhash, hA, hX, hT] at h
              exact h.symm
            · have hbT2 : (b.GetHash == T) = false := by simpa using hbT
              simp only [htype, hhash, hA, hX, hT, hbT, decide_True, Bool.not_true,
                Bool.false_eq_true, if_false, if_true, Option.bind_eq_bind,
                Option.some_bind] at h
              rcases hdup with hd | hd
              · simp [hbT2] at hd
              · exact ih hd _ h
          · have hs : isSibling tx A b = false := by
              simp [isSibling, hX]
              intro _ _ hx
              exact hAX hx.symm
            simp only [htype, hhash, hA, hX, hAX, decide_True, Bool.not_true,
              Bool.false_eq_true, if_false, Option.bind_eq_bind, Option.some_bind,
              Option.some.injEq] at h
            rcases hdup with hd | hd
            · simp [hs] at hd
            · exact ih hd count h
    · have hs : isSibling tx A b = false := by simp [isSibling, htype]
      have hd2 : decide (ACTION_SCORE_COMMENT = b.GetType) = false := by
        simpa using fun hx : ACTION_SCORE_COMMENT = b.GetType => htype hx.symm
      simp only [hd2, Bool.not_false, if_true] at h
      rcases hdup with hd | hd
      · simp [hs] at hd
      · exact ih hd count h

/-- A loop of `ValidateLimit(tx, block)` that has a result in a block where no sibling has the
scored comment as its hash has met no other comment-score without an address. -/
theorem ScoreCommentConsensus.blockScoresHaveAddress_of_loop (c : ScoreCommentConsensus)
    (env : Env) (tx : Transaction) (A T : String) (hA : tx.GetAddress = some A)
    (hT : tx.GetCommentTxHash = some T) (block : PocketBlock)
    (hdup : block.any (fun b => isSibling tx A b && b.GetHash == T) = false) (count : Int)
    (r : ConsensusResult) (h : c.ValidateLimit_tx_block_loop env tx block count = some r) :
    blockScoresHaveAddress tx block = true := by
  induction block generalizing count with
  | nil => rfl
  | cons b rest ih =>
    rw [List.any_cons, Bool.or_eq_false_iff] at hdup
    unfold blockScoresHaveAddress
    rw [List.all_cons, Bool.and_eq_true]
    rw [ScoreCommentConsensus.ValidateLimit_tx_block_loop, IsIn_singleton] at h
    by_cases htype : b.GetType = ACTION_SCORE_COMMENT
    · by_cases hhash : b.GetHash = tx.GetHash
      · simp only [htype, hhash, decide_True, Bool.not_true, Bool.false_eq_true, if_false,
          if_true] at h
        exact ⟨by simp [hhash], ih hdup.2 count h⟩
      · cases hX : b.GetAddress with
        | none => simp [htype, hhash, hA, hX] at h
        | some X =>
          refine ⟨by simp, ?_⟩
          by_cases hAX : A = X
          · subst hAX
            have hs : isSibling tx A b = true := by simp [isSibling, htype, hhash, hX]
            have hbT : b.GetHash ≠ T := by
              have := hdup.1
              rw [hs, Bool.true_and] at this
              simpa using this
            simp only [htype, hhash, hA, hX, hT, hbT, decide_True, Bool.not_true,
              Bool.false_eq_true, if_false, if_true, Option.bind_eq_bind,
              Option.some_bind] at h
            exact ih hdup.2 _ h
          · simp only [htype, hhash, hA, hX, hAX, decide_True, Bool.not_true,
              Bool.false_eq_true, if_false, Option.bind_eq_bind, Option.some_bind,
              Option.some.injEq] at h
            exact ih hdup.2 count h
    · have hd2 : decide (ACTION_SCORE_COMMENT = b.GetType) = false := by
        simpa using fun hx : ACTION_SCORE_COMMENT = b.GetType => htype hx.symm
      simp only [hd2, Bool.not_false, if_true] at h
      exact ⟨by simp [htype], ih hdup.2 count h⟩

/-- Two results of the limit step of block validation, for a block and a permutation of it,
are the same result. -/
theorem ScoreCommentConsensus.ValidateLimit_tx_block_unique_of_perm
    (c : ScoreCommentConsensus) (env : Env) (tx : Transaction) (T : String)
    (hT : tx.GetCommentTxHash = some T) (block block2 : PocketBlock)
    (hperm : block.Perm block2) (r r2 : ConsensusResult)
    (h : c.ValidateLimit_tx_block env tx block = some r)
    (h2 : c.ValidateLimit_tx_block env tx block2 = some r2) : r = r2 := by
  cases hA : tx.GetAddress with
  | none =>
    unfold ScoreCommentConsensus.ValidateLimit_tx_block ScoreCommentConsensus.GetChainCount
      at h
    cases hk : c.cls <;> simp [hk, hA] at h
  | some A =>
    by_cases hdup : block.any (fun b => isSibling tx A b && b.GetHash == T) = true
    · have hdup2 : block2.any (fun b => isSibling tx A b && b.GetHash == T) = true := by
        rw [← any_eq_of_perm _ block block2 hperm]
        exact hdup
      unfold ScoreCommentConsensus.ValidateLimit_tx_block at h h2
      cases hcount : c.GetChainCount env tx with
      | none => simp [hcount] at h
      | some count =>
        simp only [hcount, Option.bind_eq_bind, Option.some_bind] at h h2
        rw [ScoreCommentConsensus.ValidateLimit_tx_block_loop_of_duplicate c env tx A T hA hT
            block hdup count r h,
          ScoreCommentConsensus.ValidateLimit_tx_block_loop_of_duplicate c env tx A T hA hT
            block2 hdup2 count r2 h2]
    · have hdupf : block.any (fun b => isSibling tx A b && b.GetHash == T) = false := by
        simpa using hdup
      have hwf : blockScoresHaveAddress tx block = true := by
        unfold ScoreCommentConsensus.ValidateLimit_tx_block at h
        cases hcount : c.GetChainCount env tx with
        | none => simp [hcount] at h
        | some count =>
          simp only [hcount, Option.bind_eq_bind, Option.some_bind] at h
          exact ScoreCommentConsensus.blockScoresHaveAddress_of_loop c env tx A T hA hT block
            hdupf count r h
      have heq := ScoreCommentConsensus.ValidateLimit_tx_block_eq_of_perm c env tx A T hA hT
        block block2 hperm hwf
      rw [heq, h2] at h
      exact (Option.some.inj h).symm

/-- Two results of block validation, for a block and a permutation of it, are the same
result. -/
theorem ScoreCommentConsensus.Validate_tx_block_unique_of_perm (c : ScoreCommentConsensus)
    (env : Env) (tx : Transaction) (block block2 : PocketBlock) (hperm : block.Perm block2)
    (r r2 : ConsensusResult) (h : c.Validate_tx_block env tx block = some r)
    (h2 : c.Validate_tx_block env tx block2 = some r2) : r = r2 := by
  unfold ScoreCommentConsensus.Validate_tx_block at h h2
  cases hA : tx.GetAddress with
  | none =>
    unfold SocialBaseConsensus.Validate_tx_block at h
    simp [ScoreCommentConsensus.toSocialBaseConsensus,
      ScoreCommentConsensus.GetAddressesForCheckRegistration, hA] at h
  | some A =>
    have haddr := ScoreCommentConsensus.GetAddressesForCheckRegistration_eq c tx A hA
    have hwfU : blockUsersHaveAddress block = true := by
      unfold SocialBaseConsensus.Validate_tx_block at h
      rw [haddr] at h
      simp only [Option.bind_eq_bind, Option.some_bind, List.isEmpty_cons, Bool.not_false,
        if_true] at h
      cases hloop : SocialBaseConsensus.Validate_tx_block_loop block [A] with
      | none => simp [hloop] at h
      | some left => exact SocialBaseConsensus.blockUsersHaveAddress_of_loop block [A] left hloop
    have hwfU2 : blockUsersHaveAddress block2 = true := by
      unfold blockUsersHaveAddress at hwfU ⊢
      rw [← all_eq_of_perm _ block block2 hperm]
      exact hwfU
    rw [SocialBaseConsensus.Validate_tx_block_eq _ env tx block [A] haddr hwfU] at h
    rw [SocialBaseConsensus.Validate_tx_block_eq _ env tx block2 [A] haddr hwfU2,
      ← notExempt_eq_of_perm block block2 hperm] at h2
    simp only [List.isEmpty_cons, Bool.false_eq_true, if_false] at h h2
    split_ifs at h h2 with hgate
    · exact (Option.some.inj h).symm.trans (Option.some.inj h2)
    · unfold SocialBaseConsensus.Validate_tx_block_rest at h h2
      have hmodel : c.toSocialBaseConsensus.ValidateModel env tx = c.ValidateModel env tx := rfl
      have hlimit : ∀ blk, c.toSocialBaseConsensus.ValidateLimit_tx_block env tx blk
          = c.ValidateLimit_tx_block env tx blk := fun _ => rfl
      rw [hmodel, hlimit] at h h2
      cases hm : c.ValidateModel env tx with
      | none => simp [hm] at h
      | some res =>
        obtain ⟨ok, result⟩ := res
        cases ok with
        | false =>
          simp [hm] at h h2
          exact h.symm.trans h2
        | true =>
          cases hT : tx.GetCommentTxHash with
          | none =>
            unfold ScoreCommentConsensus.ValidateModel at hm
            simp [hT] at hm
          | some T =>
            cases hL : c.ValidateLimit_tx_block env tx block with
            | none => simp [hm, hL] at h
            | some x =>
              cases hL2 : c.ValidateLimit_tx_block env tx block2 with
              | none => simp [hm, hL2] at h2
              | some x2 =>
                have hx := ScoreCommentConsensus.ValidateLimit_tx_block_unique_of_perm c env
                  tx T hT block block2 hperm x x2 hL hL2
                subst hx
                simp only [hm, hL, hL2, Option.bind_eq_bind, Option.some_bind] at h h2
                exact (Option.some.inj (h.symm.trans h2))

/-- C25: for every comment-score transaction `tx`, every store state and every rule set, and
for every permutation `block2` of the candidate block `block`: when the `ACCOUNT_USER`
transactions and the other `ACTION_SCORE_COMMENT` transactions of the block carry their
address (the loops dereference it), block validation returns the same for `block` and for
`block2`; and in every case, two results of block validation for `block` and for `block2`
are the same result. -/
theorem C25_block_validation_ignores_order (c : ScoreCommentConsensus) (env : Env)
    (tx : Transaction) (block block2 : PocketBlock) (hperm : block.Perm block2) :
    (blockUsersHaveAddress block = true → blockScoresHaveAddress tx block = true →
      c.Validate_tx_block env tx block = c.Validate_tx_block env tx block2)
    ∧ (∀ r r2 : ConsensusResult, c.Validate_tx_block env tx block = some r →
        c.Validate_tx_block env tx block2 = some r2 → r = r2) :=
  ⟨ScoreCommentConsensus.Validate_tx_block_eq_of_perm c env tx block block2 hperm,
   ScoreCommentConsensus.Validate_tx_block_unique_of_perm c env tx block block2 hperm⟩

/-- C25 for the block `block_with_two_siblings` and its reverse, under the base rule set at
height 100, where the time of a sibling matters: both orders give the same result. -/
theorem C25_block_validation_ignores_order_witness :
    ScoreCommentConsensus.Validate_tx_block ⟨ScoreCommentConsensus_base, 100⟩ env_registered
        score_A_on_T block_with_two_siblings
      = ScoreCommentConsensus.Validate_tx_block ⟨ScoreCommentConsensus_base, 100⟩
          env_registered score_A_on_T block_with_two_siblings.reverse :=
  (C25_block_validation_ignores_order ⟨ScoreCommentConsensus_base, 100⟩ env_registered
    score_A_on_T block_with_two_siblings block_with_two_siblings.reverse
    (List.reverse_perm block_with_two_siblings).symm).1 (by decide) (by decide)

end PocketConsensus
